import Mathlib

/-!
# MapStruct: a shallow embedding of `mapStruct.go`

The Go program copies the fields of a source struct into the same-named fields
of a destination struct through `reflect`, coercing between numeric, textual,
pointer, interface and `sql.Null*` values.

Conventions of the embedding:

* A `reflect.Value` is a `Val`: a Go value together with its static type.
  A pointer inside a value owns its referent: it points to a variable that
  nothing else refers to.  An interface value is nil or holds its dynamic
  value.
* Variables that are shared (a pointer field that points to another field,
  the fields of an embedded struct) are laid out in a `Memory`, in which
  `mapStructFieldsMem` reads and writes them in place; `mapStructFields` is the
  same function on struct values that share nothing.
* Machine integers are `Int`/`Nat` with explicit wrap-around to the bit width.
* A Go `string` is a Lean `String` read as its list of characters.
* IEEE-754 floats are their bit patterns (`Nat`), decoded on use.
* A run-time panic of `reflect` is the result `none`.
* The functions of `strconv` and `strings` the program calls are modelled from
  their documented behaviour; `strconv.ParseFloat` is a field of `Arch`, and
  `ParseFloat` is its model on the platform `refArch`.
-/

namespace MapStruct

/-! ## Kinds and types -/

/-- The `reflect.Kind` enumeration. -/
inductive Kind
  | Invalid | Bool
  | Int | Int8 | Int16 | Int32 | Int64
  | Uint | Uint8 | Uint16 | Uint32 | Uint64 | Uintptr
  | Float32 | Float64 | Complex64 | Complex128
  | Array | Chan | Func | Interface | Map | Ptr | Slice | String | Struct
  | UnsafePointer
  deriving DecidableEq, Repr

/-- The basic kinds a non-composite Go type can have in this model. -/
inductive Prim
  | bool
  | int | int8 | int16 | int32 | int64
  | uint | uint8 | uint16 | uint32 | uint64 | uintptr
  | float32 | float64
  | string
  deriving DecidableEq, Repr

/-- The `reflect.Kind` of a basic type. -/
def Prim.kind : Prim → Kind
  | .bool => .Bool
  | .int => .Int | .int8 => .Int8 | .int16 => .Int16 | .int32 => .Int32
  | .int64 => .Int64
  | .uint => .Uint | .uint8 => .Uint8 | .uint16 => .Uint16
  | .uint32 => .Uint32 | .uint64 => .Uint64 | .uintptr => .Uintptr
  | .float32 => .Float32 | .float64 => .Float64
  | .string => .String

/-- The Go types of the model.  `prim p none` is the predeclared type (`int`,
`string`, ...), `prim p (some n)` a defined type `type n p`; `iface` is the
empty interface `interface{}`; `struct n` is any struct type other than the
five `sql.Null*` types. -/
inductive GoType
  | prim (p : Prim) (defined : Option String)
  | ptr (elem : GoType)
  | iface
  | nullInt64 | nullInt32 | nullInt16 | nullString | nullFloat64
  | struct (name : String)
  deriving DecidableEq, Repr

/-- `reflect.Type.Kind`. -/
def GoType.kind : GoType → Kind
  | .prim p _ => p.kind
  | .ptr _ => .Ptr
  | .iface => .Interface
  | .nullInt64 | .nullInt32 | .nullInt16 | .nullString | .nullFloat64 => .Struct
  | .struct _ => .Struct

/-- `reflect.Type.AssignableTo`: identical types, or any type into the empty
interface (every defined type of the model is named, so no other rule of
assignability applies). -/
def GoType.AssignableTo (v t : GoType) : Bool :=
  decide (v = t) || decide (t = GoType.iface)

/-! ## Strings: `strings.TrimSpace`, `strings.ReplaceAll`, `strconv` integers -/

/-- `unicode.IsSpace`: the characters with the Unicode White_Space property. -/
def isSpace (c : Char) : Bool :=
  let n := c.toNat
  (9 ≤ n && n ≤ 13) || n == 32 || n == 0x85 || n == 0xA0 || n == 0x1680 ||
  (0x2000 ≤ n && n ≤ 0x200a) || n == 0x2028 || n == 0x2029 || n == 0x202f ||
  n == 0x205f || n == 0x3000

/-- Drop the leading white space of a list of characters. -/
def trimLeft : List Char → List Char
  | [] => []
  | c :: cs => if isSpace c then trimLeft cs else c :: cs

/-- `strings.TrimSpace` on the characters of a string. -/
def trimSpaceChars (cs : List Char) : List Char :=
  (trimLeft (trimLeft cs).reverse).reverse

/-- `strings.TrimSpace`. -/
def TrimSpace (s : String) : String := String.mk (trimSpaceChars s.data)

/-- `strings.ReplaceAll(s, ",", "")`: every comma removed. -/
def removeCommas (s : String) : String :=
  String.mk (s.data.filter (fun c => c != ','))

/-- The value of a decimal digit character, `none` for any other character. -/
def digitVal (c : Char) : Option Nat :=
  if 48 ≤ c.toNat ∧ c.toNat ≤ 57 then some (c.toNat - 48) else none

/-- The loop of `strconv.ParseUint` in base 10: `n` is the `uint64`
accumulator, `maxVal` is `1<<bitSize - 1`.  `none` is a syntax or range error. -/
def parseUintLoop (maxVal : Nat) : Nat → List Char → Option Nat
  | n, [] => some n
  | n, c :: cs =>
    match digitVal c with
    | none => none
    | some d =>
      -- cutoff is the smallest number such that cutoff*10 > maxUint64
      if n ≥ (2 ^ 64 - 1) / 10 + 1 then none
      else
        let n10 := (n * 10) % 2 ^ 64
        let n1 := (n10 + d) % 2 ^ 64
        if n1 < n10 ∨ n1 > maxVal then none
        else parseUintLoop maxVal n1 cs

/-- `strconv.ParseUint(s, 10, bitSize)` for `1 ≤ bitSize ≤ 64`; `none` when
the call returns a non-nil error. -/
def ParseUint (s : String) (bitSize : Nat) : Option Nat :=
  if s.data = [] then none
  else parseUintLoop (2 ^ bitSize - 1) 0 s.data

/-- `strconv.ParseInt(s, 10, bitSize)` for `1 ≤ bitSize ≤ 64`; `none` when the
call returns a non-nil error. -/
def ParseInt (s : String) (bitSize : Nat) : Option Int :=
  match s.data with
  | [] => none
  | c :: cs =>
    let neg := c == '-'
    let rest := if c == '+' ∨ c == '-' then cs else c :: cs
    match ParseUint (String.mk rest) bitSize with
    | none => none
    | some un =>
      let cutoff := 2 ^ (bitSize - 1)
      if !neg && un ≥ cutoff then none
      else if neg && un > cutoff then none
      else some (if neg then -(un : Int) else (un : Int))

/-- The decimal digit character of a number below ten. -/
def digitChar (d : Nat) : Char := Char.ofNat (48 + d)

/-- The decimal digits of `n`, most significant first, in front of `acc`;
`fuel` bounds the number of digits produced. -/
def formatBits : Nat → Nat → List Char → List Char
  | 0, _, acc => acc
  | fuel + 1, n, acc =>
    if n < 10 then digitChar n :: acc
    else formatBits fuel (n / 10) (digitChar (n % 10) :: acc)

/-- `strconv.FormatUint(n, 10)`. -/
def FormatUint (n : Nat) : String := String.mk (formatBits (n + 1) n [])

/-- `strconv.FormatInt(i, 10)`. -/
def FormatInt (i : Int) : String :=
  if i < 0 then String.mk ('-' :: formatBits (i.natAbs + 1) i.natAbs [])
  else FormatUint i.natAbs

/-! ## IEEE-754 binary floating point -/

/-- An IEEE-754 binary interchange format: the number of stored mantissa bits
and of exponent bits. -/
structure FloatFmt where
  mant : Nat
  ebits : Nat
  deriving DecidableEq, Repr

/-- The format of `float64`. -/
def binary64 : FloatFmt := ⟨52, 11⟩

/-- The format of `float32`. -/
def binary32 : FloatFmt := ⟨23, 8⟩

/-- The exponent of the least significant mantissa bit of a subnormal. -/
def FloatFmt.emin (f : FloatFmt) : Int := 2 - (2 ^ (f.ebits - 1) : Nat) - f.mant

/-- What a bit pattern denotes: a NaN, an infinity, or `± m · 2 ^ e`. -/
inductive FloatVal
  | nan
  | inf (neg : Bool)
  | fin (neg : Bool) (m : Nat) (e : Int)
  deriving DecidableEq, Repr

/-- Decode a bit pattern of format `f`. -/
def decodeFloat (f : FloatFmt) (bits : Nat) : FloatVal :=
  let neg := decide (bits / 2 ^ (f.mant + f.ebits) % 2 = 1)
  let ex := bits / 2 ^ f.mant % 2 ^ f.ebits
  let frac := bits % 2 ^ f.mant
  if ex = 2 ^ f.ebits - 1 then (if frac = 0 then .inf neg else .nan)
  else if ex = 0 then .fin neg frac f.emin
  else .fin neg (2 ^ f.mant + frac) (f.emin + (ex : Int) - 1)

/-- The sign bit of format `f`, set when `neg`. -/
def signBit (f : FloatFmt) (neg : Bool) : Nat :=
  if neg then 2 ^ (f.mant + f.ebits) else 0

/-- The bit pattern of an infinity. -/
def infBits (f : FloatFmt) (neg : Bool) : Nat :=
  signBit f neg + (2 ^ f.ebits - 1) * 2 ^ f.mant

/-- The bit pattern of the canonical quiet NaN. -/
def nanBits (f : FloatFmt) : Nat :=
  (2 ^ f.ebits - 1) * 2 ^ f.mant + 2 ^ (f.mant - 1)

/-- The number of binary digits of `n`, computed with `fuel ≥ n` steps at most. -/
def bitLen : Nat → Nat → Nat
  | 0, _ => 0
  | fuel + 1, n => if n = 0 then 0 else bitLen fuel (n / 2) + 1

/-- The fraction `num / den` divided by `2 ^ e`, as a pair numerator,
denominator. -/
def scale2 (num den : Nat) (e : Int) : Nat × Nat :=
  if 0 ≤ e then (num, den * 2 ^ e.toNat) else (num * 2 ^ (-e).toNat, den)

/-- Round the non-negative fraction `num / den` (`den > 0`) to the nearest
value of format `f`, ties to even, and return its bit pattern with sign `neg`;
values too large round to infinity. -/
def roundToFloat (f : FloatFmt) (neg : Bool) (num den : Nat) : Nat :=
  if num = 0 then signBit f neg
  else
    -- `2 ^ (l - 1) ≤ num / den < 2 ^ (l + 1)`
    let l : Int := (bitLen num num : Int) - (bitLen den den : Int)
    let e0 : Int := l - 1 - f.mant
    let s0 := scale2 num den (e0 + 1)
    let e1 : Int := if s0.1 / s0.2 ≥ 2 ^ f.mant then e0 + 1 else e0
    let e : Int := if e1 < f.emin then f.emin else e1
    let s := scale2 num den e
    let q := s.1 / s.2
    let r := s.1 % s.2
    let q1 := if 2 * r < s.2 then q
      else if 2 * r > s.2 then q + 1
      else if q % 2 = 0 then q else q + 1
    let body := (e - f.emin).toNat * 2 ^ f.mant + q1
    if body ≥ (2 ^ f.ebits - 1) * 2 ^ f.mant then infBits f neg
    else signBit f neg + body

/-- Re-encode a decoded value in format `f`, rounding to nearest even. -/
def encodeFloat (f : FloatFmt) : FloatVal → Nat
  | .nan => nanBits f
  | .inf neg => infBits f neg
  | .fin neg m e => let s := scale2 m 1 (-e); roundToFloat f neg s.1 s.2

/-- The conversion `float64(x)` of a `float32` bit pattern (exact). -/
def widen (bits32 : Nat) : Nat := encodeFloat binary64 (decodeFloat binary32 bits32)

/-- The conversion `float32(x)` of a `float64` bit pattern. -/
def narrow (bits64 : Nat) : Nat := encodeFloat binary32 (decodeFloat binary64 bits64)

/-- The conversion `float64(i)` of an integer. -/
def intToFloat64 (i : Int) : Nat := roundToFloat binary64 (decide (i < 0)) i.natAbs 1

/-- The float64 nearest to the decimal constant `num / den`, as the Go
compiler converts an untyped constant. -/
def float64Const (neg : Bool) (num den : Nat) : Nat := roundToFloat binary64 neg num den

/-- The integer part of a finite value, rounded toward zero; `none` for NaN and
the infinities. -/
def truncFloat : FloatVal → Option Int
  | .nan => none
  | .inf _ => none
  | .fin neg m e =>
    let a : Nat := if 0 ≤ e then m * 2 ^ e.toNat else m / 2 ^ (-e).toNat
    some (if neg then -(a : Int) else (a : Int))

/-! ## `strconv.FormatFloat(x, 'f', -1, 64)` -/

/-- The decimal digits of `n` (`"0"` for zero). -/
def decDigits (n : Nat) : List Char := formatBits (n + 1) n []

/-- The fraction `num / den` divided by `10 ^ p`, as a pair numerator,
denominator. -/
def scale10 (num den : Nat) (p : Int) : Nat × Nat :=
  if 0 ≤ p then (num, den * 10 ^ p.toNat) else (num * 10 ^ (-p).toNat, den)

/-- The search of the shortest decimal that rounds back to the float: the
float is `x / den`, the numbers rounding to it lie between `lo / den` and
`up / den` (bounds included when `incl`).  Going down from the decimal
position `p`, stop at the first position where the multiple of `10 ^ p` just
below or just above the float lies in the interval, and return that multiple
`q` (nearest to the float when both do, ties to even) with its position:
the decimal is `q · 10 ^ p`. -/
def shortestLoop (x lo up den : Nat) (incl : Bool) : Nat → Int → Nat × Int
  | 0, p => (0, p)
  | fuel + 1, p =>
    let sx := scale10 x den p
    let slo := scale10 lo den p
    let sup := scale10 up den p
    let q := sx.1 / sx.2
    let r := sx.1 % sx.2
    let okdown := if incl then decide (slo.1 ≤ q * slo.2) else decide (slo.1 < q * slo.2)
    let okup := if incl then decide ((q + 1) * sup.2 ≤ sup.1)
      else decide ((q + 1) * sup.2 < sup.1)
    if okdown && okup then
      (if 2 * r < sx.2 then (q, p) else if 2 * r > sx.2 then (q + 1, p)
       else if q % 2 = 0 then (q, p) else (q + 1, p))
    else if okdown then (q, p)
    else if okup then (q + 1, p)
    else shortestLoop x lo up den incl fuel (p - 1)

/-- The shortest decimal `q · 10 ^ p` that rounds back to the positive finite
float `m · 2 ^ e` of format `f`. -/
def shortestDecimal (f : FloatFmt) (m : Nat) (e : Int) : Nat × Int :=
  -- in units of `2 ^ (e - 2)`: the float, and the midpoints to its neighbours
  let lo4 := if m = 2 ^ f.mant ∧ f.emin < e then 4 * m - 1 else 4 * m - 2
  let s := scale2 1 1 (-(e - 2))
  let x := 4 * m * s.1
  let lo := lo4 * s.1
  let up := (4 * m + 2) * s.1
  let pmax : Nat := (decDigits (up / s.2)).length
  shortestLoop x lo up s.2 (decide (m % 2 = 0)) (pmax + (e - 2).natAbs + 2) pmax

/-- The digits of the decimal `q · 10 ^ p` in the `%f` layout: integer part,
and a point followed by the fraction digits when there are any. -/
def fixedDigits (q : Nat) (p : Int) : List Char :=
  let ds := decDigits q
  if 0 ≤ p then ds ++ List.replicate p.toNat '0'
  else
    let k := (-p).toNat
    if k < ds.length then ds.take (ds.length - k) ++ '.' :: ds.drop (ds.length - k)
    else '0' :: '.' :: (List.replicate (k - ds.length) '0' ++ ds)

/-- `strconv.FormatFloat(x, 'f', -1, 64)` of the float64 with bit pattern
`bits`: the shortest decimal that parses back to `x`, without exponent. -/
def FormatFloat (bits : Nat) : String :=
  match decodeFloat binary64 bits with
  | .nan => "NaN"
  | .inf neg => if neg then "-Inf" else "+Inf"
  | .fin neg m e =>
    let body := if m = 0 then ['0']
      else let d := shortestDecimal binary64 m e; fixedDigits d.1 d.2
    String.mk (if neg then '-' :: body else body)

/-! ## The platform -/

/-- What the Go language leaves to the implementation, and the part of
`strconv` taken as given. -/
structure Arch where
  /-- Whether `int`, `uint` and `uintptr` are 64 bits wide (else 32). -/
  is64 : Bool
  /-- `strconv.ParseFloat(s, bitSize)`: the float64 bit pattern, `none` when
  the call returns a non-nil error. -/
  ParseFloat : String → Nat → Option Nat
  /-- The result of `int64(x)` for a float64 `x` that is NaN, infinite or out
  of range (implementation-dependent in Go). -/
  floatToInt64 : Nat → Int
  /-- The result of `uint64(x)` for a float64 `x` that is NaN, infinite or out
  of range (implementation-dependent in Go). -/
  floatToUint64 : Nat → Nat

/-- `strconv.IntSize`. -/
def Arch.intSize (a : Arch) : Nat := if a.is64 then 64 else 32

/-- `reflect.Type.Bits` of a basic type; `none` is the panic on a type that
has no size in bits. -/
def Prim.bits (a : Arch) : Prim → Option Nat
  | .int | .uint | .uintptr => some a.intSize
  | .int8 | .uint8 => some 8
  | .int16 | .uint16 => some 16
  | .int32 | .uint32 | .float32 => some 32
  | .int64 | .uint64 | .float64 => some 64
  | .bool | .string => none

/-- `reflect.Type.Bits`. -/
def GoType.Bits (a : Arch) : GoType → Option Nat
  | .prim p _ => p.bits a
  | _ => none

/-- Two's-complement wrap-around of an integer to `bits` bits, signed. -/
def wrapInt (bits : Nat) (x : Int) : Int :=
  (x + 2 ^ (bits - 1)) % 2 ^ bits - 2 ^ (bits - 1)

/-- Wrap-around of a natural number to `bits` bits, unsigned. -/
def wrapUint (bits : Nat) (x : Nat) : Nat := x % 2 ^ bits

/-- The Go conversion `int64(x)` of a float64: truncation toward zero. -/
def float64ToInt64 (a : Arch) (bits : Nat) : Int :=
  match truncFloat (decodeFloat binary64 bits) with
  | some t => if -(2 ^ 63) ≤ t ∧ t < 2 ^ 63 then t else wrapInt 64 (a.floatToInt64 bits)
  | none => wrapInt 64 (a.floatToInt64 bits)

/-- The Go conversion `uint64(x)` of a float64: truncation toward zero. -/
def float64ToUint64 (a : Arch) (bits : Nat) : Nat :=
  match truncFloat (decodeFloat binary64 bits) with
  | some t => if 0 ≤ t ∧ t < 2 ^ 64 then t.toNat else wrapUint 64 (a.floatToUint64 bits)
  | none => wrapUint 64 (a.floatToUint64 bits)

/-! ## Values -/

/-- A Go value with its type, as `reflect` sees it.  The `Option String` of a
basic value is the name of its defined type (`none` for the predeclared type).
A non-nil pointer `ptrTo` owns the value it points to: it stands for a pointer
to a variable that no other pointer, field or interface refers to (a pointer
to a shared variable is a `Cell.ref` of a `Memory`).  A non-nil interface value
holds its dynamic value. -/
inductive Val
  | bool (name : Option String) (b : Bool)
  | int (p : Prim) (name : Option String) (i : Int)
  | uint (p : Prim) (name : Option String) (n : Nat)
  | float (p : Prim) (name : Option String) (bits : Nat)
  | str (name : Option String) (s : String)
  | nilPtr (elem : GoType)
  | ptrTo (target : Val)
  | nilIface
  | ifaceOf (held : Val)
  | nullInt64 (v : Int) (valid : Bool)
  | nullInt32 (v : Int) (valid : Bool)
  | nullInt16 (v : Int) (valid : Bool)
  | nullString (s : String) (valid : Bool)
  | nullFloat64 (bits : Nat) (valid : Bool)
  | struct (name : String) (content : Nat)
  deriving DecidableEq, Repr

/-- `reflect.Value.Type`. -/
def Val.type : Val → GoType
  | .bool n _ => .prim .bool n
  | .int p n _ => .prim p n
  | .uint p n _ => .prim p n
  | .float p n _ => .prim p n
  | .str n _ => .prim .string n
  | .nilPtr t => .ptr t
  | .ptrTo v => .ptr v.type
  | .nilIface => .iface
  | .ifaceOf _ => .iface
  | .nullInt64 _ _ => .nullInt64
  | .nullInt32 _ _ => .nullInt32
  | .nullInt16 _ _ => .nullInt16
  | .nullString _ _ => .nullString
  | .nullFloat64 _ _ => .nullFloat64
  | .struct n _ => .struct n

/-- `reflect.Value.Kind`. -/
def Val.kind (v : Val) : Kind := v.type.kind

/-- `reflect.Type.String` of a basic type. -/
def Prim.name : Prim → String
  | .bool => "bool"
  | .int => "int" | .int8 => "int8" | .int16 => "int16" | .int32 => "int32"
  | .int64 => "int64"
  | .uint => "uint" | .uint8 => "uint8" | .uint16 => "uint16"
  | .uint32 => "uint32" | .uint64 => "uint64" | .uintptr => "uintptr"
  | .float32 => "float32" | .float64 => "float64"
  | .string => "string"

/-- `reflect.Type.String`. -/
def GoType.typeString : GoType → String
  | .prim p none => p.name
  | .prim _ (some n) => n
  | .ptr t => "*" ++ t.typeString
  | .iface => "interface \x7b\x7d"
  | .nullInt64 => "sql.NullInt64"
  | .nullInt32 => "sql.NullInt32"
  | .nullInt16 => "sql.NullInt16"
  | .nullString => "sql.NullString"
  | .nullFloat64 => "sql.NullFloat64"
  | .struct n => n

/-- The kinds `reflect.Int, reflect.Int8, ..., reflect.Int64`. -/
def isIntKind : Kind → Bool
  | .Int | .Int8 | .Int16 | .Int32 | .Int64 => true
  | _ => false

/-- The kinds `reflect.Uint, reflect.Uint8, ..., reflect.Uint64` (the lists
of the program leave `reflect.Uintptr` out). -/
def isUintKind : Kind → Bool
  | .Uint | .Uint8 | .Uint16 | .Uint32 | .Uint64 => true
  | _ => false

/-- The kinds `reflect.Float32, reflect.Float64`. -/
def isFloatKind : Kind → Bool
  | .Float32 | .Float64 => true
  | _ => false

/-- `reflect.Value.IsValid`: every `Val` wraps a Go value; the zero
`reflect.Value` is the `none` of a field lookup. -/
def Val.IsValid (_ : Val) : Bool := true

/-- `reflect.Value.IsNil`; `none` is the panic on a kind that cannot be nil. -/
def Val.IsNil : Val → Option Bool
  | .nilPtr _ | .nilIface => some true
  | .ptrTo _ | .ifaceOf _ => some false
  | _ => none

/-- `reflect.Value.Elem` of a non-nil pointer or interface; `none` is the
panic on another kind (the program calls it on non-nil pointers only). -/
def Val.Elem : Val → Option Val
  | .ptrTo v => some v
  | .ifaceOf v => some v
  | _ => none

/-- The value `reflect.ValueOf(v.Interface())` of the program: the dynamic
value of an interface, the value itself otherwise (a nil interface stays). -/
def Val.Interface : Val → Val
  | .ifaceOf v => v
  | v => v

/-- `reflect.Value.Int`; `none` is the panic on a kind that is not a signed
integer. -/
def Val.asInt : Val → Option Int
  | .int _ _ i => some i
  | _ => none

/-- `reflect.Value.Uint`; `none` is the panic on a kind that is not an
unsigned integer. -/
def Val.asUint : Val → Option Nat
  | .uint _ _ n => some n
  | _ => none

/-- `reflect.Value.Float`, a float64 bit pattern; `none` is the panic on a
kind that is not a float. -/
def Val.asFloat : Val → Option Nat
  | .float p _ bits => some (if p = .float32 then widen bits else bits)
  | _ => none

/-- `reflect.Value.String`: the string, or `<T Value>` for a value of another
type `T` (it does not panic). -/
def Val.asString : Val → String
  | .str _ s => s
  | v => "<" ++ v.type.typeString ++ " Value>"

/-- `reflect.Value.SetInt` on a settable slot holding `slot`: the new content,
wrapped to the width of the slot; `none` is the panic on a wrong kind. -/
def Val.SetInt (a : Arch) (slot : Val) (x : Int) : Option Val :=
  match slot with
  | .int p n _ => (p.bits a).map (fun w => .int p n (wrapInt w x))
  | _ => none

/-- `reflect.Value.SetUint`. -/
def Val.SetUint (a : Arch) (slot : Val) (x : Nat) : Option Val :=
  match slot with
  | .uint p n _ => (p.bits a).map (fun w => .uint p n (wrapUint w x))
  | _ => none

/-- `reflect.Value.SetFloat`: a float32 slot receives `float32(x)`. -/
def Val.SetFloat (slot : Val) (x : Nat) : Option Val :=
  match slot with
  | .float p n _ => some (.float p n (if p = .float32 then narrow x else x))
  | _ => none

/-- `reflect.Value.SetString`. -/
def Val.SetString (slot : Val) (s : String) : Option Val :=
  match slot with
  | .str n _ => some (.str n s)
  | _ => none

/-- `reflect.Value.Set`: the slot receives `x`, boxed when the slot is of
interface type; `none` is the panic when `x` is not assignable to the slot. -/
def Val.Set (slot x : Val) : Option Val :=
  if x.type.AssignableTo slot.type then
    (if slot.type = .iface then
      (match x with
       | .nilIface => some .nilIface
       | .ifaceOf w => some (.ifaceOf w)
       | w => some (.ifaceOf w))
     else some x)
  else none

/-! ## `mapField` -/

/-- Lines 40-43 of `mapField`: a non-nil source pointer is replaced by the
value it points to. -/
def derefSource (fromField : Val) : Option Val :=
  if fromField.kind = .Ptr then
    match fromField.IsNil with
    | none => none
    | some true => some fromField
    | some false => fromField.Elem
  else some fromField

/-- Lines 55-76 of `mapField`, the source of interface kind that is not nil.
`none`: the block is skipped or falls through; `some r`: the function
returned there with outcome `r`. -/
def interfaceStage (fromField toField : Val) : Option (Option Val) :=
  if fromField.kind = .Interface ∧ fromField.IsNil = some false then
    let realValue := fromField.Interface
    if realValue.type.AssignableTo toField.type then
      some (toField.Set realValue)
    else if toField.kind = .String then
      some
        (if isIntKind realValue.kind then
          realValue.asInt.bind (fun i => toField.SetString (FormatInt i))
        else if isUintKind realValue.kind then
          realValue.asUint.bind (fun n => toField.SetString (FormatUint n))
        else if isFloatKind realValue.kind then
          realValue.asFloat.bind (fun x => toField.SetString (FormatFloat x))
        else if realValue.kind = .String then
          toField.SetString realValue.asString
        else some toField)
    else none
  else none

/-- Lines 80-116 of `mapField`, the type switch on `fromField.Interface()`:
the new `fromField` and the new `fromKind`.  An invalid wrapper replaces
`fromField` by the default and leaves `fromKind` as it was. -/
def unwrapNull (fromField : Val) (fromKind : Kind) : Val × Kind :=
  match fromField.Interface with
  | .nullInt64 v valid =>
    if valid then (.int .int64 none v, .Int64) else (.int .int64 none 0, fromKind)
  | .nullInt32 v valid =>
    if valid then (.int .int32 none v, .Int32) else (.int .int32 none 0, fromKind)
  | .nullInt16 v valid =>
    if valid then (.int .int16 none v, .Int16) else (.int .int16 none 0, fromKind)
  | .nullString str valid =>
    if valid then (.str none str, .String) else (.str none " ", fromKind)
  | .nullFloat64 bits valid =>
    if valid then (.float .float64 none bits, .Float64)
    else (.float .float64 none (intToFloat64 0), fromKind)
  | _ => (fromField, fromKind)

/-- Lines 161-186 of `mapField`: conversions between the numeric families,
then the assignment of an assignable value. -/
def numericStage (a : Arch) (fromField : Val) (fromKind : Kind) (toField : Val) :
    Option Val :=
  let toKind := toField.kind
  if isIntKind fromKind ∧ isFloatKind toKind then
    fromField.asInt.bind (fun i => toField.SetFloat (intToFloat64 i))
  else if isFloatKind fromKind ∧ isIntKind toKind then
    fromField.asFloat.bind (fun x => toField.SetInt a (float64ToInt64 a x))
  else if isUintKind fromKind ∧ isFloatKind toKind then
    fromField.asUint.bind (fun n => toField.SetFloat (intToFloat64 n))
  else if isFloatKind fromKind ∧ isUintKind toKind then
    fromField.asFloat.bind (fun x => toField.SetUint a (float64ToUint64 a x))
  else if fromField.type.AssignableTo toField.type then
    toField.Set fromField
  else some toField

/-- Lines 134-157 of `mapField`: a source of string kind into a destination
that is not a string, after the clean-up of the text. -/
def stringStage (a : Arch) (fromField : Val) (fromKind : Kind) (toField : Val) :
    Option Val :=
  let toKind := toField.kind
  if fromKind = .String then
    let clean := removeCommas (TrimSpace fromField.asString)
    if isIntKind toKind then
      (toField.type.Bits a).bind (fun w =>
        match ParseInt clean w with
        | some val => toField.SetInt a val
        | none => some toField)
    else if isUintKind toKind then
      (toField.type.Bits a).bind (fun w =>
        match ParseUint clean w with
        | some val => toField.SetUint a val
        | none => some toField)
    else if isFloatKind toKind then
      (toField.type.Bits a).bind (fun w =>
        match a.ParseFloat clean w with
        | some val => toField.SetFloat val
        | none => some toField)
    else if toKind = .String then toField.SetString clean
    else numericStage a fromField fromKind toField
  else numericStage a fromField fromKind toField

/-- Lines 120-132 of `mapField`: a destination of string kind receives the
formatted source. -/
def toStringStage (fromField : Val) (fromKind : Kind) (toField : Val) : Option Val :=
  if isIntKind fromKind then
    fromField.asInt.bind (fun i => toField.SetString (FormatInt i))
  else if isUintKind fromKind then
    fromField.asUint.bind (fun n => toField.SetString (FormatUint n))
  else if isFloatKind fromKind then
    fromField.asFloat.bind (fun x => toField.SetString (FormatFloat x))
  else if fromKind = .String then toField.SetString fromField.asString
  else some toField

/-- Lines 47-187 of `mapField`, once the pointers are dereferenced: the new
content of the slot `toField`; `none` is a panic. -/
def mapValue (a : Arch) (fromField toField : Val) : Option Val :=
  if !fromField.IsValid || !toField.IsValid then some toField
  else
    let fromKind := fromField.kind
    let toKind := toField.kind
    match interfaceStage fromField toField with
    | some r => r
    | none =>
      let u := unwrapNull fromField fromKind
      if toKind = .String then toStringStage u.1 u.2 toField
      else stringStage a u.1 u.2 toField

/-- The function `mapField(ctx, fromField, toField)`: the new content of the
destination field, `none` when the call panics.  A destination that is a
non-nil pointer is written through: the pointer stays and the value it points
to is the slot (lines 44-46). -/
def mapField (a : Arch) (fromField toField : Val) : Option Val :=
  match derefSource fromField with
  | none => none
  | some src =>
    match toField with
    | .ptrTo target => (mapValue a src target).map Val.ptrTo
    | _ => mapValue a src toField

/-! ## `mapStructFields` -/

/-- A field of a struct value: its name, whether it is exported (so that
`CanSet` holds for it in an addressable struct), and its content. -/
structure Field where
  name : String
  exported : Bool
  value : Val
  deriving DecidableEq, Repr

/-- A struct value of a struct type without embedded structs: its fields in
declaration order.  The fields share nothing with one another. -/
abbrev Record := List Field

/-- `reflect.Value.FieldByName` on a struct without embedded structs: the
first field of that name, `none` for the zero `reflect.Value` of a missing
field.  (On a struct with embedded structs the function is `resolve`.) -/
def FieldByName (r : Record) (name : String) : Option Field :=
  r.find? (fun f => f.name == name)

/-- The struct with the content of the field called `name` replaced. -/
def setField : Record → String → Val → Record
  | [], _, _ => []
  | f :: fs, name, v =>
    if f.name == name then { f with value := v } :: fs
    else f :: setField fs name v

/-- The loop of `mapStructFields` over the remaining source fields `todo`:
the destination struct after the loop, `none` when a `mapField` call panics. -/
def mapStructLoop (a : Arch) (fromVal : Record) : List Field → Record → Option Record
  | [], toVal => some toVal
  | f :: todo, toVal =>
    let fieldName := f.name
    match FieldByName fromVal fieldName, FieldByName toVal fieldName with
    | some fromField, some toField =>
      -- `toField.IsValid() && toField.CanSet()`
      if toField.exported then
        match mapField a fromField.value toField.value with
        | none => none
        | some v => mapStructLoop a fromVal todo (setField toVal fieldName v)
      else mapStructLoop a fromVal todo toVal
    | _, _ => mapStructLoop a fromVal todo toVal

/-- The function `mapStructFields(ctx, &from, &to)` on two struct values
without embedded structs that share nothing: the destination struct after the
call, `none` when the call panics. -/
def mapStructFields (a : Arch) (fromVal toVal : Record) : Option Record :=
  mapStructLoop a fromVal fromVal toVal

/-! ## A reference platform -/

/-- The value of a hexadecimal digit character, `none` for any other
character. -/
def hexDigitVal (c : Char) : Option Nat :=
  if 48 ≤ c.toNat ∧ c.toNat ≤ 57 then some (c.toNat - 48)
  else if 97 ≤ c.toNat ∧ c.toNat ≤ 102 then some (c.toNat - 87)
  else if 65 ≤ c.toNat ∧ c.toNat ≤ 70 then some (c.toNat - 55)
  else none

/-- The state of `readFloat` of `strconv` while it scans the mantissa: the
digits read so far as a number (all of them: `strconv` rounds correctly, as if
no digit were dropped), how many of them follow the point, and the flags
`sawdot`, `sawdigits` and `underscores`. -/
structure Mantissa where
  value : Nat
  fracDigits : Nat
  sawdot : Bool
  sawdigits : Bool
  underscores : Bool

/-- The mantissa loop of `readFloat` in base 10 or 16: the final state and the
text that is left. -/
def readMantissa (base : Nat) : List Char → Mantissa → Mantissa × List Char
  | [], st => (st, [])
  | c :: cs, st =>
    if c = '_' then
      readMantissa base cs (Mantissa.mk st.value st.fracDigits st.sawdot st.sawdigits true)
    else if c = '.' then
      if st.sawdot then (st, c :: cs)
      else readMantissa base cs
        (Mantissa.mk st.value st.fracDigits true st.sawdigits st.underscores)
    else
      match (if base = 16 then hexDigitVal c else digitVal c) with
      | some d =>
        readMantissa base cs
          (Mantissa.mk (st.value * base + d)
            (if st.sawdot then st.fracDigits + 1 else st.fracDigits)
            st.sawdot true st.underscores)
      | none => (st, c :: cs)

/-- The exponent loop of `readFloat`: decimal digits and underscores; the
exponent read (it stops growing at 10000), whether an underscore was seen,
and the text that is left. -/
def readExpDigits : List Char → Nat → Bool → Nat × Bool × List Char
  | [], e, u => (e, u, [])
  | c :: cs, e, u =>
    if c = '_' then readExpDigits cs e true
    else
      match digitVal c with
      | some d => readExpDigits cs (if e < 10000 then e * 10 + d else e) u
      | none => (e, u, c :: cs)

/-- The loop of `underscoreOK` of `strconv`; `saw` is the class of the last
character: `'0'` for a digit, `'_'` for an underscore, `'!'` for another
character, `'^'` at the start. -/
def underscoreLoop (hex : Bool) : List Char → Char → Bool
  | [], saw => saw != '_'
  | c :: cs, saw =>
    if (digitVal c).isSome || (hex && (hexDigitVal c).isSome) then underscoreLoop hex cs '0'
    else if c = '_' then (if saw != '0' then false else underscoreLoop hex cs '_')
    else if saw = '_' then false
    else underscoreLoop hex cs '!'

/-- The function `underscoreOK` of `strconv`: an underscore is allowed only
between two digits, or between a base prefix and a digit. -/
def underscoreOK (s : List Char) : Bool :=
  let t := match s with
    | c :: cs => if c = '-' ∨ c = '+' then cs else s
    | [] => s
  match t with
  | c0 :: c1 :: rest =>
    if c0 = '0' ∧ (c1.toLower = 'b' ∨ c1.toLower = 'o' ∨ c1.toLower = 'x') then
      underscoreLoop (c1.toLower == 'x') rest '0'
    else underscoreLoop false t '^'
  | _ => underscoreLoop false t '^'

/-- The exponent part read by `readFloat` after the mantissa, when the text
goes on with the exponent character `expChar`: the signed exponent, whether
an underscore was seen, and the text that is left.  `none` is a syntax error:
no digit after the exponent character and its sign. -/
def readExponent : List Char → Option (Int × Bool × List Char)
  | [] => none
  | d :: ds =>
    let neg := d == '-'
    let rest := if d = '+' ∨ d = '-' then ds else d :: ds
    match rest with
    | [] => none
    | c :: _ =>
      if (digitVal c).isSome then
        let r := readExpDigits rest 0 false
        some (if neg then -(r.1 : Int) else (r.1 : Int), r.2.1, r.2.2)
      else none

/-- The number `mant * base ^ e` (base 10, or base 2 for a hexadecimal
literal) rounded to the format `f`, as a float64 bit pattern; `digits` bounds
the number of digits of `mant`.  `none` is a value out of range. -/
def roundLiteral (f : FloatFmt) (neg hex : Bool) (mant digits : Nat) (e : Int) : Option Nat :=
  let z0 := encodeFloat binary64 (decodeFloat f (signBit f neg))
  if mant = 0 then some z0
  else if hex then
    if 2000 < e then none
    else if e + 4 * (digits : Int) < -2000 then some z0
    else
      let s := scale2 mant 1 (-e)
      let bits := roundToFloat f neg s.1 s.2
      if bits = infBits f neg then none else some (encodeFloat binary64 (decodeFloat f bits))
  else
    if 400 < e then none
    else if e + (digits : Int) < -400 then some z0
    else
      let s := scale10 mant 1 (-e)
      let bits := roundToFloat f neg s.1 s.2
      if bits = infBits f neg then none else some (encodeFloat binary64 (decodeFloat f bits))

/-- What `strconv` does with a text that is not an infinity or a NaN:
`readFloat` (sign, optional `0x` prefix, mantissa with an optional point,
exponent, which a hexadecimal literal must have, underscores between digits),
the whole text being consumed, then the correctly rounded conversion.  `none`
is a syntax error or a value out of range. -/
def parseFloatLiteral (f : FloatFmt) (s : List Char) : Option Nat :=
  let neg := s.head? == some '-'
  let body := match s with
    | c :: cs => if c = '+' ∨ c = '-' then cs else s
    | [] => s
  let hex : Bool := match body with
    | c0 :: c1 :: _ :: _ => c0 == '0' && c1.toLower == 'x'
    | _ => false
  let m := readMantissa (if hex then 16 else 10) (if hex then body.drop 2 else body)
    (Mantissa.mk 0 0 false false false)
  if !m.1.sawdigits then none
  else
    let expChar := if hex then 'p' else 'e'
    let ex : Option (Int × Bool × List Char) := match m.2 with
      | c :: cs =>
        if c.toLower = expChar then readExponent cs
        else if hex then none else some (0, false, c :: cs)
      | [] => if hex then none else some (0, false, [])
    match ex with
    | none => none
    | some (e, u, rest) =>
      if rest ≠ [] then none
      else if (m.1.underscores || u) && !underscoreOK s then none
      else
        let digits := (if hex then body.drop 2 else body).length
        if hex then roundLiteral f neg true m.1.value digits (e - 4 * (m.1.fracDigits : Int))
        else roundLiteral f neg false m.1.value digits (e - (m.1.fracDigits : Int))

/-- `strconv.ParseFloat(s, bitSize)`: the float64 bit pattern of the result,
`none` when the call returns a non-nil error.  The infinities and NaN are
recognised first, whatever the case of their letters; NaN is `math.NaN()`,
which for `bitSize` 32 goes through `float32`. -/
def ParseFloat (s : String) (bitSize : Nat) : Option Nat :=
  let f := if bitSize = 32 then binary32 else binary64
  let lower := s.data.map Char.toLower
  if lower = "nan".data then
    some (if bitSize = 32 then nanBits binary64 else nanBits binary64 + 1)
  else
    let rest := match s.data with
      | c :: cs => if c = '+' ∨ c = '-' then cs else s.data
      | [] => []
    let lrest := rest.map Char.toLower
    if lrest = "inf".data ∨ lrest = "infinity".data then
      some (infBits binary64 (s.data.head? == some '-'))
    else parseFloatLiteral f s.data

/-- The conversion `uint64(x)` on amd64 of a float64 `x` that is NaN, infinite
or outside `[0, 1<<64)`: a value that truncates into `[-(1<<63), 0)` wraps
around as `uint64(int64(x))`, every other one gives `1 << 63`. -/
def amd64FloatToUint64 (bits : Nat) : Nat :=
  match truncFloat (decodeFloat binary64 bits) with
  | some t => if -(2 ^ 63) ≤ t ∧ t < 0 then (t + 2 ^ 64).toNat else 2 ^ 63
  | none => 2 ^ 63

/-- The platform amd64: 64-bit `int`, a float out of range converts to the
smallest `int64`, and to `uint64` as `amd64FloatToUint64` says. -/
def refArch : Arch where
  is64 := true
  ParseFloat := ParseFloat
  floatToInt64 := fun _ => -(2 ^ 63)
  floatToUint64 := amd64FloatToUint64

/-! ## The structs of the program -/

/-- The value `From{ID: id, Balance: balance}`. -/
def From (id : String) (balance : Nat) : Record :=
  [⟨"ID", true, .str none id⟩, ⟨"Balance", true, .float .float64 none balance⟩]

/-- The value `To{ID: id, Balance: balance}` (on a platform with 64-bit or
32-bit `int`, the field `ID` is of type `int`). -/
def To (id : Int) (balance : String) : Record :=
  [⟨"ID", true, .int .int none id⟩, ⟨"Balance", true, .str none balance⟩]

/-! ## Well-formed values -/

/-- The signed integer types. -/
def Prim.isSigned : Prim → Bool
  | .int | .int8 | .int16 | .int32 | .int64 => true
  | _ => false

/-- The unsigned integer types, `uintptr` included. -/
def Prim.isUnsigned : Prim → Bool
  | .uint | .uint8 | .uint16 | .uint32 | .uint64 | .uintptr => true
  | _ => false

/-- The floating-point types. -/
def Prim.isFloat : Prim → Bool
  | .float32 | .float64 => true
  | _ => false

/-- Whether the integer `x` is a value of the signed type of `w` bits. -/
def fitsInt (w : Nat) (x : Int) : Bool :=
  decide (-(2 ^ (w - 1) : Int) ≤ x) && decide (x < 2 ^ (w - 1))

/-- Whether the number `n` is a value of the unsigned type of `w` bits. -/
def fitsUint (w n : Nat) : Bool := decide (n < 2 ^ w)

/-- A value is well formed when its constructor agrees with its type and its
payload is a value of that type; an interface holds a value of concrete type. -/
def Val.WF (a : Arch) : Val → Bool
  | .bool _ _ => true
  | .int p _ i => p.isSigned && (match p.bits a with | some w => fitsInt w i | none => false)
  | .uint p _ n => p.isUnsigned && (match p.bits a with | some w => fitsUint w n | none => false)
  | .float p _ bits =>
    p.isFloat && (match p.bits a with | some w => fitsUint w bits | none => false)
  | .str _ _ => true
  | .nilPtr _ => true
  | .ptrTo v => v.WF a
  | .nilIface => true
  | .ifaceOf v => v.WF a && decide (v.type ≠ .iface)
  | .nullInt64 v _ => fitsInt 64 v
  | .nullInt32 v _ => fitsInt 32 v
  | .nullInt16 v _ => fitsInt 16 v
  | .nullString _ _ => true
  | .nullFloat64 bits _ => fitsUint 64 bits
  | .struct _ _ => true

/-- A value is shaped when its constructor agrees with its type: the part of
well-formedness that does not depend on the range of the payload. -/
def Val.Shaped : Val → Bool
  | .int p _ _ => p.isSigned
  | .uint p _ _ => p.isUnsigned
  | .float p _ _ => p.isFloat
  | .ptrTo v => v.Shaped
  | .ifaceOf v => v.Shaped && decide (v.type ≠ .iface)
  | _ => true

/-- The outcome `o` of a step on the slot `toField` is a normal return with a
shaped value of the type of the slot. -/
def Returns (toField : Val) (o : Option Val) : Prop :=
  ∃ r, o = some r ∧ r.Shaped = true ∧ r.type = toField.type

/-- The tracked kind agrees with the tracked value, or it is none of the kinds
under which the value is read. -/
def Consistent (fromField : Val) (fromKind : Kind) : Prop :=
  fromKind = fromField.kind ∨
    (isIntKind fromKind = false ∧ isUintKind fromKind = false ∧
      isFloatKind fromKind = false ∧ fromKind ≠ .String)

/-! ## The claims' notions, stated independently of the code -/

/-- The number a list of decimal digits denotes in positional notation,
starting from `n`; `none` when a character is not a decimal digit. -/
def decimalValue : Nat → List Char → Option Nat
  | n, [] => some n
  | n, c :: cs =>
    match digitVal c with
    | none => none
    | some d => decimalValue (n * 10 + d) cs

/-- The value of a base-10 unsigned integer literal: one or more decimal
digits. -/
def specUintLiteral (c : String) : Option Nat :=
  if c.data = [] then none else decimalValue 0 c.data

/-- The value of a base-10 signed integer literal: an optional sign `+` or `-`
followed by one or more decimal digits. -/
def specIntLiteral (c : String) : Option Int :=
  match c.data with
  | [] => none
  | '-' :: ds => if ds = [] then none else (decimalValue 0 ds).map (fun n => -(n : Int))
  | '+' :: ds => if ds = [] then none else (decimalValue 0 ds).map (fun n => (n : Int))
  | ds => (decimalValue 0 ds).map (fun n => (n : Int))

/-- The range filter of the parsers: the value when it is at most `M`. -/
def atMost (M : Nat) (v : Nat) : Option Nat := if v ≤ M then some v else none

/-- The range filter of the signed parser: the value when it fits in `w` bits. -/
def inIntRange (w : Nat) (v : Int) : Option Int := if fitsInt w v then some v else none

/-- Whether the text `c` is a valid base-10 integer for a destination that is
signed or unsigned and `w` bits wide: a signed literal, respectively an
unsigned literal without sign, whose value is in the range of the type. -/
def specValidInteger (signed : Bool) (w : Nat) (c : String) : Bool :=
  if signed then ((specIntLiteral c).bind (inIntRange w)).isSome
  else ((specUintLiteral c).bind (atMost (2 ^ w - 1))).isSome

/-- Whether the characters `r` are the base-10 representation of `n`: decimal
digits only, denoting `n`, without leading zeros (`"0"` for zero). -/
def isDecimalOf (r : List Char) (n : Nat) : Bool :=
  decide (decimalValue 0 r = some n) && decide (r ≠ []) &&
    (decide (r.head? ≠ some '0') || decide (r = ['0']))

/-- Whether the string `r` is the base-10 representation of the integer `i`:
a leading `-` exactly when `i` is negative, then the representation of its
absolute value. -/
def isSignedDecimalOf (r : String) (i : Int) : Bool :=
  if i < 0 then
    (match r.data with
     | '-' :: ds => isDecimalOf ds i.natAbs
     | _ => false)
  else isDecimalOf r.data i.natAbs

/-- The integer a value of integer kind holds (zero for any other value). -/
def Val.intValue : Val → Int
  | .int _ _ i => i
  | .uint _ _ n => (n : Int)
  | _ => 0

/-- The IEEE-754 format in which a value of the float type `p` is held. -/
def Prim.floatFmt (p : Prim) : FloatFmt := if p = .float32 then binary32 else binary64

/-- Two decoded values denote the same number: both NaN, the same infinity, or
finite values of the same sign and the same magnitude `m * 2 ^ e`. -/
def sameFloat : FloatVal → FloatVal → Prop
  | .nan, .nan => True
  | .inf a, .inf b => a = b
  | .fin n1 m1 e1, .fin n2 m2 e2 => n1 = n2 ∧ (m1 : ℚ) * 2 ^ e1 = (m2 : ℚ) * 2 ^ e2
  | _, _ => False

/-- What the claim's formatting rule says of the string `r` written for the
held value `v` into a text destination that held `old`. -/
def SpecFormatted (v : Val) (old r : String) : Prop :=
  match v with
  | .int _ _ i => isSignedDecimalOf r i = true
  | .uint p _ n => if isUintKind p.kind = true then isSignedDecimalOf r n = true else r = old
  | .float p _ bits =>
    ∃ b64, sameFloat (decodeFloat p.floatFmt bits) (decodeFloat binary64 b64) ∧
      r = FormatFloat b64
  | .str _ s => r = s
  | _ => r = old

/-- The fixed default that stands for a nullable numeric wrapper whose
validity flag is false: the zero of the type of its payload.  `none` for every
other value. -/
def invalidDefault : Val → Option Val
  | .nullInt64 _ valid => if valid then none else some (.int .int64 none 0)
  | .nullInt32 _ valid => if valid then none else some (.int .int32 none 0)
  | .nullInt16 _ valid => if valid then none else some (.int .int16 none 0)
  | .nullFloat64 _ valid => if valid then none else some (.float .float64 none 0)
  | _ => none

/-- Whether the kind `k` is of the numeric family of the value `z`: the signed
and unsigned integer kinds for an integer, the float kinds for a float. -/
def sameFamily : Val → Kind → Bool
  | .int _ _ _, k => isIntKind k || isUintKind k
  | .float _ _ _, k => isFloatKind k
  | _, _ => false

/-- The rational number `± m · 2 ^ e` a finite float denotes. -/
def floatRat (neg : Bool) (m : Nat) (e : Int) : ℚ :=
  (if neg then -1 else 1) * ((m : ℚ) * (2 : ℚ) ^ e)

/-- A rational number with its fractional part discarded: the integer next to
it in the direction of zero. -/
def specTrunc (x : ℚ) : Int := if 0 ≤ x then ⌊x⌋ else ⌈x⌉

/-- The clean-up of a text before it is parsed: surrounding white space
trimmed first, then every comma removed. -/
def cleanText (s : String) : String := removeCommas (TrimSpace s)

/-- The slot a destination field is written through (lines 44-46 of
`mapField`): what a non-nil pointer points to, the field itself otherwise. -/
def Val.slot : Val → Val
  | .ptrTo target => target
  | v => v

/-- Whether a value is of basic type: a boolean, an integer, a float or a
text. -/
def Val.isBasic : Val → Bool
  | .bool _ _ | .int _ _ _ | .uint _ _ _ | .float _ _ _ | .str _ _ => true
  | _ => false

/-- The slots into which an interface holding the value `v` is mapped like `v`
itself: a textual slot, a slot of the type of `v`, an interface-typed slot. -/
def transparentFor (v slot : Val) : Bool :=
  decide (slot.kind = .String) || v.type.AssignableTo slot.type

/-- The integer slot `slot` holding the integer `x` instead. -/
def Val.withInt : Val → Int → Val
  | .int p n _, x => .int p n x
  | .uint p n _, x => .uint p n x.toNat
  | v, _ => v

/-- What one iteration of the loop of `mapStructFields` decides for the field
called `name`, given the destination field `toField` found under that name:
`none` is a panic, `some none` no assignment, `some (some v)` the new content. -/
def fieldUpdate (a : Arch) (fromVal : Record) (name : String) (toField : Option Field) :
    Option (Option Val) :=
  match FieldByName fromVal name, toField with
  | some fromField, some tf =>
    if tf.exported then (mapField a fromField.value tf.value).map some else some none
  | _, _ => some none

/-- The destination struct after the decision of one iteration. -/
def applyUpdate (toVal : Record) (name : String) : Option Val → Record
  | none => toVal
  | some v => setField toVal name v

/-- One iteration of the loop of `mapStructFields`, for the source field
called `name`. -/
def mapStructStep (a : Arch) (fromVal : Record) (name : String) (toVal : Record) :
    Option Record :=
  (fieldUpdate a fromVal name (FieldByName toVal name)).map (applyUpdate toVal name)

/-- Two slots of the same type, both shaped: they differ in their content only. -/
def SameShape (t1 t2 : Val) : Prop :=
  t1.type = t2.type ∧ t1.Shaped = true ∧ t2.Shaped = true

/-- The outcomes of a step on two slots agree: both slots are kept, or both
receive the same outcome. -/
def SameOutcome (t1 t2 : Val) (o1 o2 : Option Val) : Prop :=
  (o1 = some t1 ∧ o2 = some t2) ∨ o1 = o2

/-- The destination field called `n` is a fixed point of the mapping: mapping
the source field of that name into it again leaves it as it is. -/
def FixedAt (a : Arch) (fromVal : Record) (n : String) (t : Record) : Prop :=
  ∀ sf tf, FieldByName fromVal n = some sf → FieldByName t n = some tf →
    tf.exported = true → mapField a sf.value tf.value = some tf.value

/-! ## Structs in memory: shared variables and embedded structs -/

/-- What a variable of the memory holds: a value of its own, in which a
pointer (`Val.ptrTo`) points to a variable that nothing else refers to; or a
non-nil pointer to another variable of the memory, given by its index, through
which that variable is read and written. -/
inductive Cell
  | own (v : Val)
  | ref (target : Nat)
  deriving DecidableEq, Repr

/-- The memory: its variables, by index. -/
abbrev Memory := List Cell

/-- A field that is a variable of the memory: its name, whether it is
exported, and the index of the variable. -/
structure Slot where
  name : String
  exported : Bool
  addr : Nat
  deriving DecidableEq, Repr

/-- How a struct holds a struct it embeds: by value, through a non-nil
pointer, or through a nil pointer. -/
inductive Holder
  | value
  | pointer
  | nilPointer
  deriving DecidableEq, Repr

/-- A field declared by the type of the destination struct: a plain field, or
an embedded struct (its type name, whether that name is exported, how it is
held, and its own fields, which are promoted).  The fields of an embedded
struct are plain: a struct embedded in an embedded struct is not covered. -/
inductive Entry
  | plain (s : Slot)
  | embedded (name : String) (exported : Bool) (holder : Holder) (fields : List Slot)
  deriving DecidableEq, Repr

/-- The name under which a declared field is found: for an embedded struct,
the name of its type. -/
def Entry.name : Entry → String
  | .plain s => s.name
  | .embedded n _ _ _ => n

/-- What `reflect.Value.FieldByName` finds in the destination struct. -/
inductive Found
  /-- The zero `reflect.Value`: no field, or an ambiguous promoted field. -/
  | missing
  /-- The panic of `FieldByIndex` on a nil pointer to an embedded struct. -/
  | panics
  /-- A variable: a plain field, or a field promoted from an embedded struct. -/
  | slot (s : Slot)
  /-- An embedded struct as a whole, found under the name of its type. -/
  | whole (exported : Bool)
  deriving DecidableEq, Repr

/-- The fields called `name` that the embedded structs of a struct promote,
each with the way its struct is held. -/
def promoted (es : List Entry) (name : String) : List (Holder × Slot) :=
  es.flatMap (fun e =>
    match e with
    | .plain _ => []
    | .embedded _ _ h fs => (fs.filter (fun s => s.name == name)).map (fun s => (h, s)))

/-- `reflect.Value.FieldByName` on the destination struct: the first declared
field of that name; failing that, the field of that name promoted from an
embedded struct when exactly one embedded struct has it, reached through the
pointer that holds the struct (`FieldByIndex`); a promoted field is settable
when its own name is exported. -/
def resolve (es : List Entry) (name : String) : Found :=
  match es.find? (fun e => e.name == name) with
  | some (.plain s) => .slot s
  | some (.embedded _ ex _ _) => .whole ex
  | none =>
    match promoted es name with
    | [(h, s)] => if h = .nilPointer then .panics else .slot s
    | _ => .missing

/-- The value a reader finds in a variable: a pointer to another variable
shows what that variable holds now. -/
def Memory.view (mem : Memory) : Cell → Option Val
  | .own v => some v
  | .ref j =>
    match mem[j]? with
    | some (.own w) => some (.ptrTo w)
    | _ => none

/-- One iteration of the loop of `mapStructFields` on structs in memory, for
the source field called `name`: the memory after it, `none` when the iteration
panics.  The function is meant for a memory that is `Covered`; outside, where
it has nothing to say, it gives `none` as well: at an index outside the
memory, at a pointer to a variable that itself holds a pointer to a variable,
and for a source field mapped into an exported embedded struct as a whole. -/
def memStep (a : Arch) (fromL : List Slot) (toL : List Entry) (name : String)
    (mem : Memory) : Option Memory :=
  match fromL.find? (fun f => f.name == name), resolve toL name with
  | some ff, .slot s =>
    -- `toField.IsValid() && toField.CanSet()`
    if s.exported then
      match mem[ff.addr]?, mem[s.addr]? with
      | some fc, some tc =>
        match mem.view fc with
        | none => none
        | some src =>
          match tc with
          | .own d => (mapField a src d).map (fun r => mem.set s.addr (.own r))
          | .ref j =>
            -- lines 44-46: the variable the destination pointer points to is the slot
            match mem[j]? with
            | some (.own t) =>
              (derefSource src).bind (fun s1 =>
                (mapValue a s1 t).map (fun r => mem.set j (.own r)))
            | _ => none
      | _, _ => none
    else some mem
  | some _, .panics => none
  | some _, .whole ex => if ex then none else some mem
  | _, _ => some mem

/-- The loop of `mapStructFields` on structs in memory, over the remaining
source fields `todo`. -/
def memLoop (a : Arch) (fromL : List Slot) (toL : List Entry) :
    List Slot → Memory → Option Memory
  | [], mem => some mem
  | f :: todo, mem => (memStep a fromL toL f.name mem).bind (memLoop a fromL toL todo)

/-- The function `mapStructFields(ctx, &from, &to)` on structs in memory:
`fromL` and `toL` say where the fields of `from` and of `to` are; the result
is the memory after the call, `none` when the call panics (on a memory that is
`Covered`). -/
def mapStructFieldsMem (a : Arch) (mem : Memory) (fromL : List Slot) (toL : List Entry) :
    Option Memory :=
  memLoop a fromL toL fromL mem

/-- The variable a write to the field `s` lands in: the variable the field
points to when it holds a pointer to a variable, the field itself otherwise. -/
def Memory.target (mem : Memory) (s : Slot) : Nat :=
  match mem[s.addr]? with
  | some (.ref j) => j
  | _ => s.addr

/-- The variables `mapStructFields` may write: for every source field whose
name finds a settable variable in the destination (a declared field of that
name, or a field of that name promoted from an embedded struct), that
variable, or the variable it points to. -/
def written (mem : Memory) (fromL : List Slot) (toL : List Entry) : List Nat :=
  fromL.filterMap (fun f =>
    match resolve toL f.name with
    | .slot s => if s.exported then some (mem.target s) else none
    | _ => none)

/-- The memory and the two structs are covered by the model: the values are
shaped, a pointer to a variable points to a variable that holds a value of its
own, the fields are variables of the memory, and no name of a source field
finds in the destination an exported embedded struct as a whole. -/
def Covered (mem : Memory) (fromL : List Slot) (toL : List Entry) : Prop :=
  (∀ (i : Nat) (v : Val), mem[i]? = some (Cell.own v) → v.Shaped = true) ∧
  (∀ (i j : Nat), mem[i]? = some (Cell.ref j) → ∃ w, mem[j]? = some (Cell.own w)) ∧
  (∀ f ∈ fromL, f.addr < mem.length) ∧
  (∀ f ∈ fromL, ∀ s, resolve toL f.name = .slot s → s.addr < mem.length) ∧
  (∀ f ∈ fromL, resolve toL f.name ≠ .whole true)

/-- The check of `Covered`, by evaluation. -/
def covered (mem : Memory) (fromL : List Slot) (toL : List Entry) : Bool :=
  mem.all (fun c =>
    match c with
    | .own v => v.Shaped
    | .ref j =>
      match mem[j]? with
      | some (.own _) => true
      | _ => false) &&
  fromL.all (fun f =>
    decide (f.addr < mem.length) &&
      match resolve toL f.name with
      | .slot s => decide (s.addr < mem.length)
      | .whole ex => !ex
      | _ => true)

/-- The value the variable `i` holds (the nil interface when it holds none of
its own). -/
def Memory.valueAt (mem : Memory) (i : Nat) : Val :=
  match mem[i]? with
  | some (.own v) => v
  | _ => .nilIface

/-- The struct value whose fields are the variables `slots`. -/
def loadRecord (mem : Memory) (slots : List Slot) : Record :=
  slots.map (fun s => Field.mk s.name s.exported (mem.valueAt s.addr))

/-- The source and the destination share nothing: every field holds a value
of its own, the fields of the destination are distinct variables, and none of
them is a field of the source. -/
def Separate (mem : Memory) (fromL toS : List Slot) : Prop :=
  (∀ s ∈ fromL ++ toS, ∃ v, mem[s.addr]? = some (Cell.own v)) ∧
  (toS.map Slot.addr).Nodup ∧
  (∀ f ∈ fromL, ∀ s ∈ toS, f.addr ≠ s.addr)

/-- The check of `Separate`, by evaluation. -/
def separate (mem : Memory) (fromL toS : List Slot) : Bool :=
  (fromL ++ toS).all (fun s =>
    match mem[s.addr]? with
    | some (.own _) => true
    | _ => false) &&
  decide (toS.map Slot.addr).Nodup &&
  fromL.all (fun f => toS.all (fun s => decide (f.addr ≠ s.addr)))

/-- No exported destination field that is a nil pointer to an interface
(`*interface{}`) is assigned by the call: the source field of its name, if
there is one, leaves it nil. -/
def nilIfaceKept (a : Arch) (fromVal toVal : Record) : Bool :=
  toVal.all (fun tf =>
    !(tf.exported && decide (tf.value = .nilPtr .iface)) ||
      match FieldByName fromVal tf.name with
      | some sf => decide (mapField a sf.value tf.value = some tf.value)
      | none => true)

/-- What `nilIfaceKept` says of the field found under each name. -/
def NilKept (a : Arch) (fromVal t : Record) : Prop :=
  ∀ n sf tf, FieldByName fromVal n = some sf → FieldByName t n = some tf →
    tf.exported = true → tf.value = .nilPtr .iface →
    mapField a sf.value tf.value = some tf.value

/-- The memory of two sources and a destination.  The source
`struct{A *int; B string}` is the variables 0 and 1, the source
`struct{B string; A *int}` the variables 4 and 5, the destination
`struct{A int; B int}{1, 2}` the variables 2 and 3.  In both sources `A`
points to the field `B` of the destination and `B` is `"5"`:
`from.A = &to.B`. -/
def memShared : Memory :=
  [.ref 3, .own (.str none "5"), .own (.int .int none 1), .own (.int .int none 2),
   .own (.str none "5"), .ref 3]

/-- The fields of the source of `memShared` that declares `A`, `B`. -/
def fromAB : List Slot := [Slot.mk "A" true 0, Slot.mk "B" true 1]

/-- The fields of the source of `memShared` that declares `B`, `A`. -/
def fromBA : List Slot := [Slot.mk "B" true 4, Slot.mk "A" true 5]

/-- The fields of the destination of `memShared`. -/
def toAB : List Entry := [.plain (Slot.mk "A" true 2), .plain (Slot.mk "B" true 3)]

/-- The memory `memShared` after `mapStructFields` from the source that
declares `A`, `B`: the destination is `{2, 5}`. -/
def memSharedOnce : Memory :=
  [.ref 3, .own (.str none "5"), .own (.int .int none 2), .own (.int .int none 5),
   .own (.str none "5"), .ref 3]

/-- The memory `memShared` with the destination `{5, 5}`. -/
def memSharedTwice : Memory :=
  [.ref 3, .own (.str none "5"), .own (.int .int none 5), .own (.int .int none 5),
   .own (.str none "5"), .ref 3]

/-- The memory of `From{ID: "1234", Balance: 123.345}` (variables 0 and 1), of
the zero `To` (variables 2 and 3), and of a second source that declares the
fields of `From` in the other order, with the same values (variables 4
and 5).  The three structs share nothing. -/
def memFromTo : Memory :=
  [.own (.str none "1234"), .own (.float .float64 none (float64Const false 123345 1000)),
   .own (.int .int none 0), .own (.str none ""),
   .own (.float .float64 none (float64Const false 123345 1000)), .own (.str none "1234")]

/-- The fields of `From` in `memFromTo`. -/
def fromSlots : List Slot := [Slot.mk "ID" true 0, Slot.mk "Balance" true 1]

/-- The fields of the second source in `memFromTo`. -/
def fromSlotsSwapped : List Slot := [Slot.mk "Balance" true 4, Slot.mk "ID" true 5]

/-- The fields of `To` in `memFromTo`. -/
def toSlots : List Slot := [Slot.mk "ID" true 2, Slot.mk "Balance" true 3]

/-- A destination `struct{Base; Balance string}` in `memFromTo` whose embedded
`Base` is `struct{ID int}`: the names `ID` and `Balance` find the variables of
`toSlots`. -/
def toEmbedded : List Entry :=
  [.embedded "Base" true .value [Slot.mk "ID" true 2], .plain (Slot.mk "Balance" true 3)]

/-! ## Lemmas -/

/-! ### The models of `strconv` on known values -/

/-- The float64 nearest to 123.345 and to 0.1, and the conversions of 5 and of
`-(1<<53 + 1)`, which rounds to even. -/
theorem float64_known_bits :
    float64Const false 123345 1000 = 0x405ED6147AE147AE ∧
    float64Const false 1 10 = 0x3FB999999999999A ∧
    intToFloat64 5 = 0x4014000000000000 ∧
    intToFloat64 (-9007199254740993) = 0xC340000000000000 ∧
    narrow (float64Const false 1 10) = 0x3DCCCCCD ∧
    widen 0x3DCCCCCD = 0x3FB99999A0000000 := by decide

/-- `FormatFloat(x, 'f', -1, 64)` on known values. -/
theorem FormatFloat_known :
    FormatFloat (float64Const false 123345 1000) = "123.345" ∧
    FormatFloat (float64Const false 1 10) = "0.1" ∧
    FormatFloat (float64Const false 1 3) = "0.3333333333333333" ∧
    FormatFloat (float64Const false 5 1000000) = "0.000005" ∧
    FormatFloat (intToFloat64 (-1200)) = "-1200" ∧
    FormatFloat 0 = "0" ∧ FormatFloat (2 ^ 63) = "-0" ∧
    FormatFloat (infBits binary64 false) = "+Inf" ∧ FormatFloat (nanBits binary64) = "NaN" := by
  decide

/-- `ParseInt`, `ParseUint`, `FormatInt` and `FormatUint` on known values. -/
theorem strconv_known :
    ParseInt (cleanText " 1,234 ") 64 = some 1234 ∧ ParseInt "300" 8 = none ∧
    ParseInt "-128" 8 = some (-128) ∧ ParseInt "+7" 16 = some 7 ∧
    ParseInt "9223372036854775808" 64 = none ∧ ParseInt "" 64 = none ∧
    ParseInt "1,234.50" 64 = none ∧
    ParseUint "-1" 8 = none ∧ ParseUint "+1" 8 = none ∧ ParseUint "255" 8 = some 255 ∧
    ParseUint "18446744073709551616" 64 = none ∧
    FormatInt (-1234) = "-1234" ∧ FormatInt 0 = "0" ∧
    FormatUint 18446744073709551615 = "18446744073709551615" := by decide

/-- `ParseFloat` on known values: decimal and hexadecimal literals,
underscores, the special values, and what is rejected. -/
theorem ParseFloat_known :
    ParseFloat "1234.50" 64 = some (float64Const false 12345 10) ∧
    ParseFloat "-1.5e3" 32 = some (intToFloat64 (-1500)) ∧
    ParseFloat "1_000.5" 64 = some (float64Const false 10005 10) ∧
    ParseFloat "0x1.8p1" 64 = some (intToFloat64 3) ∧
    ParseFloat "0x_1p-2" 64 = some (float64Const false 1 4) ∧
    ParseFloat "0.1" 32 = some 0x3FB99999A0000000 ∧
    ParseFloat "abc" 64 = none ∧ ParseFloat "1.5.2" 64 = none ∧
    ParseFloat "1__0" 64 = none ∧ ParseFloat "_1" 64 = none ∧ ParseFloat "1_" 64 = none ∧
    ParseFloat "0x1.8" 64 = none ∧ ParseFloat "1e" 64 = none ∧ ParseFloat "" 64 = none ∧
    ParseFloat "1e999" 64 = none ∧ ParseFloat "1e-999" 64 = some 0 ∧
    ParseFloat "-Infinity" 64 = some (infBits binary64 true) ∧
    ParseFloat "+nan" 64 = none ∧
    ParseFloat "NaN" 64 = some 0x7FF8000000000001 ∧
    ParseFloat "NaN" 32 = some 0x7FF8000000000000 := by decide

/-! ### Kinds of the constructors -/

@[simp] theorem kind_bool (n : Option String) (b : Bool) : (Val.bool n b).kind = .Bool := rfl
@[simp] theorem kind_int (p : Prim) (n : Option String) (i : Int) :
    (Val.int p n i).kind = p.kind := rfl
@[simp] theorem kind_uint (p : Prim) (n : Option String) (i : Nat) :
    (Val.uint p n i).kind = p.kind := rfl
@[simp] theorem kind_float (p : Prim) (n : Option String) (i : Nat) :
    (Val.float p n i).kind = p.kind := rfl
@[simp] theorem kind_str (n : Option String) (s : String) : (Val.str n s).kind = .String := rfl
@[simp] theorem kind_nilPtr (t : GoType) : (Val.nilPtr t).kind = .Ptr := rfl
@[simp] theorem kind_ptrTo (v : Val) : (Val.ptrTo v).kind = .Ptr := rfl
@[simp] theorem kind_nilIface : Val.nilIface.kind = .Interface := rfl
@[simp] theorem kind_ifaceOf (v : Val) : (Val.ifaceOf v).kind = .Interface := rfl
@[simp] theorem kind_nullInt64 (v : Int) (b : Bool) : (Val.nullInt64 v b).kind = .Struct := rfl
@[simp] theorem kind_nullInt32 (v : Int) (b : Bool) : (Val.nullInt32 v b).kind = .Struct := rfl
@[simp] theorem kind_nullInt16 (v : Int) (b : Bool) : (Val.nullInt16 v b).kind = .Struct := rfl
@[simp] theorem kind_nullString (v : String) (b : Bool) :
    (Val.nullString v b).kind = .Struct := rfl
@[simp] theorem kind_nullFloat64 (v : Nat) (b : Bool) :
    (Val.nullFloat64 v b).kind = .Struct := rfl
@[simp] theorem kind_struct (n : String) (c : Nat) : (Val.struct n c).kind = .Struct := rfl

/-- The kind of a basic type is never `Interface`, `Ptr` or `Struct`. -/
theorem Prim.kind_basic (p : Prim) :
    p.kind ≠ .Interface ∧ p.kind ≠ .Ptr ∧ p.kind ≠ .Struct := by
  cases p <;> simp [Prim.kind]

/-- A signed integer kind is no other numeric kind and not the string kind. -/
theorem isIntKind_excl {k : Kind} (h : isIntKind k = true) :
    isUintKind k = false ∧ isFloatKind k = false ∧ k ≠ .String ∧ k ≠ .Interface ∧
      k ≠ .Ptr ∧ k ≠ .Struct := by
  cases k <;> simp_all [isIntKind, isUintKind, isFloatKind]

/-- An unsigned integer kind is no other numeric kind and not the string kind. -/
theorem isUintKind_excl {k : Kind} (h : isUintKind k = true) :
    isIntKind k = false ∧ isFloatKind k = false ∧ k ≠ .String ∧ k ≠ .Interface ∧
      k ≠ .Ptr ∧ k ≠ .Struct := by
  cases k <;> simp_all [isIntKind, isUintKind, isFloatKind]

/-- A float kind is no other numeric kind and not the string kind. -/
theorem isFloatKind_excl {k : Kind} (h : isFloatKind k = true) :
    isIntKind k = false ∧ isUintKind k = false ∧ k ≠ .String ∧ k ≠ .Interface ∧
      k ≠ .Ptr ∧ k ≠ .Struct := by
  cases k <;> simp_all [isIntKind, isUintKind, isFloatKind]

/-! ### `strings.TrimSpace` -/

/-- Dropping the leading white space is `List.dropWhile`. -/
theorem trimLeft_eq_dropWhile : ∀ cs : List Char, trimLeft cs = cs.dropWhile isSpace
  | [] => rfl
  | c :: cs => by
    simp only [trimLeft, List.dropWhile]
    cases h : isSpace c
    · simp
    · simp [trimLeft_eq_dropWhile cs]

/-- `TrimSpace` drops the white space in front and at the end, and nothing else. -/
theorem trimSpaceChars_eq (cs : List Char) :
    trimSpaceChars cs = (cs.dropWhile isSpace).rdropWhile isSpace := by
  simp [trimSpaceChars, trimLeft_eq_dropWhile, List.rdropWhile]

/-! ### `strconv.ParseUint` and `strconv.ParseInt` against positional notation -/

/-- A digit character has a value below ten. -/
theorem digitVal_lt {c : Char} {d : Nat} (h : digitVal c = some d) : d < 10 := by
  unfold digitVal at h
  split at h
  · simp at h; omega
  · simp at h

/-- Reading more digits never decreases the number read so far. -/
theorem decimalValue_ge : ∀ (cs : List Char) (n v : Nat), decimalValue n cs = some v → n ≤ v
  | [], n, v, h => by simp [decimalValue] at h; omega
  | c :: cs, n, v, h => by
    simp only [decimalValue] at h
    cases hd : digitVal c with
    | none => simp [hd] at h
    | some d =>
      simp only [hd] at h
      have := decimalValue_ge cs _ _ h
      omega

/-- The loop of `ParseUint`, with its cutoff and wrap-around tests, returns
the number the digits denote when it is at most `maxVal`, and fails otherwise. -/
theorem parseUintLoop_eq (M : Nat) (hM : M < 2 ^ 64) :
    ∀ (cs : List Char) (n : Nat), n ≤ M →
      parseUintLoop M n cs = (decimalValue n cs).bind (atMost M)
  | [], n, hn => by simp [parseUintLoop, decimalValue, atMost, hn]
  | c :: cs, n, hn => by
    simp only [parseUintLoop, decimalValue]
    cases hd : digitVal c with
    | none => simp
    | some d =>
      have hd10 := digitVal_lt hd
      have hnone : ∀ m, M < m → (decimalValue m cs).bind (atMost M) = none := by
        intro m hm
        cases hv : decimalValue m cs with
        | none => simp
        | some v =>
          have := decimalValue_ge cs m v hv
          simp [atMost]; omega
      have h64 : (2 : Nat) ^ 64 = 18446744073709551616 := by norm_num
      simp only [h64] at hM ⊢
      by_cases hc : n ≥ (18446744073709551616 - 1) / 10 + 1
      · simp only [hc, if_true]
        exact (hnone _ (by omega)).symm
      · simp only [hc, if_false]
        have hn10 : n * 10 % 18446744073709551616 = n * 10 := Nat.mod_eq_of_lt (by omega)
        simp only [hn10]
        by_cases hov : n * 10 + d < 18446744073709551616
        · have hn1 : (n * 10 + d) % 18446744073709551616 = n * 10 + d := Nat.mod_eq_of_lt hov
          simp only [hn1]
          by_cases hgt : n * 10 + d > M
          · have : (n * 10 + d < n * 10 ∨ n * 10 + d > M) := Or.inr hgt
            simp only [this, if_true]
            exact (hnone _ hgt).symm
          · have : ¬ (n * 10 + d < n * 10 ∨ n * 10 + d > M) := by omega
            simp only [this, if_false]
            exact parseUintLoop_eq M hM cs _ (by omega)
        · have hlt : (n * 10 + d) % 18446744073709551616 < n * 10 := by omega
          have : ((n * 10 + d) % 18446744073709551616 < n * 10 ∨
              (n * 10 + d) % 18446744073709551616 > M) := Or.inl hlt
          simp only [this, if_true]
          exact (hnone _ (by omega)).symm

/-- `ParseUint` returns the value of an unsigned literal that fits in
`bitSize` bits, and an error for any other text. -/
theorem ParseUint_eq (s : String) (w : Nat) (hw : w ≤ 64) :
    ParseUint s w = (specUintLiteral s).bind (atMost (2 ^ w - 1)) := by
  have hM : 2 ^ w - 1 < 2 ^ 64 := by
    have : 2 ^ w ≤ 2 ^ 64 := Nat.pow_le_pow_right (by norm_num) hw
    have : 0 < 2 ^ w := Nat.two_pow_pos w
    omega
  unfold ParseUint specUintLiteral
  split
  · simp
  · exact parseUintLoop_eq _ hM _ 0 (Nat.zero_le _)

/-- The part of `ParseInt` after the sign is split off. -/
theorem parseInt_tail (neg : Bool) (rest : List Char) (w : Nat) (h1 : 1 ≤ w) (hw : w ≤ 64) :
    (match ParseUint (String.mk rest) w with
      | none => none
      | some un =>
        if (!neg && decide (un ≥ 2 ^ (w - 1))) = true then none
        else if (neg && decide (un > 2 ^ (w - 1))) = true then none
        else some (if neg = true then -(un : Int) else (un : Int))) =
    (if rest = [] then none else decimalValue 0 rest).bind
      (fun n => inIntRange w (if neg = true then -(n : Int) else (n : Int))) := by
  rw [ParseUint_eq _ w hw]
  simp only [specUintLiteral]
  by_cases hr : rest = []
  · simp [hr]
  · simp only [hr, if_false]
    cases hv : decimalValue 0 rest with
    | none => simp
    | some un =>
      have hC : 2 ^ w = 2 * 2 ^ (w - 1) := by
        obtain ⟨k, rfl⟩ : ∃ k, w = k + 1 := ⟨w - 1, by omega⟩
        simp [pow_succ, Nat.mul_comm]
      have hpos : 0 < 2 ^ (w - 1) := Nat.two_pow_pos _
      have hcast : ((2 : Int) ^ (w - 1)) = ((2 ^ (w - 1) : Nat) : Int) := by push_cast; rfl
      simp only [Option.some_bind, atMost, inIntRange, fitsInt, hC, hcast]
      generalize 2 ^ (w - 1) = C at hpos
      cases neg
      · by_cases h2 : un < C
        · have h3 : un ≤ 2 * C - 1 := by omega
          have h4 : ¬ (un ≥ C) := by omega
          have h5 : (un : Int) < (C : Int) := by exact_mod_cast h2
          have h6 : -(C : Int) ≤ (un : Int) := by omega
          simp [h3, h4, h5, h6]
        · have h5 : ¬ ((un : Int) < (C : Int)) := by
            intro h; exact h2 (by exact_mod_cast h)
          by_cases h3 : un ≤ 2 * C - 1
          · have h4 : un ≥ C := by omega
            simp [h3, h4, h5]
          · simp [h3, h5]
      · by_cases h2 : un ≤ C
        · have h3 : un ≤ 2 * C - 1 := by omega
          have h4 : ¬ (un > C) := by omega
          have h5 : -(C : Int) ≤ -(un : Int) := by
            have : (un : Int) ≤ (C : Int) := by exact_mod_cast h2
            omega
          have h6 : -(un : Int) < (C : Int) := by omega
          simp [h3, h4, h5, h6]
        · have h5 : ¬ (-(C : Int) ≤ -(un : Int)) := by
            intro h
            have : (un : Int) ≤ (C : Int) := by omega
            exact h2 (by exact_mod_cast this)
          by_cases h3 : un ≤ 2 * C - 1
          · have h4 : un > C := by omega
            simp [h3, h4, h5]
          · simp [h3, h5]

/-- The signed literal, by its first character. -/
theorem specIntLiteral_cons (s : String) (c : Char) (cs : List Char) (hs : s.data = c :: cs) :
    specIntLiteral s =
      if c = '-' then
        (if cs = [] then none else (decimalValue 0 cs).map (fun n => -(n : Int)))
      else if c = '+' then
        (if cs = [] then none else (decimalValue 0 cs).map (fun n => (n : Int)))
      else (decimalValue 0 (c :: cs)).map (fun n => (n : Int)) := by
  unfold specIntLiteral
  rw [hs]
  split
  · simp_all
  · rename_i h; simp at h; obtain ⟨rfl, rfl⟩ := h; simp
  · rename_i h; simp at h; obtain ⟨rfl, rfl⟩ := h; simp
  · rename_i h1 h2 h3
    have hm : c ≠ '-' := by intro h; subst h; exact h2 cs rfl
    have hp : c ≠ '+' := by intro h; subst h; exact h3 cs rfl
    simp [hm, hp]

/-- `ParseInt` returns the value of a signed literal that fits in `bitSize`
bits, and an error for any other text. -/
theorem ParseInt_eq (s : String) (w : Nat) (h1 : 1 ≤ w) (hw : w ≤ 64) :
    ParseInt s w = (specIntLiteral s).bind (inIntRange w) := by
  cases hs : s.data with
  | nil => simp [ParseInt, specIntLiteral, hs]
  | cons c cs =>
    rw [specIntLiteral_cons s c cs hs]
    unfold ParseInt
    rw [hs]
    by_cases hm : c = '-'
    · subst hm
      have := parseInt_tail true cs w h1 hw
      simp only [if_true] at this
      simp only [beq_self_eq_true, or_true, if_true]
      rw [this]
      by_cases hcs : cs = []
      · simp [hcs]
      · simp only [hcs, if_false]
        cases decimalValue 0 cs <;> simp
    · by_cases hp : c = '+'
      · subst hp
        have := parseInt_tail false cs w h1 hw
        simp only [Bool.false_eq_true, if_false] at this
        have hb : (('+' : Char) == '-') = false := by decide
        simp only [hb, beq_self_eq_true, true_or, if_true, Bool.false_eq_true, if_false]
        rw [this]
        by_cases hcs : cs = []
        · simp [hcs]
        · simp only [hcs, if_false]
          cases decimalValue 0 cs <;> simp
      · have := parseInt_tail false (c :: cs) w h1 hw
        simp only [Bool.false_eq_true, if_false] at this
        have hb : (c == '-') = false := by simpa using hm
        have hb2 : (c == '+') = false := by simpa using hp
        simp only [hb, hb2, Bool.false_eq_true, or_self, if_false, hm, hp]
        rw [this]
        simp only [List.cons_ne_nil, if_false]
        cases decimalValue 0 (c :: cs) <;> simp

/-! ### `strconv.FormatUint` and `strconv.FormatInt` against positional notation -/

/-- The digit character of a number below ten has that number as value. -/
theorem digitVal_digitChar {d : Nat} (h : d < 10) : digitVal (digitChar d) = some d := by
  interval_cases d <;> decide

/-- The digit character of a number below ten is `'0'` only for zero. -/
theorem digitChar_eq_zero {d : Nat} (h : d < 10) (h0 : digitChar d = '0') : d = 0 := by
  interval_cases d <;> first | rfl | (exact absurd h0 (by decide))

/-- The digits are produced in front of the accumulator. -/
theorem formatBits_acc : ∀ (fuel n : Nat) (acc : List Char), n < fuel →
    formatBits fuel n acc = formatBits fuel n [] ++ acc
  | 0, n, acc, h => by omega
  | fuel + 1, n, acc, h => by
    simp only [formatBits]
    by_cases h10 : n < 10
    · simp [h10]
    · simp only [h10, if_false]
      rw [formatBits_acc fuel (n / 10) (digitChar (n % 10) :: acc) (by omega),
        formatBits_acc fuel (n / 10) [digitChar (n % 10)] (by omega)]
      simp

/-- Reading a digit sequence followed by one more digit. -/
theorem decimalValue_append_digit : ∀ (xs : List Char) (k v d : Nat) (c : Char),
    decimalValue k xs = some v → digitVal c = some d →
    decimalValue k (xs ++ [c]) = some (v * 10 + d)
  | [], k, v, d, c, h, hc => by
    simp [decimalValue] at h
    simp [decimalValue, hc, h]
  | x :: xs, k, v, d, c, h, hc => by
    simp only [decimalValue, List.cons_append] at h ⊢
    cases hx : digitVal x with
    | none => simp [hx] at h
    | some dx =>
      simp only [hx] at h ⊢
      exact decimalValue_append_digit xs _ v d c h hc

/-- The digits `formatBits` produces are the base-10 representation. -/
theorem formatBits_decimal : ∀ (fuel n : Nat), n < fuel →
    decimalValue 0 (formatBits fuel n []) = some n ∧ formatBits fuel n [] ≠ [] ∧
      ((formatBits fuel n []).head? = some '0' → n = 0)
  | 0, n, h => by omega
  | fuel + 1, n, h => by
    simp only [formatBits]
    by_cases h10 : n < 10
    · simp only [h10, if_true]
      refine ⟨?_, by simp, ?_⟩
      · simp [decimalValue, digitVal_digitChar h10]
      · intro h0
        simp at h0
        exact digitChar_eq_zero h10 h0
    · simp only [h10, if_false]
      obtain ⟨hv, hne, hz⟩ := formatBits_decimal fuel (n / 10) (by omega)
      rw [formatBits_acc fuel (n / 10) [digitChar (n % 10)] (by omega)]
      refine ⟨?_, by simp [hne], ?_⟩
      · rw [decimalValue_append_digit _ 0 (n / 10) (n % 10) _ hv
          (digitVal_digitChar (Nat.mod_lt _ (by norm_num)))]
        congr 1
        omega
      · intro h0
        rw [List.head?_append_of_ne_nil _ hne] at h0
        have := hz h0
        omega

/-- `FormatUint` writes the base-10 representation. -/
theorem FormatUint_decimal (n : Nat) : isDecimalOf (FormatUint n).data n = true := by
  obtain ⟨hv, hne, hz⟩ := formatBits_decimal (n + 1) n (by omega)
  simp only [isDecimalOf, FormatUint, hv, hne, Bool.and_eq_true, Bool.or_eq_true,
    decide_eq_true_eq, ne_eq, not_false_eq_true, true_and]
  by_cases h0 : (formatBits (n + 1) n []).head? = some '0'
  · right
    have := hz h0
    subst this
    decide
  · left; exact h0

/-- `FormatInt` writes the base-10 representation, with `-` for a negative
number. -/
theorem FormatInt_decimal (i : Int) : isSignedDecimalOf (FormatInt i) i = true := by
  unfold isSignedDecimalOf FormatInt
  by_cases hi : i < 0
  · simp only [hi, if_true]
    exact FormatUint_decimal i.natAbs
  · simp only [hi, if_false]
    exact FormatUint_decimal i.natAbs

/-- A string source into a signed integer destination: the cleaned text is
parsed, and the destination is set on success and kept on failure. -/
theorem mapField_str_int (a : Arch) (n dn : Option String) (s : String) (p : Prim)
    (old : Int) (w : Nat) (hk : isIntKind p.kind = true) (hw : p.bits a = some w) :
    mapField a (.str n s) (.int p dn old) =
      match ParseInt (cleanText s) w with
      | some v => some (.int p dn (wrapInt w v))
      | none => some (.int p dn old) := by
  obtain ⟨-, -, hs, -, -, -⟩ := isIntKind_excl hk
  simp [mapField, derefSource, mapValue, interfaceStage, unwrapNull, stringStage,
    Val.IsValid, Val.Interface, Val.asString, Val.type, GoType.Bits, hk, hw, hs, cleanText,
    Val.SetInt]

/-- A string source into an unsigned integer destination: the cleaned text is
parsed, and the destination is set on success and kept on failure. -/
theorem mapField_str_uint (a : Arch) (n dn : Option String) (s : String) (p : Prim)
    (old : Nat) (w : Nat) (hk : isUintKind p.kind = true) (hw : p.bits a = some w) :
    mapField a (.str n s) (.uint p dn old) =
      match ParseUint (cleanText s) w with
      | some v => some (.uint p dn (wrapUint w v))
      | none => some (.uint p dn old) := by
  obtain ⟨hi, -, hs, -, -, -⟩ := isUintKind_excl hk
  simp [mapField, derefSource, mapValue, interfaceStage, unwrapNull, stringStage,
    Val.IsValid, Val.Interface, Val.asString, Val.type, GoType.Bits, hk, hw, hs, hi, cleanText,
    Val.SetUint]

/-- The sizes `reflect.Type.Bits` reports lie between 8 and 64. -/
theorem Prim.bits_range {a : Arch} {p : Prim} {w : Nat} (h : p.bits a = some w) :
    8 ≤ w ∧ w ≤ 64 := by
  cases p <;> simp [Prim.bits, Arch.intSize] at h <;> try (subst h; omega)
  all_goals (cases hb : a.is64 <;> simp [hb] at h <;> omega)

/-- Wrapping to the width leaves a value of the width as it is. -/
theorem wrapInt_of_fits {w : Nat} {v : Int} (h1 : 1 ≤ w) (h : fitsInt w v = true) :
    wrapInt w v = v := by
  unfold fitsInt at h
  simp only [Bool.and_eq_true, decide_eq_true_eq] at h
  have hC : (2 : Int) ^ w = 2 * 2 ^ (w - 1) := by
    obtain ⟨k, rfl⟩ : ∃ k, w = k + 1 := ⟨w - 1, by omega⟩
    simp [pow_succ, mul_comm]
  have hpos : (0 : Int) < 2 ^ (w - 1) := by positivity
  unfold wrapInt
  rw [hC]
  generalize (2 : Int) ^ (w - 1) = C at *
  rw [Int.emod_eq_of_lt (by omega) (by omega)]
  omega

/-- A well-formed value is shaped. -/
theorem Val.shaped_of_WF {a : Arch} : ∀ {d : Val}, d.WF a = true → d.Shaped = true
  | .bool _ _, _ => rfl
  | .int _ _ _, h => by simp only [Val.WF, Bool.and_eq_true] at h; exact h.1
  | .uint _ _ _, h => by simp only [Val.WF, Bool.and_eq_true] at h; exact h.1
  | .float _ _ _, h => by simp only [Val.WF, Bool.and_eq_true] at h; exact h.1
  | .str _ _, _ => rfl
  | .nilPtr _, _ => rfl
  | .ptrTo v, h => by
    simp only [Val.WF] at h
    simp only [Val.Shaped]
    exact Val.shaped_of_WF h
  | .nilIface, _ => rfl
  | .ifaceOf v, h => by
    simp only [Val.WF, Bool.and_eq_true] at h
    simp only [Val.Shaped, Bool.and_eq_true]
    exact ⟨Val.shaped_of_WF h.1, h.2⟩
  | .nullInt64 _ _, _ => rfl
  | .nullInt32 _ _, _ => rfl
  | .nullInt16 _ _, _ => rfl
  | .nullString _ _, _ => rfl
  | .nullFloat64 _ _, _ => rfl
  | .struct _ _, _ => rfl

/-- A shaped value of signed integer kind is built by `Val.int`. -/
theorem Val.int_of_shaped {d : Val} (hs : d.Shaped = true)
    (hk : isIntKind d.kind = true) : ∃ p n i, d = .int p n i ∧ p.isSigned = true := by
  cases d with
  | int p n i => exact ⟨p, n, i, rfl, hs⟩
  | uint p n x =>
    simp only [Val.Shaped] at hs
    cases p <;> simp_all [Prim.isUnsigned, Prim.kind, isIntKind]
  | float p n x =>
    simp only [Val.Shaped] at hs
    cases p <;> simp_all [Prim.isFloat, Prim.kind, isIntKind]
  | _ => simp [Val.kind, Val.type, GoType.kind, Prim.kind, isIntKind] at hk

/-- A shaped value of unsigned integer kind is built by `Val.uint`. -/
theorem Val.uint_of_shaped {d : Val} (hs : d.Shaped = true)
    (hk : isUintKind d.kind = true) : ∃ p n i, d = .uint p n i ∧ p.isUnsigned = true := by
  cases d with
  | uint p n i => exact ⟨p, n, i, rfl, hs⟩
  | int p n x =>
    simp only [Val.Shaped] at hs
    cases p <;> simp_all [Prim.isSigned, Prim.kind, isUintKind]
  | float p n x =>
    simp only [Val.Shaped] at hs
    cases p <;> simp_all [Prim.isFloat, Prim.kind, isUintKind]
  | _ => simp [Val.kind, Val.type, GoType.kind, Prim.kind, isUintKind] at hk

/-- A shaped value of float kind is built by `Val.float`. -/
theorem Val.float_of_shaped {d : Val} (hs : d.Shaped = true)
    (hk : isFloatKind d.kind = true) : ∃ p n i, d = .float p n i ∧ p.isFloat = true := by
  cases d with
  | float p n i => exact ⟨p, n, i, rfl, hs⟩
  | int p n x =>
    simp only [Val.Shaped] at hs
    cases p <;> simp_all [Prim.isSigned, Prim.kind, isFloatKind]
  | uint p n x =>
    simp only [Val.Shaped] at hs
    cases p <;> simp_all [Prim.isUnsigned, Prim.kind, isFloatKind]
  | _ => simp [Val.kind, Val.type, GoType.kind, Prim.kind, isFloatKind] at hk

/-- A shaped value of string kind is built by `Val.str`. -/
theorem Val.str_of_shaped {d : Val} (hs : d.Shaped = true)
    (hk : d.kind = .String) : ∃ n s, d = .str n s := by
  cases d with
  | str n s => exact ⟨n, s, rfl⟩
  | int p n x =>
    simp only [Val.Shaped] at hs
    cases p <;> simp_all [Prim.isSigned, Prim.kind]
  | uint p n x =>
    simp only [Val.Shaped] at hs
    cases p <;> simp_all [Prim.isUnsigned, Prim.kind]
  | float p n x =>
    simp only [Val.Shaped] at hs
    cases p <;> simp_all [Prim.isFloat, Prim.kind]
  | _ => simp [Val.kind, Val.type, GoType.kind, Prim.kind] at hk

/-- A well-formed value of signed integer kind is built by `Val.int`. -/
theorem Val.int_of_kind {a : Arch} {d : Val} (hwf : d.WF a = true)
    (hk : isIntKind d.kind = true) : ∃ p n i, d = .int p n i := by
  obtain ⟨p, n, i, h, -⟩ := Val.int_of_shaped (Val.shaped_of_WF hwf) hk
  exact ⟨p, n, i, h⟩

/-- A well-formed value of unsigned integer kind is built by `Val.uint`. -/
theorem Val.uint_of_kind {a : Arch} {d : Val} (hwf : d.WF a = true)
    (hk : isUintKind d.kind = true) : ∃ p n i, d = .uint p n i := by
  obtain ⟨p, n, i, h, -⟩ := Val.uint_of_shaped (Val.shaped_of_WF hwf) hk
  exact ⟨p, n, i, h⟩

/-- Every numeric type has a size in bits. -/
theorem Prim.bits_some (a : Arch) {p : Prim}
    (h : p.isSigned = true ∨ p.isUnsigned = true ∨ p.isFloat = true) :
    ∃ w, p.bits a = some w := by
  cases p <;> simp_all [Prim.isSigned, Prim.isUnsigned, Prim.isFloat, Prim.bits]

/-! ### `mapField` returns normally -/

/-- Keeping the slot is a normal return. -/
theorem Returns.keep {tf : Val} (h : tf.Shaped = true) : Returns tf (some tf) :=
  ⟨tf, rfl, h, rfl⟩

/-- `SetString` on a string slot returns. -/
theorem Returns.setString (dn : Option String) (old s : String) :
    Returns (.str dn old) ((Val.str dn old).SetString s) :=
  ⟨.str dn s, rfl, rfl, rfl⟩

/-- `SetInt` on a signed integer slot returns. -/
theorem Returns.setInt (a : Arch) (p : Prim) (n : Option String) (i x : Int)
    (hp : p.isSigned = true) : Returns (.int p n i) (Val.SetInt a (.int p n i) x) := by
  obtain ⟨w, hw⟩ := Prim.bits_some a (Or.inl hp)
  exact ⟨.int p n (wrapInt w x), by simp [Val.SetInt, hw], hp, rfl⟩

/-- `SetUint` on an unsigned integer slot returns. -/
theorem Returns.setUint (a : Arch) (p : Prim) (n : Option String) (i x : Nat)
    (hp : p.isUnsigned = true) : Returns (.uint p n i) (Val.SetUint a (.uint p n i) x) := by
  obtain ⟨w, hw⟩ := Prim.bits_some a (Or.inr (Or.inl hp))
  exact ⟨.uint p n (wrapUint w x), by simp [Val.SetUint, hw], hp, rfl⟩

/-- `SetFloat` on a float slot returns. -/
theorem Returns.setFloat (p : Prim) (n : Option String) (i x : Nat)
    (hp : p.isFloat = true) : Returns (.float p n i) ((Val.float p n i).SetFloat x) :=
  ⟨_, rfl, hp, rfl⟩

/-- `Set` of a shaped assignable value returns. -/
theorem Returns.set {tf x : Val} (hx : x.Shaped = true)
    (ha : x.type.AssignableTo tf.type = true) : Returns tf (tf.Set x) := by
  simp only [Val.Set, ha, if_true]
  by_cases hi : tf.type = .iface
  · simp only [hi, if_true]
    cases x with
    | nilIface => exact ⟨_, rfl, rfl, hi.symm⟩
    | ifaceOf w => exact ⟨_, rfl, hx, hi.symm⟩
    | _ => exact ⟨_, rfl, by simp [Val.Shaped, Val.type] at hx ⊢ <;> exact hx, hi.symm⟩
  · simp only [hi, if_false]
    refine ⟨x, rfl, hx, ?_⟩
    simpa [GoType.AssignableTo, hi] using ha

/-- Lines 120-132 return normally on a string slot. -/
theorem toStringStage_returns {ff : Val} {fk : Kind} (dn : Option String) (old : String)
    (hf : ff.Shaped = true) (hc : Consistent ff fk) :
    Returns (.str dn old) (toStringStage ff fk (.str dn old)) := by
  unfold toStringStage
  by_cases h1 : isIntKind fk = true
  · have hk : fk = ff.kind := by
      rcases hc with h | ⟨h, -⟩
      · exact h
      · rw [h] at h1; exact absurd h1 (by simp)
    obtain ⟨p, n, i, rfl, -⟩ := Val.int_of_shaped hf (hk ▸ h1)
    simp only [h1, if_true, Val.asInt, Option.some_bind]
    exact Returns.setString _ _ _
  · simp only [h1, Bool.false_eq_true, if_false]
    by_cases h2 : isUintKind fk = true
    · have hk : fk = ff.kind := by
        rcases hc with h | ⟨-, h, -⟩
        · exact h
        · rw [h] at h2; exact absurd h2 (by simp)
      obtain ⟨p, n, i, rfl, -⟩ := Val.uint_of_shaped hf (hk ▸ h2)
      simp only [h2, if_true, Val.asUint, Option.some_bind]
      exact Returns.setString _ _ _
    · simp only [h2, Bool.false_eq_true, if_false]
      by_cases h3 : isFloatKind fk = true
      · have hk : fk = ff.kind := by
          rcases hc with h | ⟨-, -, h, -⟩
          · exact h
          · rw [h] at h3; exact absurd h3 (by simp)
        obtain ⟨p, n, i, rfl, -⟩ := Val.float_of_shaped hf (hk ▸ h3)
        simp only [h3, if_true, Val.asFloat, Option.some_bind]
        exact Returns.setString _ _ _
      · simp only [h3, Bool.false_eq_true, if_false]
        by_cases h4 : fk = .String
        · simp only [h4, if_true]
          exact Returns.setString _ _ _
        · simp only [h4, if_false]
          exact Returns.keep rfl

/-- Lines 161-186 return normally. -/
theorem numericStage_returns (a : Arch) {ff tf : Val} {fk : Kind}
    (hf : ff.Shaped = true) (ht : tf.Shaped = true) (hc : Consistent ff fk) :
    Returns tf (numericStage a ff fk tf) := by
  unfold numericStage
  have hint : isIntKind fk = true → ∃ p n i, ff = .int p n i := by
    intro h1
    have hk : fk = ff.kind := by
      rcases hc with h | ⟨h, -⟩
      · exact h
      · rw [h] at h1; exact absurd h1 (by simp)
    obtain ⟨p, n, i, h, -⟩ := Val.int_of_shaped hf (hk ▸ h1)
    exact ⟨p, n, i, h⟩
  have huint : isUintKind fk = true → ∃ p n i, ff = .uint p n i := by
    intro h1
    have hk : fk = ff.kind := by
      rcases hc with h | ⟨-, h, -⟩
      · exact h
      · rw [h] at h1; exact absurd h1 (by simp)
    obtain ⟨p, n, i, h, -⟩ := Val.uint_of_shaped hf (hk ▸ h1)
    exact ⟨p, n, i, h⟩
  have hfloat : isFloatKind fk = true → ∃ p n i, ff = .float p n i := by
    intro h1
    have hk : fk = ff.kind := by
      rcases hc with h | ⟨-, -, h, -⟩
      · exact h
      · rw [h] at h1; exact absurd h1 (by simp)
    obtain ⟨p, n, i, h, -⟩ := Val.float_of_shaped hf (hk ▸ h1)
    exact ⟨p, n, i, h⟩
  simp only []
  split_ifs with c1 c2 c3 c4 c5
  · obtain ⟨p, n, i, rfl⟩ := hint c1.1
    obtain ⟨q, m, j, rfl, hq⟩ := Val.float_of_shaped ht c1.2
    exact Returns.setFloat q m j _ hq
  · obtain ⟨p, n, i, rfl⟩ := hfloat c2.1
    obtain ⟨q, m, j, rfl, hq⟩ := Val.int_of_shaped ht c2.2
    exact Returns.setInt a q m j _ hq
  · obtain ⟨p, n, i, rfl⟩ := huint c3.1
    obtain ⟨q, m, j, rfl, hq⟩ := Val.float_of_shaped ht c3.2
    exact Returns.setFloat q m j _ hq
  · obtain ⟨p, n, i, rfl⟩ := hfloat c4.1
    obtain ⟨q, m, j, rfl, hq⟩ := Val.uint_of_shaped ht c4.2
    exact Returns.setUint a q m j _ hq
  · exact Returns.set hf c5
  · exact Returns.keep ht

/-- Lines 134-157 return normally. -/
theorem stringStage_returns (a : Arch) {ff tf : Val} {fk : Kind}
    (hf : ff.Shaped = true) (ht : tf.Shaped = true) (hc : Consistent ff fk) :
    Returns tf (stringStage a ff fk tf) := by
  unfold stringStage
  simp only []
  split_ifs with c0 c1 c2 c3 c4
  · obtain ⟨q, m, j, rfl, hq⟩ := Val.int_of_shaped ht c1
    obtain ⟨w, hw⟩ := Prim.bits_some a (Or.inl hq)
    simp only [Val.type, GoType.Bits, hw, Option.some_bind]
    cases ParseInt (removeCommas (TrimSpace ff.asString)) w with
    | none => exact Returns.keep ht
    | some v => exact Returns.setInt a q m j v hq
  · obtain ⟨q, m, j, rfl, hq⟩ := Val.uint_of_shaped ht c2
    obtain ⟨w, hw⟩ := Prim.bits_some a (Or.inr (Or.inl hq))
    simp only [Val.type, GoType.Bits, hw, Option.some_bind]
    cases ParseUint (removeCommas (TrimSpace ff.asString)) w with
    | none => exact Returns.keep ht
    | some v => exact Returns.setUint a q m j v hq
  · obtain ⟨q, m, j, rfl, hq⟩ := Val.float_of_shaped ht c3
    obtain ⟨w, hw⟩ := Prim.bits_some a (Or.inr (Or.inr hq))
    simp only [Val.type, GoType.Bits, hw, Option.some_bind]
    cases a.ParseFloat (removeCommas (TrimSpace ff.asString)) w with
    | none => exact Returns.keep ht
    | some v => exact Returns.setFloat q m j v hq
  · obtain ⟨m, old, rfl⟩ := Val.str_of_shaped ht c4
    exact Returns.setString _ _ _
  · exact numericStage_returns a hf ht hc
  · exact numericStage_returns a hf ht hc

/-- The type switch of lines 80-116 yields a shaped value and a kind
consistent with it, provided the kind it starts from is that of the value. -/
theorem unwrapNull_consistent {ff : Val} (hf : ff.Shaped = true) :
    (unwrapNull ff ff.kind).1.Shaped = true ∧
      Consistent (unwrapNull ff ff.kind).1 (unwrapNull ff ff.kind).2 := by
  have hstruct : ∀ k : Kind, k = .Struct ∨ k = .Interface →
      isIntKind k = false ∧ isUintKind k = false ∧ isFloatKind k = false ∧ k ≠ .String := by
    intro k hk
    rcases hk with rfl | rfl <;> simp [isIntKind, isUintKind, isFloatKind]
  have key : ∀ v : Val, v.Shaped = true → ∀ k : Kind, (k = v.kind ∨ k = .Interface) →
      ((match v with
        | .nullInt64 x valid =>
          if valid then (Val.int .int64 none x, Kind.Int64) else (Val.int .int64 none 0, k)
        | .nullInt32 x valid =>
          if valid then (Val.int .int32 none x, Kind.Int32) else (Val.int .int32 none 0, k)
        | .nullInt16 x valid =>
          if valid then (Val.int .int16 none x, Kind.Int16) else (Val.int .int16 none 0, k)
        | .nullString str valid =>
          if valid then (Val.str none str, Kind.String) else (Val.str none " ", k)
        | .nullFloat64 bits valid =>
          if valid then (Val.float .float64 none bits, Kind.Float64)
          else (Val.float .float64 none (intToFloat64 0), k)
        | _ => (ff, k)) : Val × Kind) = (ff, k) ∨
      ∃ r : Val × Kind, (match v with
        | .nullInt64 x valid =>
          if valid then (Val.int .int64 none x, Kind.Int64) else (Val.int .int64 none 0, k)
        | .nullInt32 x valid =>
          if valid then (Val.int .int32 none x, Kind.Int32) else (Val.int .int32 none 0, k)
        | .nullInt16 x valid =>
          if valid then (Val.int .int16 none x, Kind.Int16) else (Val.int .int16 none 0, k)
        | .nullString str valid =>
          if valid then (Val.str none str, Kind.String) else (Val.str none " ", k)
        | .nullFloat64 bits valid =>
          if valid then (Val.float .float64 none bits, Kind.Float64)
          else (Val.float .float64 none (intToFloat64 0), k)
        | _ => (ff, k)) = r ∧ r.1.Shaped = true ∧ Consistent r.1 r.2 := by
    intro v hv k hk
    cases v with
    | nullInt64 x valid =>
      right
      cases valid
      · exact ⟨_, rfl, rfl, Or.inr (hstruct k (by rcases hk with h | h <;> simp_all))⟩
      · exact ⟨_, rfl, rfl, Or.inl rfl⟩
    | nullInt32 x valid =>
      right
      cases valid
      · exact ⟨_, rfl, rfl, Or.inr (hstruct k (by rcases hk with h | h <;> simp_all))⟩
      · exact ⟨_, rfl, rfl, Or.inl rfl⟩
    | nullInt16 x valid =>
      right
      cases valid
      · exact ⟨_, rfl, rfl, Or.inr (hstruct k (by rcases hk with h | h <;> simp_all))⟩
      · exact ⟨_, rfl, rfl, Or.inl rfl⟩
    | nullString x valid =>
      right
      cases valid
      · exact ⟨_, rfl, rfl, Or.inr (hstruct k (by rcases hk with h | h <;> simp_all))⟩
      · exact ⟨_, rfl, rfl, Or.inl rfl⟩
    | nullFloat64 x valid =>
      right
      cases valid
      · exact ⟨_, rfl, rfl, Or.inr (hstruct k (by rcases hk with h | h <;> simp_all))⟩
      · exact ⟨_, rfl, rfl, Or.inl rfl⟩
    | _ => left; rfl
  have hI : ff.Interface.Shaped = true ∧ (ff.kind = ff.Interface.kind ∨ ff.kind = .Interface) := by
    cases ff with
    | ifaceOf v =>
      simp only [Val.Shaped, Bool.and_eq_true] at hf
      exact ⟨hf.1, Or.inr rfl⟩
    | _ => exact ⟨hf, Or.inl rfl⟩
  unfold unwrapNull
  rcases key ff.Interface hI.1 ff.kind hI.2 with h | ⟨r, h, hr1, hr2⟩
  · rw [h]; exact ⟨hf, Or.inl rfl⟩
  · rw [h]; exact ⟨hr1, hr2⟩

/-- Lines 55-76: when the interface block returns, it returns normally. -/
theorem interfaceStage_returns {ff tf : Val} (hf : ff.Shaped = true)
    (ht : tf.Shaped = true) (r : Option Val) (h : interfaceStage ff tf = some r) :
    Returns tf r := by
  cases ff with
  | ifaceOf v =>
    simp only [Val.Shaped, Bool.and_eq_true] at hf
    simp only [interfaceStage, kind_ifaceOf, Val.IsNil, Val.Interface, and_self, if_true] at h
    by_cases c1 : v.type.AssignableTo tf.type = true
    · simp only [c1, if_true] at h
      injection h with h
      subst h
      exact Returns.set hf.1 c1
    · simp only [c1, Bool.false_eq_true, if_false] at h
      by_cases c2 : tf.kind = .String
      · obtain ⟨m, old, rfl⟩ := Val.str_of_shaped ht c2
        simp only [kind_str, if_true] at h
        injection h with h
        subst h
        split_ifs with d1 d2 d3 d4
        · obtain ⟨p, n, i, rfl, -⟩ := Val.int_of_shaped hf.1 d1
          simp only [Val.asInt, Option.some_bind]
          exact Returns.setString _ _ _
        · obtain ⟨p, n, i, rfl, -⟩ := Val.uint_of_shaped hf.1 d2
          simp only [Val.asUint, Option.some_bind]
          exact Returns.setString _ _ _
        · obtain ⟨p, n, i, rfl, -⟩ := Val.float_of_shaped hf.1 d3
          simp only [Val.asFloat, Option.some_bind]
          exact Returns.setString _ _ _
        · exact Returns.setString _ _ _
        · exact Returns.keep rfl
      · simp [c2] at h
  | _ => simp [interfaceStage, Val.IsNil] at h

/-- Lines 47-187 return normally on shaped values. -/
theorem mapValue_returns (a : Arch) {ff tf : Val} (hf : ff.Shaped = true)
    (ht : tf.Shaped = true) : Returns tf (mapValue a ff tf) := by
  unfold mapValue
  simp only [Val.IsValid, Bool.not_true, Bool.or_self, Bool.false_eq_true, if_false]
  cases hi : interfaceStage ff tf with
  | some r => exact interfaceStage_returns hf ht r hi
  | none =>
    obtain ⟨hu, hc⟩ := unwrapNull_consistent hf
    simp only []
    split_ifs with c
    · obtain ⟨m, old, rfl⟩ := Val.str_of_shaped ht c
      exact toStringStage_returns m old hu hc
    · exact stringStage_returns a hu ht hc

/-- The function `mapField` returns normally on shaped values, with a shaped
value of the type of the destination. -/
theorem mapField_returns (a : Arch) {src dst : Val} (hs : src.Shaped = true)
    (hd : dst.Shaped = true) : Returns dst (mapField a src dst) := by
  have hsrc : ∃ v, derefSource src = some v ∧ v.Shaped = true := by
    unfold derefSource
    cases src with
    | ptrTo v => exact ⟨v, by simp [Val.IsNil, Val.Elem], hs⟩
    | nilPtr t => exact ⟨_, by simp [Val.IsNil], hs⟩
    | int p n i => exact ⟨_, by simp [(Prim.kind_basic p).2.1], hs⟩
    | uint p n i => exact ⟨_, by simp [(Prim.kind_basic p).2.1], hs⟩
    | float p n i => exact ⟨_, by simp [(Prim.kind_basic p).2.1], hs⟩
    | _ => exact ⟨_, by simp, hs⟩
  obtain ⟨v, hv, hvs⟩ := hsrc
  unfold mapField
  simp only [hv]
  cases dst with
  | ptrTo target =>
    simp only [Val.Shaped] at hd
    obtain ⟨r, hr, hrs, hrt⟩ := mapValue_returns a hvs hd
    exact ⟨.ptrTo r, by simp [hr], hrs, by simp [Val.type, hrt]⟩
  | _ => exact mapValue_returns a hvs hd

/-! ### The loop of `mapStructFields` -/

/-- Replacing the content of a field keeps the number of fields. -/
theorem setField_length : ∀ (r : Record) (name : String) (v : Val),
    (setField r name v).length = r.length
  | [], _, _ => rfl
  | f :: fs, name, v => by
    simp only [setField]
    split_ifs
    · rfl
    · simp [setField_length fs name v]

/-- Replacing the content of the field called `name` leaves every field of
another name as it is, at its position. -/
theorem setField_getElem? : ∀ (r : Record) (name : String) (v : Val) (i : Nat) (g : Field),
    r[i]? = some g → g.name ≠ name → (setField r name v)[i]? = some g
  | [], _, _, _, _, h, _ => by simp at h
  | f :: fs, name, v, i, g, h, hne => by
    simp only [setField]
    split_ifs with hf
    · cases i with
      | zero =>
        simp only [List.getElem?_cons_zero, Option.some.injEq] at h
        subst h
        exact absurd (by simpa using hf) hne
      | succ j => simpa using h
    · cases i with
      | zero => simpa using h
      | succ j =>
        simp only [List.getElem?_cons_succ] at h ⊢
        exact setField_getElem? fs name v j g h hne

/-- Replacing the content of a field by a shaped value keeps a struct shaped. -/
theorem setField_shaped : ∀ (r : Record) (name : String) (v : Val),
    (∀ f ∈ r, f.value.Shaped = true) → v.Shaped = true →
    ∀ f ∈ setField r name v, f.value.Shaped = true
  | [], _, _, _, _, f, hf => by simp [setField] at hf
  | g :: gs, name, v, hr, hv, f, hf => by
    simp only [setField] at hf
    split_ifs at hf
    · rcases List.mem_cons.mp hf with h | h
      · subst h; exact hv
      · exact hr f (List.mem_cons_of_mem _ h)
    · rcases List.mem_cons.mp hf with h | h
      · subst h; exact hr _ (List.mem_cons_self _ _)
      · exact setField_shaped gs name v (fun x hx => hr x (List.mem_cons_of_mem _ hx)) hv f h

/-- A field found by name is a field of the struct. -/
theorem FieldByName_mem {r : Record} {name : String} {f : Field}
    (h : FieldByName r name = some f) : f ∈ r :=
  List.mem_of_find?_eq_some h

/-- The loop leaves in place every destination field whose name is not the
name of a source field still to be visited. -/
theorem mapStructLoop_frame (a : Arch) (fromVal : Record) :
    ∀ (todo : List Field) (toVal out : Record), mapStructLoop a fromVal todo toVal = some out →
      ∀ (i : Nat) (g : Field), toVal[i]? = some g → (∀ f ∈ todo, f.name ≠ g.name) →
        out[i]? = some g
  | [], toVal, out, h, i, g, hg, _ => by
    simp only [mapStructLoop, Option.some.injEq] at h
    subst h
    exact hg
  | f :: todo, toVal, out, h, i, g, hg, hn => by
    have hrest : ∀ x ∈ todo, x.name ≠ g.name := fun x hx => hn x (List.mem_cons_of_mem _ hx)
    have hf : g.name ≠ f.name := fun e => hn f (List.mem_cons_self _ _) e.symm
    simp only [mapStructLoop] at h
    split at h
    · split_ifs at h
      · split at h
        · exact absurd h (by simp)
        · exact mapStructLoop_frame a fromVal todo _ out h i g
            (setField_getElem? toVal f.name _ i g hg hf) hrest
      · exact mapStructLoop_frame a fromVal todo _ out h i g hg hrest
    · exact mapStructLoop_frame a fromVal todo _ out h i g hg hrest

/-- The loop returns normally on shaped structs, and keeps the number of
fields of the destination. -/
theorem mapStructLoop_returns (a : Arch) (fromVal : Record)
    (hs : ∀ f ∈ fromVal, f.value.Shaped = true) :
    ∀ (todo : List Field) (toVal : Record), (∀ f ∈ toVal, f.value.Shaped = true) →
      ∃ out, mapStructLoop a fromVal todo toVal = some out ∧ out.length = toVal.length ∧
        ∀ f ∈ out, f.value.Shaped = true
  | [], toVal, ht => ⟨toVal, rfl, rfl, ht⟩
  | f :: todo, toVal, ht => by
    simp only [mapStructLoop]
    split
    · rename_i fromField toField hff htf
      split_ifs
      · obtain ⟨r, hr, hrs, -⟩ := mapField_returns a (hs _ (FieldByName_mem hff))
          (ht _ (FieldByName_mem htf))
        simp only [hr]
        obtain ⟨out, ho, hl, hsh⟩ := mapStructLoop_returns a fromVal hs todo
          (setField toVal f.name r) (setField_shaped toVal f.name r ht hrs)
        exact ⟨out, ho, by rw [hl, setField_length], hsh⟩
      · exact mapStructLoop_returns a fromVal hs todo toVal ht
    · exact mapStructLoop_returns a fromVal hs todo toVal ht

/-- The integer part `truncFloat` computes with shifts is the truncation
toward zero of the number the float denotes. -/
theorem truncFloat_fin (neg : Bool) (m : Nat) (e : Int) :
    truncFloat (.fin neg m e) = some (specTrunc (floatRat neg m e)) := by
  have hfloor : ⌊(m : ℚ) * (2 : ℚ) ^ e⌋ =
      ((if 0 ≤ e then m * 2 ^ e.toNat else m / 2 ^ (-e).toNat : Nat) : Int) := by
    by_cases he : 0 ≤ e
    · obtain ⟨k, rfl⟩ := Int.eq_ofNat_of_zero_le he
      simp only [he, if_true, Int.toNat_ofNat, zpow_natCast]
      have : (m : ℚ) * 2 ^ k = ((m * 2 ^ k : Nat) : ℚ) := by push_cast; ring
      rw [this, Int.floor_natCast]
    · obtain ⟨k, hk⟩ : ∃ k : Nat, e = -(k : Int) := ⟨(-e).toNat, by omega⟩
      subst hk
      simp only [he, if_false, neg_neg, Int.toNat_ofNat, zpow_neg, zpow_natCast]
      have : (m : ℚ) * ((2 : ℚ) ^ k)⁻¹ = (m : ℚ) / ((2 ^ k : Nat) : ℚ) := by
        push_cast; rw [div_eq_mul_inv]
      rw [this, Rat.floor_natCast_div_natCast]
      push_cast; rfl
  have hy : (0 : ℚ) ≤ (m : ℚ) * (2 : ℚ) ^ e := by positivity
  simp only [truncFloat, specTrunc, floatRat]
  congr 1
  cases neg
  · simp only [Bool.false_eq_true, if_false, one_mul, hy, if_true]
    exact hfloor.symm
  · simp only [if_true, neg_mul, one_mul, Left.nonneg_neg_iff]
    by_cases h0 : (m : ℚ) * (2 : ℚ) ^ e ≤ 0
    · have hz : (m : ℚ) * (2 : ℚ) ^ e = 0 := le_antisymm h0 hy
      simp only [h0, if_true]
      rw [← hfloor, hz]
      simp
    · simp only [h0, if_false]
      rw [Int.ceil_neg, hfloor]

/-- A float source into a signed integer destination: the conversion
`int64(x)`, stored with the width of the destination. -/
theorem mapField_float_int (a : Arch) (n dn : Option String) (p q : Prim) (bits : Nat)
    (old : Int) (w : Nat) (hp : isFloatKind p.kind = true) (hk : isIntKind q.kind = true)
    (hw : q.bits a = some w) :
    mapField a (.float p n bits) (.int q dn old) =
      some (.int q dn (wrapInt w
        (float64ToInt64 a (if p = .float32 then widen bits else bits)))) := by
  obtain ⟨h1, h2, h3, hi, hpt, -⟩ := isFloatKind_excl hp
  obtain ⟨-, h5, hs, -, -, -⟩ := isIntKind_excl hk
  simp [mapField, derefSource, mapValue, interfaceStage, unwrapNull, stringStage, numericStage,
    Val.IsValid, Val.Interface, Val.asFloat, Val.SetInt, hp, hk, hw, h1, h2, h3, hi, hpt, h5, hs]

/-- A float source is formatted into a string destination. -/
theorem mapField_float_str (a : Arch) (n dn : Option String) (p : Prim) (bits : Nat)
    (old : String) (hk : isFloatKind p.kind = true) :
    mapField a (.float p n bits) (.str dn old) =
      some (.str dn (FormatFloat (if p = .float32 then widen bits else bits))) := by
  obtain ⟨h1, h2, -, hi, hp, -⟩ := isFloatKind_excl hk
  simp [mapField, derefSource, mapValue, interfaceStage, unwrapNull, toStringStage,
    Val.IsValid, Val.Interface, Val.asFloat, Val.SetString, hk, hi, hp, h1, h2]

/-! ### Widening a float32 to float64 is exact -/

theorem bitLen_zero (fuel : Nat) : bitLen fuel 0 = 0 := by cases fuel <;> simp [bitLen]

theorem bitLen_eq : ∀ (fuel n b : Nat), n ≤ fuel → 0 < b → 2 ^ (b - 1) ≤ n → n < 2 ^ b →
    bitLen fuel n = b := by
  intro fuel
  induction fuel with
  | zero =>
    intro n b hn hb h1 _
    have : 0 < 2 ^ (b - 1) := Nat.two_pow_pos _
    omega
  | succ fuel ih =>
    intro n b hn hb h1 h2
    have hpos : 0 < 2 ^ (b - 1) := Nat.two_pow_pos _
    have hn0 : n ≠ 0 := by omega
    simp only [bitLen, hn0, if_false]
    rcases Nat.lt_or_ge b 2 with hb2 | hb2
    · have hb1 : b = 1 := by omega
      subst hb1
      have : n = 1 := by simp at h1 h2; omega
      subst this
      simp [bitLen_zero]
    · obtain ⟨c, rfl⟩ : ∃ c, b = c + 2 := ⟨b - 2, by omega⟩
      have e1 : 2 ^ (c + 2 - 1) = 2 * 2 ^ c := by
        rw [show c + 2 - 1 = c + 1 by omega, pow_succ]; ring
      have e2 : 2 ^ (c + 2) = 2 * 2 ^ (c + 1) := by rw [pow_succ]; ring
      have e3 : 2 ^ (c + 1) = 2 * 2 ^ c := by rw [pow_succ]; ring
      rw [e1] at h1
      rw [e2] at h2
      have := ih (n / 2) (c + 1) (by omega) (by omega) (by simp; omega) (by omega)
      omega

theorem roundToFloat_of_exact (f : FloatFmt) (neg : Bool) (num den q : Nat) (E : Int)
    (hnum : num ≠ 0)
    (hl : (bitLen num num : Int) - (bitLen den den : Int) - f.mant = E)
    (hs1 : (scale2 num den E).1 = q * (scale2 num den E).2)
    (hs2 : 0 < (scale2 num den E).2)
    (hq : 2 ^ f.mant ≤ q)
    (hE : f.emin ≤ E)
    (hb : (E - f.emin).toNat * 2 ^ f.mant + q < (2 ^ f.ebits - 1) * 2 ^ f.mant) :
    roundToFloat f neg num den = signBit f neg + ((E - f.emin).toNat * 2 ^ f.mant + q) := by
  have he0 : (bitLen num num : Int) - (bitLen den den : Int) - 1 - (f.mant : Int) + 1 = E := by
    omega
  have hdiv : (scale2 num den E).1 / (scale2 num den E).2 = q := by
    rw [hs1]; exact Nat.mul_div_cancel _ hs2
  have hmod : (scale2 num den E).1 % (scale2 num den E).2 = 0 := by
    rw [hs1]; exact Nat.mul_mod_left _ _
  unfold roundToFloat
  simp only [hnum, if_false, he0, hdiv]
  have hq2 : q ≥ 2 ^ f.mant := hq
  have hE2 : ¬ E < f.emin := not_lt.mpr hE
  simp only [hq2, if_true, hE2, if_false, hdiv, hmod, Nat.mul_zero, hs2]
  have hb2 : ¬ ((E - f.emin).toNat * 2 ^ f.mant + q ≥ (2 ^ f.ebits - 1) * 2 ^ f.mant) :=
    not_le.mpr hb
  simp only [hb2, if_false]


theorem binary64_emin : binary64.emin = -1074 := by decide

theorem pow_bounds_mul (m b x : Nat) (hb0 : 0 < b) (h1 : 2 ^ (b - 1) ≤ m) (h2 : m < 2 ^ b) :
    2 ^ (b + x - 1) ≤ m * 2 ^ x ∧ m * 2 ^ x < 2 ^ (b + x) := by
  have hx : 0 < 2 ^ x := Nat.two_pow_pos x
  constructor
  · rw [show b + x - 1 = (b - 1) + x by omega, pow_add]
    exact Nat.mul_le_mul_right _ h1
  · rw [pow_add]
    exact Nat.mul_lt_mul_of_pos_right h2 hx

theorem roundToFloat64_pow2 (neg : Bool) (m b x y : Nat) (E : Int)
    (hb0 : 0 < b) (hb : b ≤ 53) (h1 : 2 ^ (b - 1) ≤ m) (h2 : m < 2 ^ b)
    (hE : E = (b : Int) + x - y - 53) (hlo : -1074 ≤ E) (hhi : E ≤ 970) :
    roundToFloat binary64 neg (m * 2 ^ x) (2 ^ y)
      = signBit binary64 neg + ((E + 1074).toNat * 2 ^ 52 + m * 2 ^ (53 - b)) := by
  have hm0 : 0 < m := lt_of_lt_of_le (Nat.two_pow_pos _) h1
  have hbn : bitLen (m * 2 ^ x) (m * 2 ^ x) = b + x := by
    obtain ⟨h3, h4⟩ := pow_bounds_mul m b x hb0 h1 h2
    exact bitLen_eq _ _ _ le_rfl (by omega) h3 h4
  have hbd : bitLen (2 ^ y) (2 ^ y) = y + 1 := by
    apply bitLen_eq _ _ _ le_rfl (by omega)
    · simp
    · exact Nat.pow_lt_pow_right (by norm_num) (by omega)
  have key := roundToFloat_of_exact binary64 neg (m * 2 ^ x) (2 ^ y) (m * 2 ^ (53 - b)) E
    (Nat.mul_ne_zero (by omega) (by positivity))
    (by rw [hbn, hbd]; simp only [binary64]; push_cast; omega)
    (by
      unfold scale2
      split_ifs with h
      · obtain ⟨t, rfl⟩ := Int.eq_ofNat_of_zero_le h
        simp only [Int.toNat_ofNat]
        have : x = (53 - b) + (y + t) := by omega
        rw [mul_assoc, ← pow_add, ← pow_add, ← this]
      · obtain ⟨t, ht⟩ := Int.eq_ofNat_of_zero_le (show 0 ≤ -E by omega)
        rw [ht]
        simp only [Int.toNat_ofNat]
        have : x + t = (53 - b) + y := by omega
        rw [mul_assoc, mul_assoc, ← pow_add, ← pow_add, this])
    (by
      unfold scale2
      split_ifs <;> positivity)
    (by
      simp only [binary64]
      calc 2 ^ 52 = 2 ^ (b - 1) * 2 ^ (53 - b) := by rw [← pow_add]; congr 1; omega
        _ ≤ m * 2 ^ (53 - b) := Nat.mul_le_mul_right _ h1)
    (by rw [binary64_emin]; exact hlo)
    (by
      rw [binary64_emin]
      simp only [binary64]
      have hq : m * 2 ^ (53 - b) < 2 ^ 53 := by
        calc m * 2 ^ (53 - b) < 2 ^ b * 2 ^ (53 - b) :=
              Nat.mul_lt_mul_of_pos_right h2 (Nat.two_pow_pos _)
          _ = 2 ^ 53 := by rw [← pow_add]; congr 1; omega
      have hn : (E - -1074).toNat ≤ 2044 := by omega
      have : (E - -1074).toNat * 2 ^ 52 ≤ 2044 * 2 ^ 52 := Nat.mul_le_mul_right _ hn
      norm_num at this hq ⊢
      omega)
  rw [key, binary64_emin]
  simp only [binary64]
  rw [show E - -1074 = E + 1074 by ring]

theorem binary32_emin : binary32.emin = -149 := by decide

theorem decodeFloat64_normal (neg : Bool) (n q : Nat) (hn : n ≤ 2044) (h1 : 2 ^ 52 ≤ q)
    (h2 : q < 2 ^ 53) :
    decodeFloat binary64 (signBit binary64 neg + (n * 2 ^ 52 + q)) = .fin neg q ((n : Int) - 1074) := by
  have hex : (signBit binary64 neg + (n * 2 ^ 52 + q)) / 2 ^ 52 % 2 ^ 11 = n + 1 := by
    cases neg <;> simp only [signBit, binary64] <;> norm_num at h1 h2 ⊢ <;> omega
  have hfr : (signBit binary64 neg + (n * 2 ^ 52 + q)) % 2 ^ 52 = q - 2 ^ 52 := by
    cases neg <;> simp only [signBit, binary64] <;> norm_num at h1 h2 ⊢ <;> omega
  have hsg : decide ((signBit binary64 neg + (n * 2 ^ 52 + q)) / 2 ^ (52 + 11) % 2 = 1) = neg := by
    cases neg <;> simp only [signBit, binary64] <;> norm_num at h1 h2 ⊢ <;> omega
  unfold decodeFloat
  simp only [binary64, binary64_emin] at hex hfr hsg ⊢
  rw [hex, hfr, hsg]
  have e1 : ¬ (n + 1 = 2 ^ 11 - 1) := by norm_num; omega
  have e2 : ¬ (n + 1 = 0) := by omega
  simp only [e1, e2, if_false]
  have hem : FloatFmt.emin (FloatFmt.mk 52 11) = -1074 := by decide
  rw [hem]
  have e3 : 2 ^ 52 + (q - 2 ^ 52) = q := Nat.add_sub_cancel' h1
  have e4 : (-1074 : Int) + ((n + 1 : Nat) : Int) - 1 = (n : Int) - 1074 := by
    push_cast; ring
  rw [e3, e4]


/-- The bounds of a finite value decoded from a float32 bit pattern. -/
theorem decodeFloat32_bounds {bits : Nat} {neg : Bool} {m : Nat} {e : Int}
    (h : decodeFloat binary32 bits = .fin neg m e) :
    m < 2 ^ 24 ∧ -149 ≤ e ∧ e ≤ 104 := by
  unfold decodeFloat at h
  simp only [binary32] at h
  have hem : FloatFmt.emin (FloatFmt.mk 23 8) = -149 := by decide
  rw [hem] at h
  have hfr : bits % 2 ^ 23 < 2 ^ 23 := Nat.mod_lt _ (by norm_num)
  have hex : bits / 2 ^ 23 % 2 ^ 8 < 2 ^ 8 := Nat.mod_lt _ (by norm_num)
  split_ifs at h with h1 h2 h3
  · injection h with _ hm he
    subst hm he
    norm_num at hfr ⊢; omega
  · injection h with _ hm he
    subst hm he
    norm_num at hfr hex h1 ⊢
    omega


theorem encodeFloat64_fin (neg : Bool) (m : Nat) (e : Int) (hm0 : 0 < m) (hm : m < 2 ^ 24)
    (hlo : -149 ≤ e) (hhi : e ≤ 104) :
    ∃ q : Nat, ∃ E : Int, decodeFloat binary64 (encodeFloat binary64 (.fin neg m e)) = .fin neg q E
      ∧ (m : ℚ) * 2 ^ e = (q : ℚ) * 2 ^ E := by
  have hb0 : 0 < Nat.size m := Nat.size_pos.mpr hm0
  have hb24 : Nat.size m ≤ 24 := Nat.size_le.mpr hm
  have h1 : 2 ^ (Nat.size m - 1) ≤ m := Nat.lt_size.mp (by omega)
  have h2 : m < 2 ^ Nat.size m := Nat.lt_size_self m
  generalize Nat.size m = b at hb0 hb24 h1 h2
  have hq1 : 2 ^ 52 ≤ m * 2 ^ (53 - b) := by
    calc 2 ^ 52 = 2 ^ (b - 1) * 2 ^ (53 - b) := by rw [← pow_add]; congr 1; omega
      _ ≤ m * 2 ^ (53 - b) := Nat.mul_le_mul_right _ h1
  have hq2 : m * 2 ^ (53 - b) < 2 ^ 53 := by
    calc m * 2 ^ (53 - b) < 2 ^ b * 2 ^ (53 - b) :=
          Nat.mul_lt_mul_of_pos_right h2 (Nat.two_pow_pos _)
      _ = 2 ^ 53 := by rw [← pow_add]; congr 1; omega
  refine ⟨m * 2 ^ (53 - b), (b : Int) + e - 53, ?_, ?_⟩
  · have hbits : encodeFloat binary64 (.fin neg m e)
        = signBit binary64 neg
          + ((((b : Int) + e - 53) + 1074).toNat * 2 ^ 52 + m * 2 ^ (53 - b)) := by
      simp only [encodeFloat, scale2]
      split_ifs with h
      · obtain ⟨t, ht⟩ := Int.eq_ofNat_of_zero_le h
        have := roundToFloat64_pow2 neg m b 0 t ((b : Int) + e - 53) hb0 (by omega) h1 h2
          (by push_cast; omega) (by omega) (by omega)
        simp only [pow_zero, mul_one] at this
        simp only [ht, Int.toNat_ofNat, one_mul]
        exact this
      · obtain ⟨t, ht⟩ := Int.eq_ofNat_of_zero_le (show 0 ≤ - -e by omega)
        have := roundToFloat64_pow2 neg m b t 0 ((b : Int) + e - 53) hb0 (by omega) h1 h2
          (by push_cast; omega) (by omega) (by omega)
        simp only [pow_zero] at this
        simp only [ht, Int.toNat_ofNat]
        exact this
    rw [hbits, decodeFloat64_normal neg _ _ (by omega) hq1 hq2]
    congr 1
    rw [Int.toNat_of_nonneg (by omega)]
    ring
  · push_cast
    rw [mul_assoc, ← zpow_natCast, ← zpow_add₀ (by norm_num : (2 : ℚ) ≠ 0)]
    congr 2
    rw [Nat.cast_sub (by omega)]
    push_cast
    ring

theorem widen_exact (bits : Nat) :
    sameFloat (decodeFloat binary32 bits) (decodeFloat binary64 (widen bits)) := by
  unfold widen
  cases h : decodeFloat binary32 bits with
  | nan => 
    have : decodeFloat binary64 (encodeFloat binary64 .nan) = .nan := by decide
    rw [this]; trivial
  | inf neg =>
    have : decodeFloat binary64 (encodeFloat binary64 (.inf neg)) = .inf neg := by
      cases neg <;> decide
    rw [this]; exact rfl
  | fin neg m e =>
    obtain ⟨hm, hlo, hhi⟩ := decodeFloat32_bounds h
    rcases Nat.eq_zero_or_pos m with rfl | hm0
    · have : decodeFloat binary64 (encodeFloat binary64 (.fin neg 0 e)) = .fin neg 0 (-1074) := by
        have hr : encodeFloat binary64 (.fin neg 0 e) = signBit binary64 neg := by
          have h0 : (scale2 0 1 (-e)).1 = 0 := by
            unfold scale2; split_ifs <;> simp
          show roundToFloat binary64 neg (scale2 0 1 (-e)).1 (scale2 0 1 (-e)).2 = _
          rw [h0]
          simp [roundToFloat]
        rw [hr]; cases neg <;> decide
      rw [this]
      exact ⟨rfl, by simp⟩
    · obtain ⟨q, E, hd, hv⟩ := encodeFloat64_fin neg m e hm0 hm hlo hhi
      rw [hd]
      exact ⟨rfl, hv⟩

theorem sameFloat_refl (x : FloatVal) : sameFloat x x := by
  cases x <;> simp [sameFloat]

/-- The float64 a float source is read as denotes the number the source
holds. -/
theorem asFloat_exact (p : Prim) (bits : Nat) (hp : isFloatKind p.kind = true) :
    sameFloat (decodeFloat p.floatFmt bits)
      (decodeFloat binary64 (if p = .float32 then widen bits else bits)) := by
  by_cases h : p = .float32
  · subst h
    simp only [Prim.floatFmt, if_true]
    exact widen_exact bits
  · have h64 : p = .float64 := by
      cases p <;> simp_all [Prim.kind, isFloatKind]
    subst h64
    simp only [Prim.floatFmt, if_false, h]
    exact sameFloat_refl _

/-! ## The claims -/

/-- C1: mapping `From{ID: "1234", Balance: 123.345}` into the zero value of
`To` leaves the destination equal to `To{ID: 1234, Balance: "123.345"}`, on
every platform. -/
theorem mapStructFields_baseline (a : Arch) :
    mapStructFields a (From "1234" (float64Const false 123345 1000)) (To 0 "")
      = some (To 1234 "123.345") := by
  have hid : mapField a (.str none "1234") (.int .int none 0) = some (.int .int none 1234) := by
    rw [mapField_str_int a none none "1234" .int 0 a.intSize rfl rfl]
    unfold Arch.intSize
    cases a.is64 <;> decide
  have hbal : mapField a (.float .float64 none (float64Const false 123345 1000))
      (.str none "") = some (.str none "123.345") := by
    rw [mapField_float_str a none none .float64 _ "" rfl]
    decide
  simp [mapStructFields, mapStructLoop, From, To, FieldByName, setField, hid, hbal]

/-- C2: a text source whose cleaned form (surrounding white space trimmed,
then every comma removed) is a base-10 signed integer literal of value `v`
that fits in the `w` bits of a signed integer destination sets the
destination to exactly `v`. -/
theorem mapField_text_to_signed (a : Arch) (n dn : Option String) (s : String) (p : Prim)
    (old v : Int) (w : Nat) (hk : isIntKind p.kind = true) (hw : p.bits a = some w)
    (hlit : specIntLiteral (cleanText s) = some v) (hfit : fitsInt w v = true) :
    mapField a (.str n s) (.int p dn old) = some (.int p dn v) := by
  obtain ⟨h8, h64⟩ := Prim.bits_range hw
  rw [mapField_str_int a n dn s p old w hk hw, ParseInt_eq _ w (by omega) h64, hlit]
  simp [inIntRange, hfit, wrapInt_of_fits (by omega : 1 ≤ w) hfit]

/-- C2, at `" 1,234 "` into an `int` holding 7: the destination holds 1234. -/
theorem mapField_text_to_signed_witness :
    specIntLiteral (cleanText " 1,234 ") = some 1234 ∧ fitsInt 64 1234 = true ∧
      mapField refArch (.str none " 1,234 ") (.int .int none 7) = some (.int .int none 1234) :=
  ⟨by decide, by decide,
    mapField_text_to_signed refArch none none " 1,234 " .int 7 1234 64 rfl rfl
      (by decide) (by decide)⟩

/-- C3: a text source whose cleaned form is not a valid base-10 integer for
the kind (signed, or unsigned without sign) and the bit width of an integer
destination leaves the destination as it was, and the call does not fail. -/
theorem mapField_text_invalid_integer (a : Arch) (n : Option String) (s : String) (d : Val)
    (w : Nat) (hwf : d.WF a = true)
    (hk : isIntKind d.kind = true ∨ isUintKind d.kind = true)
    (hw : d.type.Bits a = some w)
    (hbad : specValidInteger (isIntKind d.kind) w (cleanText s) = false) :
    mapField a (.str n s) d = some d := by
  rcases hk with hk | hk
  · obtain ⟨p, dn, i, rfl⟩ := Val.int_of_kind hwf hk
    simp only [kind_int] at hk hbad
    simp only [Val.type, GoType.Bits] at hw
    obtain ⟨h8, h64⟩ := Prim.bits_range hw
    rw [mapField_str_int a n dn s p i w hk hw, ParseInt_eq _ w (by omega) h64]
    simp only [specValidInteger, hk, if_true] at hbad
    cases hv : (specIntLiteral (cleanText s)).bind (inIntRange w) with
    | none => rfl
    | some v => simp [hv] at hbad
  · obtain ⟨p, dn, i, rfl⟩ := Val.uint_of_kind hwf hk
    simp only [kind_uint] at hk hbad
    simp only [Val.type, GoType.Bits] at hw
    obtain ⟨h8, h64⟩ := Prim.bits_range hw
    rw [mapField_str_uint a n dn s p i w hk hw, ParseUint_eq _ w h64]
    obtain ⟨hi, -⟩ := isUintKind_excl hk
    simp only [specValidInteger, hi, Bool.false_eq_true, if_false] at hbad
    cases hv : (specUintLiteral (cleanText s)).bind (atMost (2 ^ w - 1)) with
    | none => rfl
    | some v => simp [hv] at hbad

/-- C3, at `" 1,234.50 "` into an `int` holding 7: the destination still holds 7. -/
theorem mapField_text_invalid_integer_witness :
    specValidInteger true 64 (cleanText " 1,234.50 ") = false ∧
      mapField refArch (.str none " 1,234.50 ") (.int .int none 7) = some (.int .int none 7) :=
  ⟨by decide,
    mapField_text_invalid_integer refArch none " 1,234.50 " (.int .int none 7) 64
      (by decide) (Or.inl rfl) rfl (by decide)⟩

/-- C5: an invalid `sql.NullString` mapped into a string destination leaves
the destination as it was (here `"x"`), not the single space: the default
replaces `fromField` while `fromKind` stays `reflect.Struct`. -/
theorem mapField_invalid_nullString_keeps (a : Arch) (s : String) (dn : Option String)
    (old : String) :
    mapField a (.nullString s false) (.str dn old) = some (.str dn old) := by
  simp [mapField, derefSource, mapValue, interfaceStage, unwrapNull, toStringStage,
    Val.IsValid, Val.Interface, isIntKind, isUintKind, isFloatKind]

/-- An invalid `sql.NullInt64` leaves a signed integer destination as it was,
unless the destination is of type `int64`. -/
theorem mapField_invalid_nullInt64_other (a : Arch) (v : Int) (old : Int) (p : Prim)
    (dn : Option String) (hp : ¬ (p = .int64 ∧ dn = none)) (hk : p.kind ≠ .String) :
    mapField a (.nullInt64 v false) (.int p dn old) = some (.int p dn old) := by
  have hne : ¬ (GoType.prim Prim.int64 none = GoType.prim p dn) := by
    intro h; injection h with h1 h2; exact hp ⟨h1.symm, h2.symm⟩
  simp [mapField, derefSource, mapValue, interfaceStage, unwrapNull, stringStage, numericStage,
    Val.IsValid, Val.Interface, isIntKind, isUintKind, isFloatKind, hk, Val.type,
    GoType.AssignableTo, hne]

/-- An invalid wrapper whose default is `z`, mapped into a slot that is not of
string, pointer or interface kind: the default is assigned when its type is
the slot's, and nothing else happens. -/
theorem mapField_invalid_default (a : Arch) (w z d : Val) (hw : invalidDefault w = some z)
    (hs : d.kind ≠ .String) (hi : d.type ≠ .iface) (hp : ∀ x, d ≠ .ptrTo x) :
    mapField a w d = some (if d.type = z.type then z else d) := by
  have hz : intToFloat64 0 = 0 := by decide
  have hm : mapField a w d = mapValue a w d := by
    cases w <;> simp [invalidDefault] at hw <;>
      (unfold mapField; cases d <;> simp_all [derefSource, Val.kind, Val.type, GoType.kind])
  rw [hm]
  cases w <;> simp [invalidDefault] at hw <;> obtain ⟨hv, rfl⟩ := hw <;> subst hv <;>
    simp only [mapValue, interfaceStage, unwrapNull, stringStage, numericStage, Val.IsValid,
      Val.Interface, isIntKind, isUintKind, isFloatKind, hs, Val.type, kind_nullInt64,
      kind_nullInt32, kind_nullInt16, kind_nullFloat64,
      GoType.AssignableTo, hi, Val.Set, hz] <;>
    simp [hs, hi] <;>
    split_ifs with h1 h2 h2 <;>
    first | rfl | exact absurd h1.symm h2 | exact absurd h2.symm h1

/-- The slip in the invalid branches of the type switch (lines 86, 93, 100 and
114), as in C5: the default replaces `fromField` while `fromKind` stays
`reflect.Struct`, so a float64 destination holding 7 keeps it for an invalid
`sql.NullInt64`, where the valid wrapper with payload 0 is converted. -/
theorem mapField_invalid_wrapper_slip :
    mapField refArch (.nullInt64 0 false) (.float .float64 none (intToFloat64 7))
      = some (.float .float64 none (intToFloat64 7)) ∧
    mapField refArch (.nullInt64 0 true) (.float .float64 none (intToFloat64 7))
      = some (.float .float64 none 0) := by
  decide

/-- C6 (counterexample): an invalid `sql.NullInt64` mapped into an `int`
destination holding 7 leaves it at 7, not at zero; so do the valid wrapper
with payload 0 and the bare `int64` zero, as no rule converts an integer into
an integer of another type. -/
theorem mapField_invalid_nullInt64_not_zero :
    mapField refArch (.nullInt64 0 false) (.int .int none 7) = some (.int .int none 7) ∧
    mapField refArch (.nullInt64 0 true) (.int .int none 7) = some (.int .int none 7) ∧
    mapField refArch (.int .int64 none 0) (.int .int none 7) = some (.int .int none 7) := by
  decide

/-- C6 (amended): a nullable numeric wrapper whose validity flag is false,
mapped into a destination of the numeric family of its payload (an integer
destination for the integer wrappers, a float destination for
`sql.NullFloat64`), sets the destination to zero when the destination is of
the payload's own type, and leaves it as it was otherwise. -/
theorem mapField_invalid_wrapper_family (a : Arch) (w z d : Val)
    (hw : invalidDefault w = some z) (hd : d.Shaped = true)
    (hk : sameFamily z d.kind = true) :
    mapField a w d = some (if d.type = z.type then z else d) := by
  have hz : (∃ p n i, z = .int p n i) ∨ (∃ p n i, z = .float p n i) := by
    cases w <;> simp [invalidDefault] at hw <;> obtain ⟨_, rfl⟩ := hw <;> simp
  have hd3 : d.kind ≠ .String ∧ d.type ≠ .iface ∧ ∀ x, d ≠ .ptrTo x := by
    rcases hz with ⟨p, n, i, rfl⟩ | ⟨p, n, i, rfl⟩
    · simp only [sameFamily, Bool.or_eq_true] at hk
      rcases hk with hk | hk
      · obtain ⟨q, m, j, rfl, _⟩ := Val.int_of_shaped hd hk
        refine ⟨?_, by simp [Val.type], by simp⟩
        intro h; rw [h] at hk; simp [isIntKind] at hk
      · obtain ⟨q, m, j, rfl, _⟩ := Val.uint_of_shaped hd hk
        refine ⟨?_, by simp [Val.type], by simp⟩
        intro h; rw [h] at hk; simp [isUintKind] at hk
    · simp only [sameFamily] at hk
      obtain ⟨q, m, j, rfl, _⟩ := Val.float_of_shaped hd hk
      refine ⟨?_, by simp [Val.type], by simp⟩
      intro h; rw [h] at hk; simp [isFloatKind] at hk
  exact mapField_invalid_default a w z d hw hd3.1 hd3.2.1 hd3.2.2

/-- The amended C6 on `sql.NullInt64` into `int64` (set to zero) and into `int`
(kept), and on `sql.NullFloat64` into `float64` (set to zero) and into
`float32` (kept). -/
theorem mapField_invalid_wrapper_family_witness :
    mapField refArch (.nullInt64 0 false) (.int .int64 none 7) = some (.int .int64 none 0) ∧
    mapField refArch (.nullInt64 0 false) (.int .int none 7) = some (.int .int none 7) ∧
    mapField refArch (.nullFloat64 0 false) (.float .float64 none (intToFloat64 7))
      = some (.float .float64 none 0) ∧
    mapField refArch (.nullFloat64 0 false) (.float .float32 none 0x40E00000)
      = some (.float .float32 none 0x40E00000) :=
  ⟨(mapField_invalid_wrapper_family refArch (.nullInt64 0 false) (.int .int64 none 0)
      (.int .int64 none 7) rfl rfl rfl).trans (by decide),
   (mapField_invalid_wrapper_family refArch (.nullInt64 0 false) (.int .int64 none 0)
      (.int .int none 7) rfl rfl rfl).trans (by decide),
   (mapField_invalid_wrapper_family refArch (.nullFloat64 0 false) (.float .float64 none 0)
      (.float .float64 none (intToFloat64 7)) rfl rfl rfl).trans (by decide),
   (mapField_invalid_wrapper_family refArch (.nullFloat64 0 false) (.float .float64 none 0)
      (.float .float32 none 0x40E00000) rfl rfl rfl).trans (by decide)⟩

/-- C10: a text source mapped into a text destination is copied verbatim,
white space and commas included. -/
theorem mapField_text_to_text (a : Arch) (n dn : Option String) (s old : String) :
    mapField a (.str n s) (.str dn old) = some (.str dn s) := by
  simp [mapField, derefSource, mapValue, interfaceStage, unwrapNull, toStringStage,
    Val.IsValid, Val.Interface, isIntKind, isUintKind, isFloatKind, Val.asString,
    Val.SetString]

/-- C8: a source of signed or unsigned integer kind mapped into a text
destination sets it to the base-10 representation of the value: `-` in front
of a negative value, decimal digits only, no leading zeros. -/
theorem mapField_integer_to_text (a : Arch) (src : Val) (dn : Option String) (old : String)
    (hwf : src.WF a = true) (hk : isIntKind src.kind = true ∨ isUintKind src.kind = true) :
    ∃ r, mapField a src (.str dn old) = some (.str dn r) ∧
      isSignedDecimalOf r src.intValue = true := by
  rcases hk with hk | hk
  · obtain ⟨p, n, i, rfl⟩ := Val.int_of_kind hwf hk
    simp only [kind_int] at hk
    obtain ⟨-, -, -, hi, hp, -⟩ := isIntKind_excl hk
    refine ⟨FormatInt i, ?_, FormatInt_decimal i⟩
    simp [mapField, derefSource, mapValue, interfaceStage, unwrapNull, toStringStage,
      Val.IsValid, Val.Interface, Val.asInt, Val.SetString, hk, hi, hp]
  · obtain ⟨p, n, x, rfl⟩ := Val.uint_of_kind hwf hk
    simp only [kind_uint] at hk
    obtain ⟨h1, -, -, hi, hp, -⟩ := isUintKind_excl hk
    refine ⟨FormatUint x, ?_, ?_⟩
    · simp [mapField, derefSource, mapValue, interfaceStage, unwrapNull, toStringStage,
        Val.IsValid, Val.Interface, Val.asUint, Val.SetString, hk, hi, hp, h1]
    · have := FormatUint_decimal x
      simpa [isSignedDecimalOf, Val.intValue] using this

/-- C8, at the `int8` value -128 and at the `uint64` value `1<<64 - 1`. -/
theorem mapField_integer_to_text_witness :
    (∃ r, mapField refArch (.int .int8 none (-128)) (.str none "") = some (.str none r) ∧
      isSignedDecimalOf r (-128) = true) ∧
    (∃ r, mapField refArch (.uint .uint64 none 18446744073709551615) (.str none "")
        = some (.str none r) ∧ isSignedDecimalOf r 18446744073709551615 = true) :=
  ⟨mapField_integer_to_text refArch (.int .int8 none (-128)) none "" (by decide) (Or.inl rfl),
   mapField_integer_to_text refArch (.uint .uint64 none 18446744073709551615) none ""
     (by decide) (Or.inr rfl)⟩

/-- C9: a non-nil interface source mapped into a text destination sets it to a
string `r` that the formatting rule gives for the held value: the base-10
representation of a held signed or unsigned integer, for a held float the
shortest decimal without exponent (`FormatFloat`) of the float64 that denotes
the same number as the held float32 or float64, the text itself for a held
text; holding a value of any other kind (one of no kind list of the code,
`uintptr` among them), the destination is left as it was. -/
theorem mapField_interface_to_text (a : Arch) (v : Val) (dn : Option String) (old : String)
    (hwf : (Val.ifaceOf v).WF a = true) :
    ∃ r, mapField a (.ifaceOf v) (.str dn old) = some (.str dn r) ∧ SpecFormatted v old r := by
  simp only [Val.WF, Bool.and_eq_true, decide_eq_true_eq] at hwf
  obtain ⟨hv, hty⟩ := hwf
  cases v with
  | int p n i =>
    simp only [Val.WF, Bool.and_eq_true] at hv
    have hk : isIntKind p.kind = true := by cases p <;> simp_all [Prim.isSigned, Prim.kind, isIntKind]
    have hne : ¬ (GoType.prim p n = GoType.prim Prim.string dn) := by
      intro h; injection h with h1 h2; subst h1; simp [Prim.kind, isIntKind] at hk
    refine ⟨FormatInt i, ?_, FormatInt_decimal i⟩
    simp [mapField, derefSource, mapValue, interfaceStage, Val.IsNil, Val.Interface,
      Val.IsValid, Val.type, GoType.AssignableTo, hne, hk, Val.asInt,
      Val.SetString]
  | uint p n x =>
    simp only [Val.WF, Bool.and_eq_true] at hv
    have hne : ¬ (GoType.prim p n = GoType.prim Prim.string dn) := by
      intro h; injection h with h1 h2; subst h1; simp [Prim.isUnsigned] at hv
    by_cases hup : p = .uintptr
    · subst hup
      refine ⟨old, ?_, by simp [SpecFormatted, Prim.kind, isUintKind]⟩
      simp [mapField, derefSource, mapValue, interfaceStage, Val.IsNil, Val.Interface,
        Val.IsValid, Val.type, GoType.AssignableTo, isIntKind, Prim.kind,
        isUintKind, isFloatKind]
    · have hk : isUintKind p.kind = true := by
        cases p <;> simp_all [Prim.isUnsigned, Prim.kind, isUintKind]
      obtain ⟨h1, -⟩ := isUintKind_excl hk
      refine ⟨FormatUint x, ?_, ?_⟩
      · simp [mapField, derefSource, mapValue, interfaceStage, Val.IsNil, Val.Interface,
          Val.IsValid, Val.type, GoType.AssignableTo, hne, hk, h1,
          Val.asUint, Val.SetString]
      · have := FormatUint_decimal x
        simpa [SpecFormatted, hk, isSignedDecimalOf] using this
  | float p n x =>
    simp only [Val.WF, Bool.and_eq_true] at hv
    have hk : isFloatKind p.kind = true := by
      cases p <;> simp_all [Prim.isFloat, Prim.kind, isFloatKind]
    obtain ⟨h1, h2, -⟩ := isFloatKind_excl hk
    have hne : ¬ (GoType.prim p n = GoType.prim Prim.string dn) := by
      intro h; injection h with h1 h2; subst h1; simp [Prim.isFloat] at hv
    refine ⟨FormatFloat (if p = .float32 then widen x else x), ?_,
      ⟨_, asFloat_exact p x hk, rfl⟩⟩
    simp [mapField, derefSource, mapValue, interfaceStage, Val.IsNil, Val.Interface,
      Val.IsValid, Val.type, GoType.AssignableTo, hne, hk, h1, h2,
      Val.asFloat, Val.SetString]
  | str n x =>
    refine ⟨x, ?_, rfl⟩
    by_cases hn : n = dn
    · subst hn
      simp [mapField, derefSource, mapValue, interfaceStage, Val.IsNil, Val.Interface,
        Val.IsValid, Val.type, GoType.AssignableTo, Val.Set]
    · have hne : ¬ (GoType.prim Prim.string n = GoType.prim Prim.string dn) := by
        intro h; injection h with h1 h2; exact hn h2
      simp [mapField, derefSource, mapValue, interfaceStage, Val.IsNil, Val.Interface,
        Val.IsValid, Val.type, GoType.AssignableTo, hne, isIntKind,
        isUintKind, isFloatKind, Val.asString, Val.SetString]
  | nilIface => simp [Val.type] at hty
  | ifaceOf w => simp [Val.type] at hty
  | _ =>
    refine ⟨old, ?_, rfl⟩
    simp [mapField, derefSource, mapValue, interfaceStage, Val.IsNil, Val.Interface,
      Val.IsValid, Val.type, GoType.AssignableTo, isIntKind,
      isUintKind, isFloatKind]

/-- C9, at an interface holding the float64 123.345, and at an interface
holding the float32 nearest to 0.1, whose digits as a float64 are written. -/
theorem mapField_interface_to_text_witness :
    (∃ r, mapField refArch (.ifaceOf (.float .float64 none (float64Const false 123345 1000)))
        (.str none "") = some (.str none r) ∧
      SpecFormatted (.float .float64 none (float64Const false 123345 1000)) "" r ∧
      r = "123.345") ∧
    (∃ r, mapField refArch (.ifaceOf (.float .float32 none 0x3DCCCCCD))
        (.str none "") = some (.str none r) ∧
      SpecFormatted (.float .float32 none 0x3DCCCCCD) "" r ∧
      r = "0.10000000149011612") := by
  constructor
  · obtain ⟨r, h1, h2⟩ := mapField_interface_to_text refArch
      (.float .float64 none (float64Const false 123345 1000)) none "" (by decide)
    refine ⟨r, h1, h2, ?_⟩
    have h3 : mapField refArch (.ifaceOf (.float .float64 none (float64Const false 123345 1000)))
        (.str none "") = some (.str none "123.345") := by decide
    rw [h3] at h1
    injection h1 with h1
    injection h1 with _ h1
    exact h1.symm
  · obtain ⟨r, h1, h2⟩ := mapField_interface_to_text refArch
      (.float .float32 none 0x3DCCCCCD) none "" (by decide)
    refine ⟨r, h1, h2, ?_⟩
    have h3 : mapField refArch (.ifaceOf (.float .float32 none 0x3DCCCCCD))
        (.str none "") = some (.str none "0.10000000149011612") := by decide
    rw [h3] at h1
    injection h1 with h1
    injection h1 with _ h1
    exact h1.symm

/-- C7: a floating-point source, float32 or float64, that holds the finite
number `± m * 2 ^ e` (decoded from its own bit pattern), whose truncation
toward zero fits in the width of a signed integer destination, sets the
destination to that truncation: the fractional part is discarded, never
rounded. -/
theorem mapField_float_to_signed (a : Arch) (n dn : Option String) (p q : Prim) (bits : Nat)
    (old : Int) (w : Nat) (neg : Bool) (m : Nat) (e : Int)
    (hp : isFloatKind p.kind = true) (hk : isIntKind q.kind = true) (hw : q.bits a = some w)
    (hx : decodeFloat p.floatFmt bits = .fin neg m e)
    (hfit : fitsInt w (specTrunc (floatRat neg m e)) = true) :
    mapField a (.float p n bits) (.int q dn old) =
      some (.int q dn (specTrunc (floatRat neg m e))) := by
  have hsame := asFloat_exact p bits hp
  rw [hx] at hsame
  cases hd : decodeFloat binary64 (if p = .float32 then widen bits else bits) with
  | nan => rw [hd] at hsame; exact absurd hsame (by simp [sameFloat])
  | inf s => rw [hd] at hsame; exact absurd hsame (by simp [sameFloat])
  | fin neg2 m2 e2 =>
    rw [hd] at hsame
    obtain ⟨hn, hv⟩ := hsame
    subst hn
    have hr : floatRat neg m2 e2 = floatRat neg m e := by
      simp only [floatRat, hv]
    obtain ⟨h8, h64⟩ := Prim.bits_range hw
    have hfit64 : fitsInt 64 (specTrunc (floatRat neg m e)) = true := by
      have hmono : (2 : Int) ^ (w - 1) ≤ 2 ^ (64 - 1) :=
        pow_le_pow_right₀ (by norm_num) (by omega)
      simp only [fitsInt, Bool.and_eq_true, decide_eq_true_eq] at hfit ⊢
      omega
    rw [mapField_float_int a n dn p q bits old w hp hk hw]
    have h64v : float64ToInt64 a (if p = .float32 then widen bits else bits) =
        specTrunc (floatRat neg m e) := by
      simp only [fitsInt, Bool.and_eq_true, decide_eq_true_eq] at hfit64
      simp only [float64ToInt64, hd, truncFloat_fin, hr]
      norm_num at hfit64 ⊢
      intro h
      omega
    rw [h64v, wrapInt_of_fits (by omega) hfit]

/-- C7, at the float64 values 9.9 and -9.9, given by their IEEE-754 bit
patterns, into an `int` holding 0 (9 and -9), and at the float32 values 2.75
and -2.75 into an `int8` (2 and -2). -/
theorem mapField_float_to_signed_witness :
    float64Const false 99 10 = 0x4023CCCCCCCCCCCD ∧
    mapField refArch (.float .float64 none 0x4023CCCCCCCCCCCD) (.int .int none 0)
      = some (.int .int none 9) ∧
    mapField refArch (.float .float64 none 0xC023CCCCCCCCCCCD) (.int .int none 0)
      = some (.int .int none (-9)) ∧
    mapField refArch (.float .float32 none 0x40300000) (.int .int8 none 0)
      = some (.int .int8 none 2) ∧
    mapField refArch (.float .float32 none 0xC0300000) (.int .int8 none 0)
      = some (.int .int8 none (-2)) := by
  have h1 : specTrunc (floatRat false 5573204538870989 (-49)) = 9 :=
    Option.some.inj ((truncFloat_fin false 5573204538870989 (-49)).symm.trans (by decide))
  have h2 : specTrunc (floatRat true 5573204538870989 (-49)) = -9 :=
    Option.some.inj ((truncFloat_fin true 5573204538870989 (-49)).symm.trans (by decide))
  have h3 : specTrunc (floatRat false 11534336 (-22)) = 2 :=
    Option.some.inj ((truncFloat_fin false 11534336 (-22)).symm.trans (by decide))
  have h4 : specTrunc (floatRat true 11534336 (-22)) = -2 :=
    Option.some.inj ((truncFloat_fin true 11534336 (-22)).symm.trans (by decide))
  refine ⟨by decide, ?_, ?_, ?_, ?_⟩
  · have := mapField_float_to_signed refArch none none .float64 .int
      0x4023CCCCCCCCCCCD 0 64 false 5573204538870989 (-49) rfl rfl rfl (by decide)
      (by rw [h1]; decide)
    rw [h1] at this
    exact this
  · have := mapField_float_to_signed refArch none none .float64 .int
      0xC023CCCCCCCCCCCD 0 64 true 5573204538870989 (-49) rfl rfl rfl (by decide)
      (by rw [h2]; decide)
    rw [h2] at this
    exact this
  · have := mapField_float_to_signed refArch none none .float32 .int8
      0x40300000 0 8 false 11534336 (-22) rfl rfl rfl (by decide)
      (by rw [h3]; decide)
    rw [h3] at this
    exact this
  · have := mapField_float_to_signed refArch none none .float32 .int8
      0xC0300000 0 8 true 11534336 (-22) rfl rfl rfl (by decide)
      (by rw [h4]; decide)
    rw [h4] at this
    exact this

/-- A value of basic type is not a pointer, an interface or a struct, and the
type switch on the nullable wrappers leaves it alone. -/
theorem Val.isBasic_facts {v : Val} (hb : v.isBasic = true) :
    v.kind ≠ .Interface ∧ v.kind ≠ .Ptr ∧ v.IsNil = none ∧
      (∀ k, unwrapNull v k = (v, k)) ∧ (∀ k, unwrapNull (.ifaceOf v) k = (.ifaceOf v, k)) := by
  cases v <;> simp [Val.isBasic] at hb <;>
    simp [Val.IsNil, unwrapNull, Val.Interface, (Prim.kind_basic _).1, (Prim.kind_basic _).2.1]

/-- The kind of a slot to whose type a type is assignable. -/
theorem kind_of_assignable {v t : Val} (h : v.type.AssignableTo t.type = true) :
    t.kind = v.kind ∨ t.kind = .Interface := by
  simp only [GoType.AssignableTo, Bool.or_eq_true, decide_eq_true_eq] at h
  rcases h with h | h
  · left; simp [Val.kind, h]
  · right; simp [Val.kind, h, GoType.kind]

/-- An interface holding a basic value is mapped into a slot like the value
itself when the slot is textual, of the type of the value or of interface
type; any other slot is left as it was. -/
theorem mapValue_iface_basic (a : Arch) (v t : Val) (hb : v.isBasic = true)
    (hv : v.Shaped = true) (ht : t.Shaped = true) :
    mapValue a (.ifaceOf v) t = if transparentFor v t = true then mapValue a v t else some t := by
  obtain ⟨hki, hkp, hnil, hun, hun2⟩ := Val.isBasic_facts hb
  have hdirect : mapValue a v t =
      if t.kind = .String then toStringStage v v.kind t else stringStage a v v.kind t := by
    simp [mapValue, interfaceStage, hki, hun, Val.IsValid]
  by_cases hA : v.type.AssignableTo t.type = true
  · have hT : transparentFor v t = true := by simp [transparentFor, hA]
    have hL : mapValue a (.ifaceOf v) t = t.Set v := by
      simp [mapValue, interfaceStage, Val.IsNil, Val.Interface, Val.IsValid, hA]
    rw [hL, hT, if_pos rfl, hdirect]
    by_cases hs : t.kind = .String
    · obtain ⟨dn, old, rfl⟩ := Val.str_of_shaped ht hs
      have hvk : v.kind = .String := by
        rcases kind_of_assignable hA with h | h
        · simpa using h.symm
        · simp at h
      obtain ⟨n, x, rfl⟩ := Val.str_of_shaped hv hvk
      simp only [GoType.AssignableTo, Val.type, Bool.or_eq_true, decide_eq_true_eq] at hA
      have hn : n = dn := by
        rcases hA with h | h
        · injection h
        · exact absurd h (by simp)
      subst hn
      simp [toStringStage, isIntKind, isUintKind, isFloatKind, Val.asString, Val.SetString,
        Val.Set, Val.type, GoType.AssignableTo]
    · rw [if_neg hs]
      have hnum : ¬ (isIntKind v.kind = true ∧ isFloatKind t.kind = true) ∧
          ¬ (isFloatKind v.kind = true ∧ isIntKind t.kind = true) ∧
          ¬ (isUintKind v.kind = true ∧ isFloatKind t.kind = true) ∧
          ¬ (isFloatKind v.kind = true ∧ isUintKind t.kind = true) := by
        rcases kind_of_assignable hA with h | h
        · rw [h]
          refine ⟨?_, ?_, ?_, ?_⟩ <;> rintro ⟨h1, h2⟩
          · exact absurd h2 (by simp [(isIntKind_excl h1).2.1])
          · exact absurd h2 (by simp [(isFloatKind_excl h1).1])
          · exact absurd h2 (by simp [(isUintKind_excl h1).2.1])
          · exact absurd h2 (by simp [(isFloatKind_excl h1).2.1])
        · rw [h]
          simp [isIntKind, isUintKind, isFloatKind]
      have hstr : v.kind = .String →
          isIntKind t.kind = false ∧ isUintKind t.kind = false ∧ isFloatKind t.kind = false := by
        intro hvk
        rcases kind_of_assignable hA with h | h
        · exact absurd (h.trans hvk) hs
        · rw [h]; simp [isIntKind, isUintKind, isFloatKind]
      obtain ⟨n1, n2, n3, n4⟩ := hnum
      by_cases hvk : v.kind = .String
      · obtain ⟨s1, s2, s3⟩ := hstr hvk
        have e1 : isIntKind Kind.String = false := rfl
        have e2 : isUintKind Kind.String = false := rfl
        have e3 : isFloatKind Kind.String = false := rfl
        simp [stringStage, numericStage, hvk, s1, s2, s3, hs, hA, e1, e2, e3]
      · simp [stringStage, numericStage, hvk, n1, n2, n3, n4, hA]
  · simp only [Bool.not_eq_true] at hA
    by_cases hs : t.kind = .String
    · have hT : transparentFor v t = true := by simp [transparentFor, hs]
      rw [hT, if_pos rfl, hdirect, if_pos hs]
      simp [mapValue, interfaceStage, Val.IsNil, Val.Interface, Val.IsValid, hA, hs,
        toStringStage]
    · have hT : transparentFor v t = false := by simp [transparentFor, hs, hA]
      have hA2 := hA
      simp only [GoType.AssignableTo, Bool.or_eq_false_iff, decide_eq_false_iff_not] at hA2
      obtain ⟨hvt, hti⟩ := hA2
      simp [hT, mapValue, interfaceStage, Val.IsNil, Val.Interface, Val.IsValid, hs,
        hun2, stringStage, numericStage, isIntKind, isUintKind, isFloatKind, Val.type,
        GoType.AssignableTo, hti, hvt]
      intro h; exact absurd h.symm hti

/-! ### Canonical decimal texts -/

/-- A digit character is not white space, not a comma and not a sign. -/
theorem digitVal_some_char {c : Char} {d : Nat} (h : digitVal c = some d) :
    isSpace c = false ∧ c ≠ ',' ∧ c ≠ '-' ∧ c ≠ '+' := by
  unfold digitVal at h
  split at h
  · rename_i hc
    refine ⟨?_, ?_, ?_, ?_⟩
    · simp only [isSpace, Bool.or_eq_false_iff, Bool.and_eq_false_iff, decide_eq_false_iff_not,
        beq_eq_false_iff_ne, ne_eq]
      omega
    all_goals (intro he; subst he; revert hc; decide)
  · simp at h

/-- The digit character of its value is the character itself. -/
theorem digitChar_digitVal {c : Char} {d : Nat} (h : digitVal c = some d) :
    digitChar d = c := by
  unfold digitVal at h
  split at h
  · rename_i hc
    simp only [Option.some.injEq] at h
    subst h
    unfold digitChar
    have : 48 + (c.toNat - 48) = c.toNat := by omega
    rw [this]
    exact Char.ofNat_toNat c
  · simp at h

/-- A text that denotes a number consists of digit characters. -/
theorem decimalValue_all_digits : ∀ (r : List Char) (k v : Nat), decimalValue k r = some v →
    ∀ c ∈ r, ∃ d, digitVal c = some d
  | [], _, _, _, c, hc => by simp at hc
  | x :: xs, k, v, h, c, hc => by
    simp only [decimalValue] at h
    cases hx : digitVal x with
    | none => simp [hx] at h
    | some dx =>
      simp only [hx] at h
      rcases List.mem_cons.mp hc with rfl | hm
      · exact ⟨dx, hx⟩
      · exact decimalValue_all_digits xs _ v h c hm

/-- Trimming leaves a text without white space as it is. -/
theorem trimSpaceChars_of_no_space (r : List Char) (h : ∀ c ∈ r, isSpace c = false) :
    trimSpaceChars r = r := by
  have hl : ∀ l : List Char, (∀ c ∈ l, isSpace c = false) → trimLeft l = l := by
    intro l hl
    cases l with
    | nil => rfl
    | cons x xs => simp [trimLeft, hl x (List.mem_cons_self _ _)]
  unfold trimSpaceChars
  rw [hl r h, hl r.reverse (fun c hc => h c (List.mem_reverse.mp hc)), List.reverse_reverse]

/-- The clean-up leaves a text without white space and commas as it is. -/
theorem cleanText_of_plain (s : String)
    (h : ∀ c ∈ s.data, isSpace c = false ∧ c ≠ ',') : cleanText s = s := by
  unfold cleanText removeCommas TrimSpace
  simp only
  rw [trimSpaceChars_of_no_space s.data (fun c hc => (h c hc).1)]
  have : s.data.filter (fun c => c != ',') = s.data :=
    List.filter_eq_self.mpr (fun c hc => by simpa using (h c hc).2)
  rw [this]

/-- The characters of the base-10 representation of an integer are digits and
`-`: no white space, no comma. -/
theorem isSignedDecimalOf_plain {r : String} {i : Int} (h : isSignedDecimalOf r i = true) :
    ∀ c ∈ r.data, isSpace c = false ∧ c ≠ ',' := by
  have hdig : ∀ (ds : List Char) (n : Nat), isDecimalOf ds n = true →
      ∀ c ∈ ds, isSpace c = false ∧ c ≠ ',' := by
    intro ds n hd c hc
    simp only [isDecimalOf, Bool.and_eq_true, decide_eq_true_eq] at hd
    obtain ⟨d, hcd⟩ := decimalValue_all_digits ds 0 n hd.1.1 c hc
    exact ⟨(digitVal_some_char hcd).1, (digitVal_some_char hcd).2.1⟩
  unfold isSignedDecimalOf at h
  split_ifs at h with hi
  · split at h
    · rename_i ds hr
      intro c hc
      rw [hr] at hc
      rcases List.mem_cons.mp hc with rfl | hm
      · exact ⟨by decide, by decide⟩
      · exact hdig ds _ h c hm
    · simp at h
  · exact hdig r.data _ h

/-- The base-10 representation of an integer is a signed literal denoting it. -/
theorem specIntLiteral_of_canonical {r : String} {i : Int}
    (h : isSignedDecimalOf r i = true) : specIntLiteral r = some i := by
  unfold isSignedDecimalOf at h
  split_ifs at h with hi
  · split at h
    · rename_i ds hr
      simp only [isDecimalOf, Bool.and_eq_true, decide_eq_true_eq] at h
      rw [specIntLiteral_cons r '-' ds hr]
      simp [h.1.2, h.1.1]
      rw [abs_of_neg hi, neg_neg]
    · simp at h
  · simp only [isDecimalOf, Bool.and_eq_true, decide_eq_true_eq] at h
    obtain ⟨⟨hv, hne⟩, -⟩ := h
    cases hr : r.data with
    | nil => exact absurd hr hne
    | cons c cs =>
      rw [hr] at hv
      obtain ⟨d, hd⟩ := decimalValue_all_digits (c :: cs) 0 _ hv c (List.mem_cons_self _ _)
      obtain ⟨-, -, hm, hp⟩ := digitVal_some_char hd
      rw [specIntLiteral_cons r c cs hr]
      simp [hm, hp, hv]
      exact not_lt.mp hi

/-- Basic types of the same kind are the same. -/
theorem Prim.kind_injective {p q : Prim} (h : p.kind = q.kind) : p = q := by
  cases p <;> cases q <;> first | rfl | (exact absurd h (by decide))

/-- A signed integer source is written into a string destination in base 10. -/
theorem mapField_int_str (a : Arch) (p : Prim) (n dn : Option String) (i : Int)
    (old : String) (hk : isIntKind p.kind = true) :
    mapField a (.int p n i) (.str dn old) = some (.str dn (FormatInt i)) := by
  obtain ⟨-, -, -, hi, hp, -⟩ := isIntKind_excl hk
  simp [mapField, derefSource, mapValue, interfaceStage, unwrapNull, toStringStage,
    Val.IsValid, Val.Interface, Val.asInt, Val.SetString, hk, hi, hp]

/-- An unsigned integer source is written into a string destination in base 10. -/
theorem mapField_uint_str (a : Arch) (p : Prim) (n dn : Option String) (x : Nat)
    (old : String) (hk : isUintKind p.kind = true) :
    mapField a (.uint p n x) (.str dn old) = some (.str dn (FormatUint x)) := by
  obtain ⟨h1, -, -, hi, hp, -⟩ := isUintKind_excl hk
  simp [mapField, derefSource, mapValue, interfaceStage, unwrapNull, toStringStage,
    Val.IsValid, Val.Interface, Val.asUint, Val.SetString, hk, hi, hp, h1]

/-- The text `FormatInt` writes is parsed back by `ParseInt` to the integer,
when the integer fits in the width. -/
theorem ParseInt_FormatInt (i : Int) (w : Nat) (h1 : 1 ≤ w) (hw : w ≤ 64)
    (hfit : fitsInt w i = true) : ParseInt (cleanText (FormatInt i)) w = some i := by
  have hc := FormatInt_decimal i
  rw [cleanText_of_plain _ (isSignedDecimalOf_plain hc), ParseInt_eq _ w h1 hw,
    specIntLiteral_of_canonical hc]
  simp [inIntRange, hfit]

/-- The text `FormatUint` writes is parsed back by `ParseUint` to the number,
when the number fits in the width. -/
theorem ParseUint_FormatUint (x w : Nat) (hw : w ≤ 64) (hfit : fitsUint w x = true) :
    ParseUint (cleanText (FormatUint x)) w = some x := by
  have hc := FormatUint_decimal x
  have hs : isSignedDecimalOf (FormatUint x) (x : Int) = true := by
    simpa [isSignedDecimalOf] using hc
  simp only [isDecimalOf, Bool.and_eq_true, decide_eq_true_eq] at hc
  rw [cleanText_of_plain _ (isSignedDecimalOf_plain hs), ParseUint_eq _ w hw]
  simp only [specUintLiteral, hc.1.2, if_false, hc.1.1, Option.some_bind, atMost]
  simp only [fitsUint, decide_eq_true_eq] at hfit
  have : x ≤ 2 ^ w - 1 := by omega
  simp [this]

/-- The digits produced do not depend on the fuel, once it exceeds the number. -/
theorem formatBits_fuel : ∀ (f1 f2 n : Nat) (acc : List Char), n < f1 → n < f2 →
    formatBits f1 n acc = formatBits f2 n acc
  | 0, _, _, _, h, _ => by omega
  | _, 0, _, _, _, h => by omega
  | f1 + 1, f2 + 1, n, acc, h1, h2 => by
    simp only [formatBits]
    split_ifs with h10
    · rfl
    · exact formatBits_fuel f1 f2 (n / 10) _ (by omega) (by omega)

/-- Reading a digit sequence followed by one more character, backwards. -/
theorem decimalValue_append_inv : ∀ (xs : List Char) (k n : Nat) (c : Char),
    decimalValue k (xs ++ [c]) = some n →
    ∃ v d, decimalValue k xs = some v ∧ digitVal c = some d ∧ n = v * 10 + d
  | [], k, n, c, h => by
    simp only [List.nil_append, decimalValue] at h
    cases hc : digitVal c with
    | none => simp [hc] at h
    | some d =>
      simp only [hc, Option.some.injEq] at h
      exact ⟨k, d, rfl, rfl, h.symm⟩
  | x :: xs, k, n, c, h => by
    simp only [List.cons_append, decimalValue] at h ⊢
    cases hx : digitVal x with
    | none => simp [hx] at h
    | some dx =>
      simp only [hx] at h ⊢
      exact decimalValue_append_inv xs _ n c h

/-- A text without leading zero denotes a positive number. -/
theorem decimalValue_pos {r : List Char} {n : Nat} (hv : decimalValue 0 r = some n)
    (hne : r ≠ []) (hz : r.head? ≠ some '0') : 0 < n := by
  cases r with
  | nil => exact absurd rfl hne
  | cons c cs =>
    simp only [decimalValue] at hv
    cases hc : digitVal c with
    | none => simp [hc] at hv
    | some d =>
      simp only [hc] at hv
      have hge := decimalValue_ge cs _ n hv
      have hd : d ≠ 0 := by
        intro h0
        subst h0
        have := digitChar_digitVal hc
        apply hz
        simp only [List.head?_cons, Option.some.injEq]
        rw [← this]
        decide
      omega

/-- The base-10 representation of a number is unique: it is the text
`FormatUint` writes. -/
theorem isDecimalOf_unique : ∀ (len : Nat) (r : List Char) (n : Nat), r.length = len →
    isDecimalOf r n = true → r = formatBits (n + 1) n []
  | 0, r, n, hl, h => by
    simp only [isDecimalOf, Bool.and_eq_true, decide_eq_true_eq] at h
    exact absurd (List.length_eq_zero.mp hl) h.1.2
  | len + 1, r, n, hl, h => by
    simp only [isDecimalOf, Bool.and_eq_true, decide_eq_true_eq, Bool.or_eq_true] at h
    obtain ⟨⟨hv, hne⟩, hz⟩ := h
    obtain ⟨xs, c, rfl⟩ : ∃ xs c, r = xs ++ [c] := by
      rcases List.eq_nil_or_concat r with h0 | ⟨xs, c, h1⟩
      · exact absurd h0 hne
      · exact ⟨xs, c, by simpa using h1⟩
    obtain ⟨v, d, hxs, hc, hn⟩ := decimalValue_append_inv xs 0 n c hv
    have hd10 := digitVal_lt hc
    have hcd := digitChar_digitVal hc
    by_cases hx : xs = []
    · subst hx
      simp only [decimalValue, Option.some.injEq] at hxs
      subst hxs
      have hnd : n = d := by omega
      subst hnd
      simp [formatBits, hd10, hcd]
    · have hlen : xs.length = len := by simpa using hl
      have hhead : (xs ++ [c]).head? = xs.head? := by
        cases xs with
        | nil => exact absurd rfl hx
        | cons y ys => rfl
      have hz1 : xs.head? ≠ some '0' := by
        rcases hz with h1 | h1
        · rw [hhead] at h1; exact h1
        · have : (xs ++ [c]).length = 1 := by rw [h1]; rfl
          simp only [List.length_append, List.length_singleton] at this
          have : xs.length = 0 := by omega
          exact absurd (List.length_eq_zero.mp this) hx
      have hpos := decimalValue_pos hxs hx hz1
      have hcan : isDecimalOf xs v = true := by
        simp only [isDecimalOf, Bool.and_eq_true, decide_eq_true_eq, Bool.or_eq_true]
        exact ⟨⟨hxs, hx⟩, Or.inl hz1⟩
      have ih := isDecimalOf_unique len xs v hlen hcan
      have hn10 : ¬ n < 10 := by omega
      have hdiv : n / 10 = v := by omega
      have hmod : n % 10 = d := by omega
      simp only [formatBits, hn10, if_false, hdiv, hmod]
      rw [formatBits_acc n v [digitChar d] (by omega), hcd,
        formatBits_fuel n (v + 1) v [] (by omega) (by omega), ← ih]

/-- The base-10 representation of an integer is unique: it is the text
`FormatInt` writes. -/
theorem isSignedDecimalOf_unique {r : String} {i : Int} (h : isSignedDecimalOf r i = true) :
    FormatInt i = r := by
  unfold isSignedDecimalOf at h
  unfold FormatInt FormatUint
  split_ifs at h ⊢ with hi
  · split at h
    · rename_i ds hr
      rw [← isDecimalOf_unique ds.length ds _ rfl h, ← hr]
    · simp at h
  · rw [← isDecimalOf_unique r.data.length r.data _ rfl h]

/-! ### The iterations of the loop commute -/

/-- The loop is its first iteration followed by the loop over the rest. -/
theorem mapStructLoop_cons (a : Arch) (fromVal : Record) (f : Field) (todo : List Field)
    (toVal : Record) :
    mapStructLoop a fromVal (f :: todo) toVal =
      (mapStructStep a fromVal f.name toVal).bind (mapStructLoop a fromVal todo) := by
  simp only [mapStructLoop, mapStructStep, fieldUpdate]
  cases FieldByName fromVal f.name with
  | none => simp [applyUpdate]
  | some ff =>
    cases FieldByName toVal f.name with
    | none => simp [applyUpdate]
    | some tf =>
      simp only
      split_ifs
      · cases mapField a ff.value tf.value <;> simp [applyUpdate]
      · simp [applyUpdate]

/-- Replacing the content of a field does not change the field found under
another name. -/
theorem FieldByName_setField_ne : ∀ (t : Record) (n m : String) (v : Val), n ≠ m →
    FieldByName (setField t m v) n = FieldByName t n
  | [], _, _, _, _ => rfl
  | g :: gs, n, m, v, h => by
    simp only [setField]
    split_ifs with hg
    · have hgm : g.name = m := by simpa using hg
      have : ¬ (g.name = n) := fun e => h (e.symm.trans hgm)
      have hb : (g.name == n) = false := by simpa using this
      simp [FieldByName, List.find?, hb]
    · by_cases hgn : g.name = n
      · simp [FieldByName, List.find?, hgn]
      · have ih := FieldByName_setField_ne gs n m v h
        simp only [FieldByName] at ih
        simp [FieldByName, List.find?, hgn, ih]

/-- Replacing the contents of two fields of different names, in either order. -/
theorem setField_comm : ∀ (t : Record) (n m : String) (v w : Val), n ≠ m →
    setField (setField t n v) m w = setField (setField t m w) n v
  | [], _, _, _, _, _ => rfl
  | g :: gs, n, m, v, w, h => by
    by_cases hn : g.name = n
    · have hm : ¬ (g.name = m) := fun e => h (hn.symm.trans e)
      simp [setField, hn, hm, h]
    · by_cases hm : g.name = m
      · simp [setField, hn, hm, Ne.symm h]
      · simp [setField, hn, hm, setField_comm gs n m v w h]

/-- An iteration does not change the field found under another name. -/
theorem mapStructStep_lookup (a : Arch) (fromVal : Record) {n m : String} {t t1 : Record}
    (h : mapStructStep a fromVal m t = some t1) (hne : n ≠ m) :
    FieldByName t1 n = FieldByName t n := by
  simp only [mapStructStep, Option.map_eq_some'] at h
  obtain ⟨u, -, rfl⟩ := h
  cases u with
  | none => rfl
  | some v => exact FieldByName_setField_ne t n m v hne

/-- Two iterations for fields of different names commute. -/
theorem mapStructStep_comm (a : Arch) (fromVal : Record) (n m : String) (t : Record)
    (hne : n ≠ m) :
    (mapStructStep a fromVal n t).bind (mapStructStep a fromVal m) =
      (mapStructStep a fromVal m t).bind (mapStructStep a fromVal n) := by
  have key : ∀ (x y : String) (un : Option Val), x ≠ y →
      FieldByName (applyUpdate t x un) y = FieldByName t y := by
    intro x y un hxy
    cases un with
    | none => rfl
    | some v => exact FieldByName_setField_ne t y x v (Ne.symm hxy)
  have hswap : ∀ (un um : Option Val),
      applyUpdate (applyUpdate t n un) m um = applyUpdate (applyUpdate t m um) n un := by
    intro un um
    cases un <;> cases um <;> simp [applyUpdate, setField_comm t n m _ _ hne]
  cases hn : fieldUpdate a fromVal n (FieldByName t n) with
  | none =>
    cases hm : fieldUpdate a fromVal m (FieldByName t m) with
    | none => simp [mapStructStep, hn, hm]
    | some um => simp [mapStructStep, hn, hm, key m n um (Ne.symm hne)]
  | some un =>
    cases hm : fieldUpdate a fromVal m (FieldByName t m) with
    | none => simp [mapStructStep, hn, hm, key n m un hne]
    | some um =>
      simp [mapStructStep, hn, hm, key n m un hne, key m n um (Ne.symm hne), hswap]

/-- In a struct with distinct field names, the field found under the name of
a field is that field. -/
theorem FieldByName_of_mem : ∀ (l : Record) (f : Field), f ∈ l →
    (l.map Field.name).Nodup → FieldByName l f.name = some f
  | [], f, h, _ => by simp at h
  | g :: gs, f, h, hnd => by
    simp only [List.map_cons, List.nodup_cons] at hnd
    rcases List.mem_cons.mp h with rfl | hm
    · simp [FieldByName, List.find?]
    · have hne : ¬ (g.name = f.name) := by
        intro e
        exact hnd.1 (e ▸ List.mem_map_of_mem Field.name hm)
      have hb : (g.name == f.name) = false := by simpa using hne
      have ih := FieldByName_of_mem gs f hm hnd.2
      simp only [FieldByName] at ih
      simp [FieldByName, List.find?, hb, ih]

/-- The loop consults the source struct only under the names of the fields it
visits. -/
theorem mapStructLoop_source (a : Arch) (from1 from2 : Record) :
    ∀ (todo : List Field) (t : Record),
      (∀ f ∈ todo, FieldByName from1 f.name = FieldByName from2 f.name) →
      mapStructLoop a from1 todo t = mapStructLoop a from2 todo t
  | [], _, _ => rfl
  | f :: todo, t, h => by
    rw [mapStructLoop_cons, mapStructLoop_cons]
    have hf := h f (List.mem_cons_self _ _)
    have hstep : mapStructStep a from1 f.name t = mapStructStep a from2 f.name t := by
      simp only [mapStructStep, fieldUpdate, hf]
    rw [hstep]
    cases mapStructStep a from2 f.name t with
    | none => rfl
    | some t1 =>
      exact mapStructLoop_source a from1 from2 todo t1
        (fun g hg => h g (List.mem_cons_of_mem _ hg))

/-- The loop over fields of distinct names does not depend on their order. -/
theorem mapStructLoop_perm (a : Arch) (fromVal : Record) {l1 l2 : List Field}
    (hp : l1.Perm l2) :
    (l1.map Field.name).Nodup → ∀ t, mapStructLoop a fromVal l1 t = mapStructLoop a fromVal l2 t := by
  induction hp with
  | nil => intro _ t; rfl
  | cons x _ ih =>
    intro hnd t
    simp only [List.map_cons, List.nodup_cons] at hnd
    rw [mapStructLoop_cons, mapStructLoop_cons]
    cases mapStructStep a fromVal x.name t with
    | none => rfl
    | some t1 => exact ih hnd.2 t1
  | swap x y l =>
    intro hnd t
    simp only [List.map_cons, List.nodup_cons, List.mem_cons, not_or] at hnd
    have hne : y.name ≠ x.name := hnd.1.1
    rw [mapStructLoop_cons, mapStructLoop_cons]
    have e1 : (mapStructStep a fromVal y.name t).bind (mapStructLoop a fromVal (x :: l)) =
        ((mapStructStep a fromVal y.name t).bind (mapStructStep a fromVal x.name)).bind
          (mapStructLoop a fromVal l) := by
      cases mapStructStep a fromVal y.name t with
      | none => rfl
      | some t1 => simp [mapStructLoop_cons]
    have e2 : (mapStructStep a fromVal x.name t).bind (mapStructLoop a fromVal (y :: l)) =
        ((mapStructStep a fromVal x.name t).bind (mapStructStep a fromVal y.name)).bind
          (mapStructLoop a fromVal l) := by
      cases mapStructStep a fromVal x.name t with
      | none => rfl
      | some t1 => simp [mapStructLoop_cons]
    rw [e1, e2, mapStructStep_comm a fromVal y.name x.name t hne]
  | trans h1 _ ih1 ih2 =>
    intro hnd t
    have hnd2 := (List.Perm.nodup_iff (List.Perm.map Field.name h1)).mp hnd
    rw [ih1 hnd t, ih2 hnd2 t]

/-! ### `mapField` depends on the destination through its type -/

/-- Two shaped slots of the same type are built alike, or are of a kind that
is only assigned as a whole. -/
theorem SameShape.classify {t1 t2 : Val} (h : SameShape t1 t2) :
    (∃ p n i j, isIntKind p.kind = true ∧ t1 = .int p n i ∧ t2 = .int p n j) ∨
    (∃ p n i j, isUintKind p.kind = true ∧ t1 = .uint p n i ∧ t2 = .uint p n j) ∨
    (∃ p n i j, isFloatKind p.kind = true ∧ t1 = .float p n i ∧ t2 = .float p n j) ∨
    (∃ n x y, t1 = .str n x ∧ t2 = .str n y) ∨
    (isIntKind t1.kind = false ∧ isUintKind t1.kind = false ∧ isFloatKind t1.kind = false ∧
      t1.kind ≠ .String ∧ t2.kind = t1.kind) := by
  obtain ⟨hty, h1, h2⟩ := h
  have hk : t2.kind = t1.kind := by simp [Val.kind, hty]
  by_cases c1 : isIntKind t1.kind = true
  · obtain ⟨p, n, i, rfl, -⟩ := Val.int_of_shaped h1 c1
    obtain ⟨q, m, j, rfl, -⟩ := Val.int_of_shaped h2 (hk ▸ c1)
    simp only [Val.type, GoType.prim.injEq] at hty
    obtain ⟨rfl, rfl⟩ := hty
    exact Or.inl ⟨p, n, i, j, c1, rfl, rfl⟩
  by_cases c2 : isUintKind t1.kind = true
  · obtain ⟨p, n, i, rfl, -⟩ := Val.uint_of_shaped h1 c2
    obtain ⟨q, m, j, rfl, -⟩ := Val.uint_of_shaped h2 (hk ▸ c2)
    simp only [Val.type, GoType.prim.injEq] at hty
    obtain ⟨rfl, rfl⟩ := hty
    exact Or.inr (Or.inl ⟨p, n, i, j, c2, rfl, rfl⟩)
  by_cases c3 : isFloatKind t1.kind = true
  · obtain ⟨p, n, i, rfl, -⟩ := Val.float_of_shaped h1 c3
    obtain ⟨q, m, j, rfl, -⟩ := Val.float_of_shaped h2 (hk ▸ c3)
    simp only [Val.type, GoType.prim.injEq] at hty
    obtain ⟨rfl, rfl⟩ := hty
    exact Or.inr (Or.inr (Or.inl ⟨p, n, i, j, c3, rfl, rfl⟩))
  by_cases c4 : t1.kind = .String
  · obtain ⟨n, x, rfl⟩ := Val.str_of_shaped h1 c4
    obtain ⟨m, y, rfl⟩ := Val.str_of_shaped h2 (hk.trans c4)
    simp only [Val.type, GoType.prim.injEq, true_and] at hty
    subst hty
    exact Or.inr (Or.inr (Or.inr (Or.inl ⟨n, x, y, rfl, rfl⟩)))
  · simp only [Bool.not_eq_true] at c1 c2 c3
    exact Or.inr (Or.inr (Or.inr (Or.inr ⟨c1, c2, c3, c4, hk⟩)))

/-- `Set` depends on the slot through its type. -/
theorem Val.Set_congr {t1 t2 : Val} (h : t1.type = t2.type) (x : Val) :
    t1.Set x = t2.Set x := by
  simp [Val.Set, h]

/-- Lines 120-132 on two string slots of the same type. -/
theorem toStringStage_same (ff : Val) (fk : Kind) (n : Option String) (x y : String) :
    SameOutcome (.str n x) (.str n y) (toStringStage ff fk (.str n x))
      (toStringStage ff fk (.str n y)) := by
  simp only [toStringStage, Val.SetString]
  split_ifs
  all_goals first
    | exact Or.inr rfl
    | exact Or.inl ⟨rfl, rfl⟩

/-- Lines 161-186 on two slots of the same shape. -/
theorem numericStage_same (a : Arch) (ff : Val) (fk : Kind) {t1 t2 : Val}
    (h : SameShape t1 t2) :
    SameOutcome t1 t2 (numericStage a ff fk t1) (numericStage a ff fk t2) := by
  have hty := h.1
  rcases h.classify with ⟨p, n, i, j, hk, rfl, rfl⟩ | ⟨p, n, i, j, hk, rfl, rfl⟩ |
    ⟨p, n, i, j, hk, rfl, rfl⟩ | ⟨n, x, y, rfl, rfl⟩ | ⟨c1, c2, c3, c4, hk⟩
  · simp only [numericStage, kind_int, Val.SetInt, Val.SetFloat, Val.SetUint, Val.Set, Val.type]
    split_ifs
    all_goals first
      | exact Or.inr rfl
      | exact Or.inl ⟨rfl, rfl⟩
  · simp only [numericStage, kind_uint, Val.SetInt, Val.SetFloat, Val.SetUint, Val.Set,
      Val.type]
    split_ifs
    all_goals first
      | exact Or.inr rfl
      | exact Or.inl ⟨rfl, rfl⟩
  · simp only [numericStage, kind_float, Val.SetInt, Val.SetFloat, Val.SetUint, Val.Set,
      Val.type]
    split_ifs
    all_goals first
      | exact Or.inr rfl
      | exact Or.inl ⟨rfl, rfl⟩
  · simp only [numericStage, kind_str, Val.SetInt, Val.SetFloat, Val.SetUint, Val.Set,
      Val.type]
    split_ifs
    all_goals first
      | exact Or.inr rfl
      | exact Or.inl ⟨rfl, rfl⟩
  · simp only [numericStage, hk, c1, c2, c3, Bool.false_eq_true, and_false, if_false, hty,
      Val.Set_congr hty]
    split_ifs
    · exact Or.inr rfl
    · exact Or.inl ⟨rfl, rfl⟩

/-- Lines 134-157 on two slots of the same shape. -/
theorem stringStage_same (a : Arch) (ff : Val) (fk : Kind) {t1 t2 : Val}
    (h : SameShape t1 t2) :
    SameOutcome t1 t2 (stringStage a ff fk t1) (stringStage a ff fk t2) := by
  have hnum := numericStage_same a ff fk h
  have hty := h.1
  have hk : t2.kind = t1.kind := by simp [Val.kind, hty]
  unfold stringStage
  simp only [hk, hty]
  by_cases c0 : fk = .String
  · simp only [c0, if_true]
    rw [c0] at hnum
    rcases h.classify with ⟨p, n, i, j, hp, rfl, rfl⟩ | ⟨p, n, i, j, hp, rfl, rfl⟩ |
      ⟨p, n, i, j, hp, rfl, rfl⟩ | ⟨n, x, y, rfl, rfl⟩ | ⟨c1, c2, c3, c4, -⟩
    · simp only [kind_int, hp, if_true, Val.SetInt]
      cases (Val.int p n j).type.Bits a with
      | none => exact Or.inr rfl
      | some w =>
        simp only [Option.some_bind]
        cases ParseInt (removeCommas (TrimSpace ff.asString)) w with
        | none => exact Or.inl ⟨rfl, rfl⟩
        | some v => exact Or.inr rfl
    · obtain ⟨h1, -⟩ := isUintKind_excl hp
      simp only [kind_uint, hp, h1, Bool.false_eq_true, if_false, if_true, Val.SetUint]
      cases (Val.uint p n j).type.Bits a with
      | none => exact Or.inr rfl
      | some w =>
        simp only [Option.some_bind]
        cases ParseUint (removeCommas (TrimSpace ff.asString)) w with
        | none => exact Or.inl ⟨rfl, rfl⟩
        | some v => exact Or.inr rfl
    · obtain ⟨h1, h2, -⟩ := isFloatKind_excl hp
      simp only [kind_float, hp, h1, h2, Bool.false_eq_true, if_false, if_true, Val.SetFloat]
      cases (Val.float p n j).type.Bits a with
      | none => exact Or.inr rfl
      | some w =>
        simp only [Option.some_bind]
        cases a.ParseFloat (removeCommas (TrimSpace ff.asString)) w with
        | none => exact Or.inl ⟨rfl, rfl⟩
        | some v => exact Or.inr rfl
    · have e1 : isIntKind Kind.String = false := rfl
      have e2 : isUintKind Kind.String = false := rfl
      have e3 : isFloatKind Kind.String = false := rfl
      simp only [kind_str, e1, e2, e3, Bool.false_eq_true, if_false, if_true, Val.SetString]
      exact Or.inr rfl
    · simp only [c1, c2, c3, c4, Bool.false_eq_true, if_false]
      exact hnum
  · simp only [c0, if_false]
    exact hnum

/-- Lines 55-76 on two slots of the same shape: the block is left on both, or
returns on both with agreeing outcomes. -/
theorem interfaceStage_same (ff : Val) {t1 t2 : Val} (h : SameShape t1 t2) :
    (interfaceStage ff t1 = none ∧ interfaceStage ff t2 = none) ∨
      ∃ o1 o2, interfaceStage ff t1 = some o1 ∧ interfaceStage ff t2 = some o2 ∧
        SameOutcome t1 t2 o1 o2 := by
  have hty := h.1
  have hk : t2.kind = t1.kind := by simp [Val.kind, hty]
  unfold interfaceStage
  simp only [hk, hty.symm, Val.Set_congr hty.symm]
  by_cases c0 : ff.kind = .Interface ∧ ff.IsNil = some false
  · simp only [c0, and_self, if_true]
    by_cases c1 : ff.Interface.type.AssignableTo t1.type = true
    · simp only [c1, if_true]
      exact Or.inr ⟨_, _, rfl, rfl, Or.inr rfl⟩
    · simp only [c1, Bool.false_eq_true, if_false]
      by_cases c2 : t1.kind = .String
      · simp only [c2, if_true]
        refine Or.inr ⟨_, _, rfl, rfl, ?_⟩
        obtain ⟨n, x, rfl⟩ := Val.str_of_shaped h.2.1 c2
        obtain ⟨m, y, rfl⟩ := Val.str_of_shaped h.2.2 (hk.trans c2)
        simp only [Val.type, GoType.prim.injEq, true_and] at hty
        subst hty
        simp only [Val.SetString]
        split_ifs
        all_goals first
          | exact Or.inr rfl
          | exact Or.inl ⟨rfl, rfl⟩
      · simp [c2]
  · simp [c0]

/-- Lines 47-187 on two slots of the same shape. -/
theorem mapValue_same (a : Arch) (ff : Val) {t1 t2 : Val} (h : SameShape t1 t2) :
    SameOutcome t1 t2 (mapValue a ff t1) (mapValue a ff t2) := by
  have hty := h.1
  have hk : t2.kind = t1.kind := by simp [Val.kind, hty]
  unfold mapValue
  simp only [Val.IsValid, Bool.not_true, Bool.or_self, Bool.false_eq_true, if_false, hk]
  rcases interfaceStage_same ff h with ⟨e1, e2⟩ | ⟨o1, o2, e1, e2, ho⟩
  · rw [e1, e2]
    simp only
    by_cases c : t1.kind = .String
    · simp only [c, if_true]
      obtain ⟨n, x, rfl⟩ := Val.str_of_shaped h.2.1 c
      obtain ⟨m, y, rfl⟩ := Val.str_of_shaped h.2.2 (hk.trans c)
      simp only [Val.type, GoType.prim.injEq, true_and] at hty
      subst hty
      exact toStringStage_same _ _ n x y
    · simp only [c, if_false]
      exact stringStage_same a _ _ h
  · rw [e1, e2]
    exact ho

/-- Mapping a source into a slot twice gives what mapping it once gives. -/
theorem mapValue_idem (a : Arch) {ff t r : Val} (hf : ff.Shaped = true) (ht : t.Shaped = true)
    (h : mapValue a ff t = some r) : mapValue a ff r = some r := by
  obtain ⟨r', hr', hrs, hrt⟩ := mapValue_returns a hf ht
  rw [h] at hr'
  injection hr' with hr'
  subst hr'
  rcases mapValue_same a ff (⟨hrt.symm, ht, hrs⟩ : SameShape t r) with ⟨-, e⟩ | e
  · exact e
  · rw [← e, h]

/-! ### A pointer copied into a nil destination pointer -/

/-- No type is the type of the pointers to itself. -/
theorem GoType.ptr_ne_self : ∀ t : GoType, GoType.ptr t ≠ t
  | .ptr e => by
    intro h
    injection h with h
    exact GoType.ptr_ne_self e h
  | .prim _ _ => by intro h; cases h
  | .iface => by intro h; cases h
  | .nullInt64 => by intro h; cases h
  | .nullInt32 => by intro h; cases h
  | .nullInt16 => by intro h; cases h
  | .nullString => by intro h; cases h
  | .nullFloat64 => by intro h; cases h
  | .struct _ => by intro h; cases h

/-- The source after lines 40-43 is shaped when the source is. -/
theorem derefSource_shaped {src : Val} (hs : src.Shaped = true) :
    ∃ v, derefSource src = some v ∧ v.Shaped = true := by
  unfold derefSource
  cases src with
  | ptrTo v => exact ⟨v, by simp [Val.IsNil, Val.Elem], hs⟩
  | nilPtr t => exact ⟨_, by simp [Val.IsNil], hs⟩
  | int p n i => exact ⟨_, by simp [(Prim.kind_basic p).2.1], hs⟩
  | uint p n i => exact ⟨_, by simp [(Prim.kind_basic p).2.1], hs⟩
  | float p n i => exact ⟨_, by simp [(Prim.kind_basic p).2.1], hs⟩
  | _ => exact ⟨_, by simp, hs⟩

/-- What the type switch of lines 80-116 yields is a pointer only when the
source is that pointer. -/
theorem unwrapNull_ptrTo {s y : Val} {k : Kind} (h : (unwrapNull s k).1 = .ptrTo y) :
    s = .ptrTo y := by
  cases s with
  | ifaceOf v =>
    cases v <;> simp [unwrapNull, Val.Interface] at h <;> split_ifs at h
  | nullInt64 x b => cases b <;> simp [unwrapNull, Val.Interface] at h
  | nullInt32 x b => cases b <;> simp [unwrapNull, Val.Interface] at h
  | nullInt16 x b => cases b <;> simp [unwrapNull, Val.Interface] at h
  | nullString x b => cases b <;> simp [unwrapNull, Val.Interface] at h
  | nullFloat64 x b => cases b <;> simp [unwrapNull, Val.Interface] at h
  | ptrTo v =>
    simp only [unwrapNull, Val.Interface, Val.ptrTo.injEq] at h
    rw [h]
  | _ => simp [unwrapNull, Val.Interface] at h

/-- Lines 134-186 on a nil pointer slot: the source is assigned as it is when
its type is the pointer type, and the slot is kept otherwise. -/
theorem stringStage_nilPtr (a : Arch) (f : Val) (k : Kind) (t : GoType) :
    stringStage a f k (.nilPtr t) =
      if f.type.AssignableTo (.ptr t) = true then some f else some (.nilPtr t) := by
  have e : ∀ x : Val, (Val.nilPtr t).Set x =
      if x.type.AssignableTo (.ptr t) = true then some x else none := by
    intro x
    simp [Val.Set, Val.type]
  by_cases hk : k = .String <;>
    simp [stringStage, numericStage, hk, isIntKind, isUintKind, isFloatKind, Val.type, e] <;>
    split_ifs <;> rfl

/-- A source that turns a nil pointer slot into a pointer is that pointer, or
an interface holding it. -/
theorem mapValue_nilPtr_to_ptr (a : Arch) {s y : Val} {t : GoType}
    (h : mapValue a s (.nilPtr t) = some (.ptrTo y)) :
    s = .ptrTo y ∨ s = .ifaceOf (.ptrTo y) := by
  unfold mapValue at h
  simp only [Val.IsValid, Bool.not_true, Bool.or_self, Bool.false_eq_true, if_false,
    kind_nilPtr] at h
  have hrest : (if (Kind.Ptr = Kind.String) then
        toStringStage (unwrapNull s s.kind).1 (unwrapNull s s.kind).2 (.nilPtr t)
      else stringStage a (unwrapNull s s.kind).1 (unwrapNull s s.kind).2 (.nilPtr t))
        = some (.ptrTo y) → s = .ptrTo y := by
    intro h2
    have hne : ¬ (Kind.Ptr = Kind.String) := by decide
    rw [if_neg hne, stringStage_nilPtr] at h2
    split_ifs at h2
    · injection h2 with h2
      exact unwrapNull_ptrTo h2
    · simp at h2
  cases hi : interfaceStage s (.nilPtr t) with
  | none =>
    rw [hi] at h
    exact Or.inl (hrest h)
  | some o =>
    rw [hi] at h
    simp only at h
    subst h
    right
    cases s with
    | ifaceOf v =>
      simp only [interfaceStage, kind_ifaceOf, Val.IsNil, Val.Interface, and_self, if_true,
        kind_nilPtr] at hi
      by_cases c1 : v.type.AssignableTo (Val.nilPtr t).type = true
      · simp [c1, Val.Set, Val.type] at hi
        rw [hi.2]
      · simp [c1] at hi
    | _ => simp [interfaceStage, Val.IsNil] at hi

/-- A pointer, or an interface holding it, maps into the slot it points to
without changing it, unless the slot is of interface type. -/
theorem mapValue_ptr_into_target (a : Arch) (y : Val) (hy : y.type ≠ .iface) :
    mapValue a (.ptrTo y) y = some y ∧ mapValue a (.ifaceOf (.ptrTo y)) y = some y := by
  have h1 : (GoType.ptr y.type).AssignableTo y.type = false := by
    simp [GoType.AssignableTo, GoType.ptr_ne_self, hy]
  have h2 : GoType.iface.AssignableTo y.type = false := by
    simp [GoType.AssignableTo, hy, Ne.symm hy]
  constructor
  · by_cases hk : y.kind = .String
    · simp [mapValue, interfaceStage, unwrapNull, Val.Interface, Val.IsValid, Val.IsNil, hk,
        toStringStage, isIntKind, isUintKind, isFloatKind]
    · simp [mapValue, interfaceStage, unwrapNull, Val.Interface, Val.IsValid, Val.IsNil, hk,
        stringStage, numericStage, isIntKind, isUintKind, isFloatKind, Val.type, h1]
  · by_cases hk : y.kind = .String
    · simp [mapValue, interfaceStage, Val.Interface, Val.IsValid, Val.IsNil, hk, Val.type, h1,
        isIntKind, isUintKind, isFloatKind]
    · simp [mapValue, interfaceStage, unwrapNull, Val.Interface, Val.IsValid, Val.IsNil, hk,
        stringStage, numericStage, isIntKind, isUintKind, isFloatKind, Val.type, h1, h2]

/-- Mapping a source into a destination twice gives what mapping it once
gives, unless the destination is a nil pointer to an interface. -/
theorem mapField_idem (a : Arch) {src dst r : Val} (hs : src.Shaped = true)
    (hd : dst.Shaped = true) (hni : dst ≠ .nilPtr .iface)
    (h : mapField a src dst = some r) : mapField a src r = some r := by
  obtain ⟨s1, hs1, hs1s⟩ := derefSource_shaped hs
  have hr := mapField_returns a hs hd
  rw [h] at hr
  obtain ⟨r', hr', -, hrt⟩ := hr
  injection hr' with hr'
  subst hr'
  unfold mapField at h ⊢
  rw [hs1] at h ⊢
  simp only at h ⊢
  cases dst with
  | ptrTo target =>
    simp only [Val.Shaped] at hd
    simp only [Option.map_eq_some'] at h
    obtain ⟨r1, h1, rfl⟩ := h
    simp [mapValue_idem a hs1s hd h1]
  | nilPtr t =>
    simp only at h
    cases r with
    | ptrTo y =>
      simp only [Val.type, GoType.ptr.injEq] at hrt
      have hy : y.type ≠ .iface := by
        intro e
        apply hni
        rw [← hrt, e]
      simp only
      rcases mapValue_nilPtr_to_ptr a h with e | e
      · subst e
        simp [(mapValue_ptr_into_target a y hy).1]
      · subst e
        simp [(mapValue_ptr_into_target a y hy).2]
    | _ => exact mapValue_idem a hs1s hd h
  | _ =>
    simp only at h
    cases r with
    | ptrTo y => simp [Val.type] at hrt
    | _ => exact mapValue_idem a hs1s hd h

/-- What `mapField` leaves in a destination that is not a nil pointer to an
interface is not one either. -/
theorem mapField_not_nil_iface (a : Arch) {src dst r : Val} (hs : src.Shaped = true)
    (hd : dst.Shaped = true) (hni : dst ≠ .nilPtr .iface)
    (h : mapField a src dst = some r) : r ≠ .nilPtr .iface := by
  have hr := mapField_returns a hs hd
  rw [h] at hr
  obtain ⟨r', hr', -, hrt⟩ := hr
  injection hr' with hr'
  subst hr'
  intro e
  subst e
  cases dst with
  | nilPtr t =>
    simp only [Val.type, GoType.ptr.injEq] at hrt
    exact hni (by rw [hrt])
  | ptrTo target =>
    obtain ⟨s1, hs1, -⟩ := derefSource_shaped hs
    simp only [mapField, hs1, Option.map_eq_some'] at h
    obtain ⟨x, -, hx⟩ := h
    cases hx
  | _ => simp [Val.type] at hrt

/-! ### A second run of the loop -/

/-- Writing back the content of a field changes nothing. -/
theorem setField_self : ∀ (t : Record) (n : String) (tf : Field),
    FieldByName t n = some tf → setField t n tf.value = t
  | [], _, _, h => by simp [FieldByName] at h
  | g :: gs, n, tf, h => by
    simp only [setField]
    by_cases hg : (g.name == n) = true
    · simp only [FieldByName, List.find?, hg, Option.some.injEq] at h
      subst h
      simp [hg]
    · simp only [Bool.not_eq_true] at hg
      simp only [FieldByName, List.find?, hg] at h
      have ih := setField_self gs n tf h
      simp [hg, ih]

/-- The field found under the name of a field whose content was replaced. -/
theorem FieldByName_setField_self : ∀ (t : Record) (n : String) (tf : Field) (v : Val),
    FieldByName t n = some tf →
    FieldByName (setField t n v) n = some { tf with value := v }
  | [], _, _, _, h => by simp [FieldByName] at h
  | g :: gs, n, tf, v, h => by
    simp only [setField]
    by_cases hg : (g.name == n) = true
    · simp only [FieldByName, List.find?, hg, Option.some.injEq] at h
      subst h
      simp [FieldByName, List.find?, hg]
    · simp only [Bool.not_eq_true] at hg
      simp only [FieldByName, List.find?, hg] at h
      have ih := FieldByName_setField_self gs n tf v h
      simp only [FieldByName] at ih
      simp [FieldByName, List.find?, hg, ih]

/-- Replacing the content of a field keeps a property all contents have. -/
theorem setField_forall (P : Val → Prop) : ∀ (r : Record) (name : String) (v : Val),
    (∀ f ∈ r, P f.value) → P v → ∀ f ∈ setField r name v, P f.value
  | [], _, _, _, _, f, hf => by simp [setField] at hf
  | g :: gs, name, v, hr, hv, f, hf => by
    simp only [setField] at hf
    split_ifs at hf
    · rcases List.mem_cons.mp hf with h | h
      · subst h; exact hv
      · exact hr f (List.mem_cons_of_mem _ h)
    · rcases List.mem_cons.mp hf with h | h
      · subst h; exact hr _ (List.mem_cons_self _ _)
      · exact setField_forall P gs name v (fun x hx => hr x (List.mem_cons_of_mem _ hx)) hv f h

/-- An iteration on a field that is a fixed point changes nothing. -/
theorem mapStructStep_fixed (a : Arch) (fromVal : Record) (n : String) (t : Record)
    (h : FixedAt a fromVal n t) : mapStructStep a fromVal n t = some t := by
  unfold mapStructStep fieldUpdate
  cases hsf : FieldByName fromVal n with
  | none => simp [applyUpdate]
  | some sf =>
    cases htf : FieldByName t n with
    | none => simp [applyUpdate]
    | some tf =>
      simp only
      by_cases he : tf.exported = true
      · simp [he, h sf tf hsf htf he, applyUpdate, setField_self t n tf htf]
      · simp [he, applyUpdate]

/-- An iteration keeps the fixed points under other names. -/
theorem mapStructStep_keeps_fixed (a : Arch) (fromVal : Record) {n m : String}
    {t t1 : Record} (h : mapStructStep a fromVal m t = some t1)
    (hf : FixedAt a fromVal n t) : FixedAt a fromVal n t1 := by
  by_cases hnm : n = m
  · subst hnm
    rw [mapStructStep_fixed a fromVal n t hf] at h
    injection h with h
    subst h
    exact hf
  · intro sf tf hsf htf he
    rw [mapStructStep_lookup a fromVal h hnm] at htf
    exact hf sf tf hsf htf he

/-- The field found under a name bears that name. -/
theorem FieldByName_name {r : Record} {n : String} {f : Field} (h : FieldByName r n = some f) :
    f.name = n := by
  have := List.find?_some h
  simpa using this

/-- The check `nilIfaceKept` establishes `NilKept`. -/
theorem nilIfaceKept_sound {a : Arch} {fromVal toVal : Record}
    (h : nilIfaceKept a fromVal toVal = true) : NilKept a fromVal toVal := by
  intro n sf tf hsf htf he hv
  simp only [nilIfaceKept, List.all_eq_true] at h
  have := h tf (FieldByName_mem htf)
  rw [FieldByName_name htf, hsf] at this
  simpa [he, hv] using this

/-- An iteration keeps the destination shaped and its nil pointers to an
interface unassigned, and makes its field a fixed point. -/
theorem mapStructStep_makes_fixed (a : Arch) (fromVal : Record) {n : String} {t t1 : Record}
    (hs : ∀ f ∈ fromVal, f.value.Shaped = true) (ht : ∀ f ∈ t, f.value.Shaped = true)
    (hni : NilKept a fromVal t)
    (h : mapStructStep a fromVal n t = some t1) :
    (∀ f ∈ t1, f.value.Shaped = true) ∧ NilKept a fromVal t1 ∧
      FixedAt a fromVal n t1 := by
  have hother : ∀ m, m ≠ n → ∀ sf tf, FieldByName fromVal m = some sf →
      FieldByName t1 m = some tf → tf.exported = true → tf.value = .nilPtr .iface →
      mapField a sf.value tf.value = some tf.value := by
    intro m hm sf tf h1 h2 h3 h4
    rw [mapStructStep_lookup a fromVal h hm] at h2
    exact hni m sf tf h1 h2 h3 h4
  unfold mapStructStep fieldUpdate at h
  cases hsf : FieldByName fromVal n with
  | none =>
    simp only [hsf, Option.map_some', applyUpdate, Option.some.injEq] at h
    subst h
    exact ⟨ht, hni, fun sf _ h1 => by rw [hsf] at h1; cases h1⟩
  | some sf =>
    cases htf : FieldByName t n with
    | none =>
      simp only [hsf, htf, Option.map_some', applyUpdate, Option.some.injEq] at h
      subst h
      exact ⟨ht, hni, fun _ tf _ h2 => by rw [htf] at h2; cases h2⟩
    | some tf =>
      simp only [hsf, htf] at h
      by_cases he : tf.exported = true
      · simp only [he, if_true, Option.map_map, Option.map_eq_some', Function.comp] at h
        obtain ⟨v, hv, rfl⟩ := h
        have hsS := hs sf (FieldByName_mem hsf)
        have htS := ht tf (FieldByName_mem htf)
        obtain ⟨r, hr, hrs, -⟩ := mapField_returns a hsS htS
        rw [hv] at hr
        injection hr with hr
        subst hr
        have hfix : mapField a sf.value v = some v := by
          by_cases hN : tf.value = .nilPtr .iface
          · have := hni n sf tf hsf htf he hN
            rw [hv] at this
            injection this with this
            rw [this]
            rw [this] at hv
            exact hv
          · exact mapField_idem a hsS htS hN hv
        have hlook : FieldByName (applyUpdate t n (some v)) n = some { tf with value := v } := by
          simp only [applyUpdate]
          exact FieldByName_setField_self t n tf v htf
        refine ⟨setField_forall (fun x => x.Shaped = true) t n v ht hrs, ?_, ?_⟩
        · intro m sf' tf' h1 h2 h3 h4
          by_cases hm : m = n
          · subst hm
            rw [hsf] at h1
            injection h1 with h1
            subst h1
            rw [hlook] at h2
            injection h2 with h2
            subst h2
            exact hfix
          · exact hother m hm sf' tf' h1 h2 h3 h4
        · intro sf' tf' h1 h2 _
          rw [hsf] at h1
          injection h1 with h1
          subst h1
          rw [hlook] at h2
          injection h2 with h2
          subst h2
          exact hfix
      · simp only [he, Bool.false_eq_true, if_false, Option.map_some', applyUpdate,
          Option.some.injEq] at h
        subst h
        refine ⟨ht, hni, fun _ tf' _ h2 he' => ?_⟩
        rw [htf] at h2
        injection h2 with h2
        subst h2
        exact absurd he' he


/-- After the loop, every field it visited is a fixed point, and the fixed
points it started from still are. -/
theorem mapStructLoop_fixed (a : Arch) (fromVal : Record)
    (hs : ∀ f ∈ fromVal, f.value.Shaped = true) :
    ∀ (todo : List Field) (t out : Record), (∀ f ∈ t, f.value.Shaped = true) →
      NilKept a fromVal t → mapStructLoop a fromVal todo t = some out →
      (∀ n, FixedAt a fromVal n t → FixedAt a fromVal n out) ∧
        ∀ f ∈ todo, FixedAt a fromVal f.name out
  | [], t, out, _, _, h => by
    simp only [mapStructLoop, Option.some.injEq] at h
    subst h
    exact ⟨fun _ hn => hn, fun f hf => by simp at hf⟩
  | f :: todo, t, out, ht, hni, h => by
    rw [mapStructLoop_cons] at h
    cases hstep : mapStructStep a fromVal f.name t with
    | none => simp [hstep] at h
    | some t1 =>
      rw [hstep] at h
      simp only [Option.some_bind] at h
      obtain ⟨ht1, hni1, hfix1⟩ := mapStructStep_makes_fixed a fromVal hs ht hni hstep
      obtain ⟨hkeep, hall⟩ := mapStructLoop_fixed a fromVal hs todo t1 out ht1 hni1 h
      refine ⟨fun n hn => hkeep n (mapStructStep_keeps_fixed a fromVal hstep hn), ?_⟩
      intro g hg
      rcases List.mem_cons.mp hg with rfl | hm
      · exact hkeep _ hfix1
      · exact hall g hm

/-- The loop over fields that are all fixed points changes nothing. -/
theorem mapStructLoop_of_fixed (a : Arch) (fromVal : Record) :
    ∀ (todo : List Field) (t : Record), (∀ f ∈ todo, FixedAt a fromVal f.name t) →
      mapStructLoop a fromVal todo t = some t
  | [], _, _ => rfl
  | f :: todo, t, h => by
    rw [mapStructLoop_cons, mapStructStep_fixed a fromVal f.name t (h f (List.mem_cons_self _ _))]
    exact mapStructLoop_of_fixed a fromVal todo t (fun g hg => h g (List.mem_cons_of_mem _ hg))

/-- Two sources that are not dereferenced and are mapped alike into every
slot are mapped alike into every destination. -/
theorem mapField_congr_source (a : Arch) {s1 s2 : Val} (h1 : derefSource s1 = some s1)
    (h2 : derefSource s2 = some s2) (h : ∀ t, mapValue a s1 t = mapValue a s2 t) (dst : Val) :
    mapField a s1 dst = mapField a s2 dst := by
  unfold mapField
  rw [h1, h2]
  cases dst <;> simp [h]

/-- C16: a nullable wrapper whose validity flag is set is mapped into every
destination, whatever it held, exactly as its bare payload is: an `int64`,
`int32`, `int16`, `string` or `float64` value. -/
theorem mapField_valid_wrapper_transparent (a : Arch) (dst : Val) (i : Int) (s : String)
    (bits : Nat) :
    mapField a (.nullInt64 i true) dst = mapField a (.int .int64 none i) dst ∧
    mapField a (.nullInt32 i true) dst = mapField a (.int .int32 none i) dst ∧
    mapField a (.nullInt16 i true) dst = mapField a (.int .int16 none i) dst ∧
    mapField a (.nullString s true) dst = mapField a (.str none s) dst ∧
    mapField a (.nullFloat64 bits true) dst = mapField a (.float .float64 none bits) dst := by
  refine ⟨?_, ?_, ?_, ?_, ?_⟩ <;>
    refine mapField_congr_source a (by simp [derefSource, Prim.kind])
      (by simp [derefSource, Prim.kind]) (fun t => ?_) dst <;>
    simp [mapValue, interfaceStage, unwrapNull, Val.Interface, Val.IsValid, Prim.kind]

/-- C19: a nullable wrapper, valid or not, mapped into a destination of its
own wrapper type leaves the destination as it was: what reaches the
assignability test is the payload or the default, not the wrapper. -/
theorem mapField_wrapper_into_own_type (a : Arch) (i j : Int) (s t : String) (x y : Nat)
    (valid dvalid : Bool) :
    mapField a (.nullInt64 i valid) (.nullInt64 j dvalid) = some (.nullInt64 j dvalid) ∧
    mapField a (.nullInt32 i valid) (.nullInt32 j dvalid) = some (.nullInt32 j dvalid) ∧
    mapField a (.nullInt16 i valid) (.nullInt16 j dvalid) = some (.nullInt16 j dvalid) ∧
    mapField a (.nullString s valid) (.nullString t dvalid) = some (.nullString t dvalid) ∧
    mapField a (.nullFloat64 x valid) (.nullFloat64 y dvalid)
      = some (.nullFloat64 y dvalid) := by
  refine ⟨?_, ?_, ?_, ?_, ?_⟩ <;> cases valid <;>
    simp [mapField, derefSource, mapValue, interfaceStage, unwrapNull, stringStage,
      numericStage, Val.Interface, Val.IsValid, Val.type, GoType.AssignableTo, isIntKind,
      isUintKind, isFloatKind, Prim.kind]

/-- C13: `mapField` never fails: on every source value and every destination
slot whose constructor agrees with its type, whatever their kinds, the call
returns normally, with a value of the type of the destination. -/
theorem mapField_never_panics (a : Arch) (src dst : Val) (hs : src.Shaped = true)
    (hd : dst.Shaped = true) :
    ∃ r, mapField a src dst = some r ∧ r.Shaped = true ∧ r.type = dst.type :=
  mapField_returns a hs hd

/-- C13, at an interface holding an invalid `sql.NullInt64` mapped through a
pointer to a `float32`: the tracked kind and the replaced value disagree. -/
theorem mapField_never_panics_witness :
    ∃ r, mapField refArch (.ifaceOf (.nullInt64 0 false)) (.ptrTo (.float .float32 none 0))
        = some r ∧ r.Shaped = true ∧ r.type = (Val.ptrTo (.float .float32 none 0)).type :=
  mapField_never_panics refArch (.ifaceOf (.nullInt64 0 false))
    (.ptrTo (.float .float32 none 0)) (by decide) (by decide)

/-- A nil pointer source leaves a slot as it was when its pointer type is not
assignable to the type of the slot. -/
theorem mapValue_nilPtr_keeps (a : Arch) (t : GoType) (slot : Val)
    (h : (GoType.ptr t).AssignableTo slot.type = false) :
    mapValue a (.nilPtr t) slot = some slot := by
  by_cases hk : slot.kind = .String
  · simp [mapValue, interfaceStage, unwrapNull, toStringStage, Val.Interface, Val.IsValid,
      Val.IsNil, isIntKind, isUintKind, isFloatKind, hk]
  · simp [mapValue, interfaceStage, unwrapNull, stringStage, numericStage, Val.Interface,
      Val.IsValid, Val.IsNil, isIntKind, isUintKind, isFloatKind, hk, Val.type, h]

/-- C12, refuted: a nil `*int` source mapped into a nil `interface{}`
destination is assigned: the destination then holds the typed nil pointer. -/
theorem mapField_nil_pointer_assigned :
    mapField refArch (.nilPtr (.prim .int none)) .nilIface
        = some (.ifaceOf (.nilPtr (.prim .int none))) ∧
      Val.ifaceOf (.nilPtr (.prim .int none)) ≠ Val.nilIface := by
  decide

/-- C12, amended: a nil pointer source of type `*T` leaves the destination as
it was whenever `*T` is not assignable to the type of the slot written (the
destination, or what a non-nil destination pointer points to), and also when
the destination is itself a nil pointer of type `*T`. -/
theorem mapField_nil_pointer_keeps (a : Arch) (t : GoType) (dst : Val)
    (h : (GoType.ptr t).AssignableTo dst.slot.type = false ∨ dst = .nilPtr t) :
    mapField a (.nilPtr t) dst = some dst := by
  have hd : derefSource (.nilPtr t) = some (.nilPtr t) := by simp [derefSource, Val.IsNil]
  rcases h with h | h
  · unfold mapField
    rw [hd]
    cases dst with
    | ptrTo target =>
      simp only [Val.slot] at h
      simp [mapValue_nilPtr_keeps a t target h]
    | _ =>
      simp only [Val.slot] at h
      simp [mapValue_nilPtr_keeps a t _ h]
  · subst h
    simp [mapField, hd, mapValue, interfaceStage, unwrapNull, stringStage, numericStage,
      Val.Interface, Val.IsValid, Val.IsNil, isIntKind, isUintKind, isFloatKind, Val.type,
      GoType.AssignableTo, Val.Set]

/-- C12, amended, at a nil `*int` source and a `string` destination holding
`"x"`, and at a nil `*int` destination. -/
theorem mapField_nil_pointer_keeps_witness :
    mapField refArch (.nilPtr (.prim .int none)) (.str none "x") = some (.str none "x") ∧
    mapField refArch (.nilPtr (.prim .int none)) (.nilPtr (.prim .int none))
      = some (.nilPtr (.prim .int none)) :=
  ⟨mapField_nil_pointer_keeps refArch (.prim .int none) (.str none "x") (Or.inl (by decide)),
   mapField_nil_pointer_keeps refArch (.prim .int none) (.nilPtr (.prim .int none))
     (Or.inr rfl)⟩

/-- C14, refuted: an `int32` source holding 5 mapped into an `int64`
destination holding 0 leaves it at 0. -/
theorem mapField_int32_into_int64_keeps :
    mapField refArch (.int .int32 none 5) (.int .int64 none 0) = some (.int .int64 none 0) ∧
      Val.int .int64 none 0 ≠ Val.int .int64 none 5 := by
  decide

/-- C14, amended: a signed integer source is copied into a signed integer
destination when the two have the identical type; into a destination of
another signed integer type, such as another width, nothing is converted and
the destination is left as it was. -/
theorem mapField_signed_into_signed (a : Arch) (p q : Prim) (n dn : Option String)
    (i old : Int) (hp : isIntKind p.kind = true) (hq : isIntKind q.kind = true) :
    mapField a (.int p n i) (.int q dn old) =
      some (if p = q ∧ n = dn then .int p n i else .int q dn old) := by
  obtain ⟨_, h2, h3, h4, h5, _⟩ := isIntKind_excl hp
  obtain ⟨_, g2, g3, _, _, _⟩ := isIntKind_excl hq
  by_cases he : p = q ∧ n = dn
  · obtain ⟨rfl, rfl⟩ := he
    simp [mapField, derefSource, mapValue, interfaceStage, unwrapNull, stringStage,
      numericStage, Val.Interface, Val.IsValid, Val.type, GoType.AssignableTo, Val.Set,
      h2, h3, h4, h5]
  · have hne : ¬ (GoType.prim p n = GoType.prim q dn) := by
      intro h; injection h with e1 e2; exact he ⟨e1, e2⟩
    simp [mapField, derefSource, mapValue, interfaceStage, unwrapNull, stringStage,
      numericStage, Val.Interface, Val.IsValid, Val.type, GoType.AssignableTo,
      h2, h3, h4, h5, g2, g3, hne, he]

/-- C14, amended, at `int32` into `int64` (kept) and `int32` into `int32`
(copied). -/
theorem mapField_signed_into_signed_witness :
    mapField refArch (.int .int32 none 5) (.int .int64 none 0) = some (.int .int64 none 0) ∧
    mapField refArch (.int .int32 none 5) (.int .int32 none 0) = some (.int .int32 none 5) :=
  ⟨(mapField_signed_into_signed refArch .int32 .int64 none none 5 0 rfl rfl).trans
      (by decide),
   (mapField_signed_into_signed refArch .int32 .int32 none none 5 0 rfl rfl).trans
      (by decide)⟩

/-- C15, refuted: an interface holding the `int` 5 mapped into a `float64`
destination holding 0 leaves it at 0, while the `int` 5 itself sets it to 5.0;
an interface holding the text `"42"` leaves an `int` destination at 0, while
the text itself sets it to 42. -/
theorem mapField_interface_not_transparent :
    mapField refArch (.ifaceOf (.int .int none 5)) (.float .float64 none 0)
        = some (.float .float64 none 0) ∧
    mapField refArch (.int .int none 5) (.float .float64 none 0)
        = some (.float .float64 none 0x4014000000000000) ∧
    mapField refArch (.ifaceOf (.str none "42")) (.int .int none 0) = some (.int .int none 0) ∧
    mapField refArch (.str none "42") (.int .int none 0) = some (.int .int none 42) := by
  decide

/-- C15, amended: a non-nil interface source holding a value of basic type (a
boolean, an integer, a float or a text) is mapped like the held value itself
when the slot written is textual, of the type of the held value or of
interface type; into any other slot nothing is assigned and the destination
is left as it was. -/
theorem mapField_interface_basic (a : Arch) (v dst : Val) (hb : v.isBasic = true)
    (hv : v.Shaped = true) (hd : dst.Shaped = true) :
    mapField a (.ifaceOf v) dst =
      if transparentFor v dst.slot = true then mapField a v dst else some dst := by
  obtain ⟨hki, hkp, -, -, -⟩ := Val.isBasic_facts hb
  have h1 : derefSource (.ifaceOf v) = some (.ifaceOf v) := by simp [derefSource]
  have h2 : derefSource v = some v := by simp [derefSource, hkp]
  unfold mapField
  rw [h1, h2]
  cases dst with
  | ptrTo target =>
    simp only [Val.Shaped] at hd
    simp only [Val.slot, mapValue_iface_basic a v target hb hv hd]
    split_ifs <;> simp
  | _ =>
    simp only [Val.slot, mapValue_iface_basic a v _ hb hv hd]

/-- C15, amended, at an interface holding the `int` 5: a `string` destination
receives `"5"` as from the `int` itself, a `float64` destination is kept. -/
theorem mapField_interface_basic_witness :
    mapField refArch (.ifaceOf (.int .int none 5)) (.str none "")
        = mapField refArch (.int .int none 5) (.str none "") ∧
    mapField refArch (.ifaceOf (.int .int none 5)) (.float .float64 none 0)
        = some (.float .float64 none 0) :=
  ⟨(mapField_interface_basic refArch (.int .int none 5) (.str none "") rfl rfl rfl).trans
      (by decide),
   (mapField_interface_basic refArch (.int .int none 5) (.float .float64 none 0)
      rfl rfl rfl).trans (by decide)⟩

/-- C18: an integer of a signed or unsigned width mapped into a text
destination, and that text mapped into an integer destination of the same
kind, sets the latter to the integer, the minimum and the maximum of the width
included. -/
theorem mapField_integer_text_integer (a : Arch) (src d2 : Val) (dn : Option String)
    (old : String) (hwf : src.WF a = true)
    (hk : isIntKind src.kind = true ∨ isUintKind src.kind = true)
    (hd : d2.Shaped = true) (hty : d2.kind = src.kind) :
    ∃ r, mapField a src (.str dn old) = some (.str dn r) ∧
      mapField a (.str dn r) d2 = some (d2.withInt src.intValue) := by
  rcases hk with hk | hk
  · obtain ⟨p, n, i, rfl⟩ := Val.int_of_kind hwf hk
    simp only [kind_int] at hk hty
    obtain ⟨q, m, j, rfl, -⟩ := Val.int_of_shaped hd (by rw [hty]; exact hk)
    simp only [kind_int] at hty
    have hq := Prim.kind_injective hty
    subst hq
    simp only [Val.WF, Bool.and_eq_true] at hwf
    obtain ⟨w, hw⟩ := Prim.bits_some a (Or.inl hwf.1)
    obtain ⟨h8, h64⟩ := Prim.bits_range hw
    have hfit : fitsInt w i = true := by simpa [hw] using hwf.2
    refine ⟨FormatInt i, mapField_int_str a q n dn i old hk, ?_⟩
    rw [mapField_str_int a dn m (FormatInt i) q j w hk hw,
      ParseInt_FormatInt i w (by omega) h64 hfit]
    simp [Val.withInt, Val.intValue, wrapInt_of_fits (by omega : 1 ≤ w) hfit]
  · obtain ⟨p, n, x, rfl⟩ := Val.uint_of_kind hwf hk
    simp only [kind_uint] at hk hty
    obtain ⟨q, m, j, rfl, -⟩ := Val.uint_of_shaped hd (by rw [hty]; exact hk)
    simp only [kind_uint] at hty
    have hq := Prim.kind_injective hty
    subst hq
    simp only [Val.WF, Bool.and_eq_true] at hwf
    obtain ⟨w, hw⟩ := Prim.bits_some a (Or.inr (Or.inl hwf.1))
    obtain ⟨h8, h64⟩ := Prim.bits_range hw
    have hfit : fitsUint w x = true := by simpa [hw] using hwf.2
    refine ⟨FormatUint x, mapField_uint_str a q n dn x old hk, ?_⟩
    rw [mapField_str_uint a dn m (FormatUint x) q j w hk hw,
      ParseUint_FormatUint x w h64 hfit]
    simp only [fitsUint, decide_eq_true_eq] at hfit
    simp [Val.withInt, Val.intValue, wrapUint, Nat.mod_eq_of_lt hfit]

/-- C18, at the minimum of `int8`, the maximum of `int64` and the maximum of
`uint64`. -/
theorem mapField_integer_text_integer_witness :
    (∃ r, mapField refArch (.int .int8 none (-128)) (.str none "") = some (.str none r) ∧
      mapField refArch (.str none r) (.int .int8 none 0) = some (.int .int8 none (-128))) ∧
    (∃ r, mapField refArch (.int .int64 none 9223372036854775807) (.str none "")
        = some (.str none r) ∧
      mapField refArch (.str none r) (.int .int64 none 0)
        = some (.int .int64 none 9223372036854775807)) ∧
    (∃ r, mapField refArch (.uint .uint64 none 18446744073709551615) (.str none "")
        = some (.str none r) ∧
      mapField refArch (.str none r) (.uint .uint64 none 0)
        = some (.uint .uint64 none 18446744073709551615)) :=
  ⟨mapField_integer_text_integer refArch (.int .int8 none (-128)) (.int .int8 none 0) none ""
      (by decide) (Or.inl rfl) rfl rfl,
   mapField_integer_text_integer refArch (.int .int64 none 9223372036854775807)
      (.int .int64 none 0) none "" (by decide) (Or.inl rfl) rfl rfl,
   mapField_integer_text_integer refArch (.uint .uint64 none 18446744073709551615)
      (.uint .uint64 none 0) none "" (by decide) (Or.inr rfl) rfl rfl⟩

/-- C11, refuted: the text `"007"` maps into an `int` destination as 7, and 7
maps into a fresh text destination as `"7"`, which is not `"007"` with its
commas and surrounding white space removed; likewise `"+5"` comes back as
`"5"`. -/
theorem mapField_text_roundtrip_not_verbatim :
    mapField refArch (.str none "007") (.int .int none 0) = some (.int .int none 7) ∧
    mapField refArch (.int .int none 7) (.str none "") = some (.str none "7") ∧
    cleanText "007" ≠ "7" ∧
    mapField refArch (.str none "+5") (.int .int none 0) = some (.int .int none 5) ∧
    mapField refArch (.int .int none 5) (.str none "") = some (.str none "5") ∧
    cleanText "+5" ≠ "5" := by
  decide

/-- C11, amended: a text whose cleaned form (surrounding white space trimmed,
commas removed) is the base-10 representation of an integer `v` that fits the
signed integer destination, without `+` sign and without leading zeros, maps
into the destination as `v`, and `v` maps into a fresh text destination as
that cleaned form. -/
theorem mapField_text_integer_text (a : Arch) (n dn tn : Option String) (s told : String)
    (p : Prim) (old v : Int) (w : Nat) (hk : isIntKind p.kind = true)
    (hw : p.bits a = some w) (hfit : fitsInt w v = true)
    (hcanon : isSignedDecimalOf (cleanText s) v = true) :
    mapField a (.str n s) (.int p dn old) = some (.int p dn v) ∧
      mapField a (.int p dn v) (.str tn told) = some (.str tn (cleanText s)) := by
  obtain ⟨h8, h64⟩ := Prim.bits_range hw
  constructor
  · rw [mapField_str_int a n dn s p old w hk hw, ParseInt_eq _ w (by omega) h64,
      specIntLiteral_of_canonical hcanon]
    simp [inIntRange, hfit, wrapInt_of_fits (by omega : 1 ≤ w) hfit]
  · rw [mapField_int_str a p dn tn v told hk, isSignedDecimalOf_unique hcanon]

/-- C11, amended, at `" -1,234 "` into an `int`: -1234, then `"-1234"`. -/
theorem mapField_text_integer_text_witness :
    mapField refArch (.str none " -1,234 ") (.int .int none 0) = some (.int .int none (-1234)) ∧
      mapField refArch (.int .int none (-1234)) (.str none "")
        = some (.str none (cleanText " -1,234 ")) :=
  mapField_text_integer_text refArch none none none " -1,234 " "" .int 0 (-1234) 64 rfl rfl
    (by decide) (by decide)

/-! ### Two calls, and two orders, on structs that share nothing -/

/-- Mapping a source struct into a destination struct that shares nothing with
it, and then mapping it into the result again, leaves the result as it is,
when no nil `*interface{}` field is assigned. -/
theorem mapStructFields_twice (a : Arch) (fromVal toVal : Record)
    (hs : ∀ f ∈ fromVal, f.value.Shaped = true) (ht : ∀ f ∈ toVal, f.value.Shaped = true)
    (hni : NilKept a fromVal toVal) :
    ∃ out, mapStructFields a fromVal toVal = some out ∧
      mapStructFields a fromVal out = some out := by
  obtain ⟨out, ho, -, -⟩ := mapStructLoop_returns a fromVal hs fromVal toVal ht
  refine ⟨out, ho, ?_⟩
  exact mapStructLoop_of_fixed a fromVal fromVal out
    (mapStructLoop_fixed a fromVal hs fromVal toVal out ht hni ho).2

/-- Two source structs that declare the same fields, of distinct names and
with the same values, in different orders are mapped alike into every
destination struct that shares nothing with them. -/
theorem mapStructFields_perm (a : Arch) (from1 from2 toVal : Record)
    (hperm : from1.Perm from2) (hnames : (from1.map Field.name).Nodup) :
    mapStructFields a from1 toVal = mapStructFields a from2 toVal := by
  have hnames2 := (List.Perm.nodup_iff (List.Perm.map Field.name hperm)).mp hnames
  unfold mapStructFields
  rw [mapStructLoop_perm a from1 hperm hnames toVal]
  refine mapStructLoop_source a from1 from2 from2 toVal (fun f hf => ?_)
  rw [FieldByName_of_mem from1 f (hperm.mem_iff.mpr hf) hnames,
    FieldByName_of_mem from2 f hf hnames2]

/-! ### Structs in memory -/

/-- `resolve` on known structs: a declared field hides a promoted one, a field
promoted by two embedded structs is not found, a field promoted by one is
found and is settable also when the embedded struct is unexported, a nil
pointer to the embedded struct panics, and an embedded struct is found as a
whole under the name of its type. -/
theorem resolve_known :
    resolve [.plain (Slot.mk "ID" true 0), .embedded "Inner" true .value [Slot.mk "ID" true 1]] "ID"
      = .slot (Slot.mk "ID" true 0) ∧
    resolve [.embedded "A" true .value [Slot.mk "ID" true 0],
        .embedded "B" true .value [Slot.mk "ID" true 1]] "ID" = .missing ∧
    resolve [.embedded "inner" false .pointer [Slot.mk "ID" true 0]] "ID"
      = .slot (Slot.mk "ID" true 0) ∧
    resolve [.embedded "Inner" true .nilPointer [Slot.mk "ID" true 0]] "ID" = .panics ∧
    resolve [.embedded "Inner" true .nilPointer [Slot.mk "ID" true 0]] "Inner" = .whole true ∧
    resolve [.embedded "Inner" true .value [Slot.mk "ID" true 0]] "Name" = .missing := by
  decide

/-- An iteration that returns leaves the memory as it was, or writes a value
into the variable that is the target of the field found. -/
theorem memStep_some {a : Arch} {fromL : List Slot} {toL : List Entry} {n : String}
    {mem mem' : Memory} (h : memStep a fromL toL n mem = some mem') :
    mem' = mem ∨ ∃ s t r, resolve toL n = .slot s ∧ s.exported = true ∧
      mem[mem.target s]? = some (.own t) ∧ mem' = mem.set (mem.target s) (.own r) := by
  unfold memStep at h
  cases hf : fromL.find? (fun f => f.name == n) with
  | none => simp [hf] at h; exact Or.inl h.symm
  | some ff =>
    cases hr : resolve toL n with
    | missing => simp [hf, hr] at h; exact Or.inl h.symm
    | panics => simp [hf, hr] at h
    | whole ex =>
      simp only [hf, hr] at h
      split_ifs at h
      injection h with h; exact Or.inl h.symm
    | slot s =>
      simp only [hf, hr] at h
      by_cases he : s.exported = true
      · simp only [he, if_true] at h
        cases hfc : mem[ff.addr]? with
        | none => simp [hfc] at h
        | some fc =>
          cases htc : mem[s.addr]? with
          | none => simp [hfc, htc] at h
          | some tc =>
            simp only [hfc, htc] at h
            cases hv : mem.view fc with
            | none => simp [hv] at h
            | some src =>
              simp only [hv] at h
              cases tc with
              | own d =>
                simp only [Option.map_eq_some'] at h
                obtain ⟨r, -, rfl⟩ := h
                right
                have ht : mem.target s = s.addr := by simp [Memory.target, htc]
                exact ⟨s, d, r, rfl, he, by rw [ht]; exact htc, by rw [ht]⟩
              | ref j =>
                simp only at h
                have ht : mem.target s = j := by simp [Memory.target, htc]
                cases hj : mem[j]? with
                | none => simp [hj] at h
                | some c =>
                  cases c with
                  | ref k => simp [hj] at h
                  | own t =>
                    simp only [hj, Option.bind_eq_some, Option.map_eq_some'] at h
                    obtain ⟨s1, -, r, -, rfl⟩ := h
                    right
                    exact ⟨s, t, r, rfl, he, by rw [ht]; exact hj, by rw [ht]⟩
      · simp only [he, if_false] at h
        injection h with h; exact Or.inl h.symm


/-- The target of a field does not depend on the values the variables hold. -/
theorem Memory.target_congr {mem mem' : Memory} (s : Slot)
    (h : ∀ (i j : Nat), mem'[i]? = some (Cell.ref j) ↔ mem[i]? = some (Cell.ref j)) :
    mem'.target s = mem.target s := by
  unfold Memory.target
  cases h1 : mem[s.addr]? with
  | none =>
    cases h2 : mem'[s.addr]? with
    | none => rfl
    | some c =>
      cases c with
      | own v => rfl
      | ref j => rw [(h s.addr j).mp h2] at h1; cases h1
  | some c =>
    cases c with
    | ref j => rw [(h s.addr j).mpr h1]
    | own v =>
      cases h2 : mem'[s.addr]? with
      | none => rfl
      | some c' =>
        cases c' with
        | own v' => rfl
        | ref j => rw [(h s.addr j).mp h2] at h1; cases h1

/-- An iteration that returns keeps the size of the memory and the pointers to
variables, and changes no variable but the target of the field found. -/
theorem memStep_frame {a : Arch} {fromL : List Slot} {toL : List Entry} {n : String}
    {mem mem' : Memory} (h : memStep a fromL toL n mem = some mem') :
    mem'.length = mem.length ∧
    (∀ (i j : Nat), mem'[i]? = some (Cell.ref j) ↔ mem[i]? = some (Cell.ref j)) ∧
    (∀ i : Nat, (∀ s, resolve toL n = .slot s → s.exported = true → i ≠ mem.target s) →
      mem'[i]? = mem[i]?) := by
  rcases memStep_some h with rfl | ⟨s, t, r, hr, he, ht, rfl⟩
  · exact ⟨rfl, fun _ _ => Iff.rfl, fun _ _ => rfl⟩
  · refine ⟨List.length_set _ _ _, fun i j => ?_, fun i hi => ?_⟩
    · by_cases hij : mem.target s = i
      · subst hij
        rw [ht]
        have hlt : mem.target s < mem.length := by
          by_contra hge
          rw [List.getElem?_eq_none (not_lt.mp hge)] at ht
          cases ht
        rw [List.getElem?_set_self hlt]
        simp
      · rw [List.getElem?_set_ne hij]
    · have := hi s hr he
      rw [List.getElem?_set_ne (Ne.symm this)]

/-- The loop changes no variable but the targets of the fields found under the
names of the source fields it visits. -/
theorem memLoop_frame (a : Arch) (fromL : List Slot) (toL : List Entry) :
    ∀ (todo : List Slot) (mem mem' : Memory), memLoop a fromL toL todo mem = some mem' →
      mem'.length = mem.length ∧
      (∀ (i j : Nat), mem'[i]? = some (Cell.ref j) ↔ mem[i]? = some (Cell.ref j)) ∧
      (∀ i : Nat, i ∉ written mem todo toL → mem'[i]? = mem[i]?)
  | [], mem, mem', h => by
    simp only [memLoop, Option.some.injEq] at h
    subst h
    exact ⟨rfl, fun _ _ => Iff.rfl, fun _ _ => rfl⟩
  | f :: todo, mem, mem', h => by
    simp only [memLoop, Option.bind_eq_some] at h
    obtain ⟨m1, h1, h2⟩ := h
    obtain ⟨hl1, hr1, hf1⟩ := memStep_frame h1
    obtain ⟨hl2, hr2, hf2⟩ := memLoop_frame a fromL toL todo m1 mem' h2
    refine ⟨hl2.trans hl1, fun i j => (hr2 i j).trans (hr1 i j), fun i hi => ?_⟩
    have hw : written m1 todo toL = written mem todo toL := by
      unfold written
      congr 1
      funext g
      cases resolve toL g.name with
      | slot s => simp only [Memory.target_congr s hr1]
      | _ => rfl
    have hi1 : i ∉ written m1 todo toL := by
      rw [hw]
      intro hmem
      apply hi
      simp only [written, List.filterMap_cons]
      split
      · exact hmem
      · exact List.mem_cons_of_mem _ hmem
    rw [hf2 i hi1]
    apply hf1
    intro s hs he hit
    apply hi
    simp only [written, List.filterMap_cons, hs, he, if_true]
    rw [hit]
    exact List.mem_cons_self _ _


/-- On a covered memory an iteration for the name of a source field returns,
unless the name leads through a nil pointer to an embedded struct; the memory
stays covered. -/
theorem memStep_returns (a : Arch) (fromL fromL0 : List Slot) {toL : List Entry}
    {mem : Memory}
    (hc : Covered mem fromL0 toL) (hsub : ∀ f ∈ fromL, f ∈ fromL0) (n : String)
    (hn : ∃ f ∈ fromL0, f.name = n) (hnp : resolve toL n ≠ .panics) :
    ∃ mem', memStep a fromL toL n mem = some mem' ∧ Covered mem' fromL0 toL := by
  obtain ⟨hsh, hrf, hfa, hta, hwh⟩ := hc
  obtain ⟨f0, hf0, hf0n⟩ := hn
  have keep : ∀ mem', mem' = mem → Covered mem' fromL0 toL := by
    intro mem' e; subst e; exact ⟨hsh, hrf, hfa, hta, hwh⟩
  unfold memStep
  cases hf : fromL.find? (fun f => f.name == n) with
  | none => exact ⟨mem, by simp, keep _ rfl⟩
  | some ff =>
    have hffm : ff ∈ fromL0 := hsub ff (List.mem_of_find?_eq_some hf)
    cases hr : resolve toL n with
    | missing => exact ⟨mem, by simp, keep _ rfl⟩
    | panics => exact absurd hr hnp
    | whole ex =>
      have : ex = false := by
        cases ex
        · rfl
        · exact absurd (hf0n ▸ hr) (hwh f0 hf0)
      subst this
      exact ⟨mem, by simp, keep _ rfl⟩
    | slot s =>
      simp only
      by_cases he : s.exported = true
      · simp only [he, if_true]
        have hfl : ff.addr < mem.length := hfa ff hffm
        have hsl : s.addr < mem.length := hta f0 hf0 s (hf0n ▸ hr)
        rw [List.getElem?_eq_getElem hfl, List.getElem?_eq_getElem hsl]
        simp only
        have hfc : mem[ff.addr]? = some mem[ff.addr] := List.getElem?_eq_getElem hfl
        have htc : mem[s.addr]? = some mem[s.addr] := List.getElem?_eq_getElem hsl
        -- the source value
        have hsrc : ∃ src, mem.view mem[ff.addr] = some src ∧ src.Shaped = true := by
          cases hcell : mem[ff.addr] with
          | own v =>
            rw [hcell] at hfc
            exact ⟨v, rfl, hsh _ _ hfc⟩
          | ref j =>
            rw [hcell] at hfc
            obtain ⟨w, hw⟩ := hrf _ _ hfc
            exact ⟨.ptrTo w, by simp [Memory.view, hw], by simpa [Val.Shaped] using hsh _ _ hw⟩
        obtain ⟨src, hview, hsS⟩ := hsrc
        rw [hview]
        simp only
        have cover : ∀ (k : Nat) (t r : Val), mem[k]? = some (Cell.own t) → r.Shaped = true →
            Covered (mem.set k (.own r)) fromL0 toL := by
          intro k t r hk hrS
          have hkl : k < mem.length := by
            by_contra hge
            rw [List.getElem?_eq_none (not_lt.mp hge)] at hk
            cases hk
          refine ⟨fun i v hi => ?_, fun i j hi => ?_, fun f hf => ?_, fun f hf s' hs' => ?_, hwh⟩
          · by_cases hik : k = i
            · subst hik
              rw [List.getElem?_set_self hkl] at hi
              injection hi with hi
              injection hi with hi
              subst hi
              exact hrS
            · rw [List.getElem?_set_ne hik] at hi
              exact hsh _ _ hi
          · by_cases hik : k = i
            · subst hik
              rw [List.getElem?_set_self hkl] at hi
              injection hi with hi
              cases hi
            · rw [List.getElem?_set_ne hik] at hi
              obtain ⟨w, hw⟩ := hrf _ _ hi
              by_cases hjk : k = j
              · subst hjk
                exact ⟨r, List.getElem?_set_self hkl⟩
              · exact ⟨w, by rw [List.getElem?_set_ne hjk]; exact hw⟩
          · rw [List.length_set]; exact hfa f hf
          · rw [List.length_set]; exact hta f hf s' hs'
        cases hcell : mem[s.addr] with
        | own d =>
          rw [hcell] at htc
          simp only
          obtain ⟨r, hr', hrS, -⟩ := mapField_returns a hsS (hsh _ _ htc)
          exact ⟨_, by rw [hr']; rfl, cover _ d r htc hrS⟩
        | ref j =>
          rw [hcell] at htc
          obtain ⟨t, ht⟩ := hrf _ _ htc
          simp only [ht]
          obtain ⟨s1, hs1, hs1S⟩ := derefSource_shaped hsS
          obtain ⟨r, hr', hrS, -⟩ := mapValue_returns a hs1S (hsh _ _ ht)
          exact ⟨_, by rw [hs1, Option.some_bind, hr']; rfl, cover _ t r ht hrS⟩
      · simp only [he]
        exact ⟨mem, by simp, keep _ rfl⟩

/-- On a covered memory the loop returns, unless the name of a source field
leads through a nil pointer to an embedded struct. -/
theorem memLoop_returns (a : Arch) (fromL fromL0 : List Slot) (toL : List Entry)
    (hsub : ∀ f ∈ fromL, f ∈ fromL0) (hnp : ∀ f ∈ fromL0, resolve toL f.name ≠ .panics) :
    ∀ (todo : List Slot) (mem : Memory), (∀ f ∈ todo, f ∈ fromL0) → Covered mem fromL0 toL →
      ∃ mem', memLoop a fromL toL todo mem = some mem'
  | [], mem, _, _ => ⟨mem, rfl⟩
  | f :: todo, mem, ht, hc => by
    obtain ⟨m1, h1, hc1⟩ := memStep_returns a fromL fromL0 hc hsub f.name
      ⟨f, ht f (List.mem_cons_self _ _), rfl⟩ (hnp f (ht f (List.mem_cons_self _ _)))
    obtain ⟨m2, h2⟩ := memLoop_returns a fromL fromL0 toL hsub hnp todo m1
      (fun g hg => ht g (List.mem_cons_of_mem _ hg)) hc1
    exact ⟨m2, by simp only [memLoop, h1, Option.some_bind, h2]⟩

/-- The check `separate` establishes `Separate`. -/
theorem separate_sound {mem : Memory} {fromL toS : List Slot}
    (h : separate mem fromL toS = true) : Separate mem fromL toS := by
  simp only [separate, Bool.and_eq_true, List.all_eq_true, decide_eq_true_eq] at h
  obtain ⟨⟨h1, h2⟩, h3⟩ := h
  refine ⟨fun s hs => ?_, h2, fun f hf s hs => h3 f hf s hs⟩
  have := h1 s hs
  cases hc : mem[s.addr]? with
  | none => simp [hc] at this
  | some c =>
    cases c with
    | own v => exact ⟨v, rfl⟩
    | ref k => simp [hc] at this


/-- The field found by name in a loaded struct. -/
theorem FieldByName_loadRecord (mem : Memory) (l : List Slot) (n : String) :
    FieldByName (loadRecord mem l) n =
      (l.find? (fun s => s.name == n)).map
        (fun s => Field.mk s.name s.exported (mem.valueAt s.addr)) := by
  unfold FieldByName loadRecord
  rw [List.find?_map]
  rfl

/-- In a struct without embedded structs a name finds the first declared field
of that name, or nothing. -/
theorem resolve_plain (toS : List Slot) (n : String) :
    resolve (toS.map Entry.plain) n =
      match toS.find? (fun s => s.name == n) with
      | some s => .slot s
      | none => .missing := by
  have hp : promoted (toS.map Entry.plain) n = [] := by
    unfold promoted
    induction toS with
    | nil => rfl
    | cons g gs ih => simp [List.flatMap_cons, ih]
  unfold resolve
  rw [List.find?_map]
  have : ((fun e : Entry => e.name == n) ∘ Entry.plain) = (fun s : Slot => s.name == n) := rfl
  rw [this]
  cases toS.find? (fun s => s.name == n) with
  | none => simp [hp]
  | some s => rfl

/-- Writing a variable that is none of the fields leaves the loaded struct as
it was. -/
theorem loadRecord_set_notin (mem : Memory) (k : Nat) (c : Cell) :
    ∀ (l : List Slot), (∀ s ∈ l, s.addr ≠ k) → loadRecord (mem.set k c) l = loadRecord mem l
  | [], _ => rfl
  | g :: gs, h => by
    have hg : g.addr ≠ k := h g (List.mem_cons_self _ _)
    have ih := loadRecord_set_notin mem k c gs (fun s hs => h s (List.mem_cons_of_mem _ hs))
    simp only [loadRecord, List.map_cons] at ih ⊢
    rw [ih]
    simp [Memory.valueAt, List.getElem?_set_ne (Ne.symm hg)]

/-- Writing the variable of the first field called `n` replaces the content of
that field in the loaded struct. -/
theorem loadRecord_set_field (mem : Memory) (n : String) (r : Val) :
    ∀ (l : List Slot) (s : Slot), (l.map Slot.addr).Nodup →
      l.find? (fun s => s.name == n) = some s → s.addr < mem.length →
      loadRecord (mem.set s.addr (.own r)) l = setField (loadRecord mem l) n r
  | [], _, _, h, _ => by simp at h
  | g :: gs, s, hnd, h, hlt => by
    simp only [List.map_cons, List.nodup_cons] at hnd
    obtain ⟨hg, hnd'⟩ := hnd
    by_cases hgn : (g.name == n) = true
    · simp only [List.find?, hgn, Option.some.injEq] at h
      subst h
      have htail := loadRecord_set_notin mem g.addr (.own r) gs (fun s hs e => by
        apply hg
        rw [← e]
        exact List.mem_map_of_mem _ hs)
      simp only [loadRecord, List.map_cons] at htail ⊢
      rw [htail]
      simp [setField, hgn, Memory.valueAt, List.getElem?_set_self hlt]
    · simp only [Bool.not_eq_true] at hgn
      simp only [List.find?, hgn] at h
      have hs : s ∈ gs := List.mem_of_find?_eq_some h
      have hne : s.addr ≠ g.addr := by
        intro e
        apply hg
        rw [← e]
        exact List.mem_map_of_mem _ hs
      have ih := loadRecord_set_field mem n r gs s hnd' h hlt
      simp only [loadRecord, List.map_cons] at ih ⊢
      rw [ih]
      simp [setField, hgn, Memory.valueAt, List.getElem?_set_ne hne]


/-- With source and destination sharing nothing, and no embedded struct in the
destination, an iteration on the memory is the iteration on the loaded
structs; it leaves the source as it was and the structs still share nothing. -/
theorem memStep_flat (a : Arch) (fromL toS : List Slot) (n : String) (mem : Memory)
    (hsep : Separate mem fromL toS) :
    (memStep a fromL (toS.map Entry.plain) n mem).map (fun m => loadRecord m toS)
        = mapStructStep a (loadRecord mem fromL) n (loadRecord mem toS) ∧
    ∀ mem', memStep a fromL (toS.map Entry.plain) n mem = some mem' →
      Separate mem' fromL toS ∧ loadRecord mem' fromL = loadRecord mem fromL := by
  obtain ⟨hown, hnd, hdis⟩ := hsep
  have keep : Separate mem fromL toS := ⟨hown, hnd, hdis⟩
  unfold memStep mapStructStep fieldUpdate
  rw [resolve_plain, FieldByName_loadRecord, FieldByName_loadRecord]
  cases hf : fromL.find? (fun s => s.name == n) with
  | none =>
    cases toS.find? (fun s => s.name == n) <;>
      exact ⟨by simp [applyUpdate], fun mem' h => by
        simp only [Option.some.injEq] at h; subst h; exact ⟨keep, rfl⟩⟩
  | some ff =>
    have hffm : ff ∈ fromL := List.mem_of_find?_eq_some hf
    cases ht : toS.find? (fun s => s.name == n) with
    | none =>
      exact ⟨by simp [applyUpdate], fun mem' h => by
        simp only [Option.some.injEq] at h; subst h; exact ⟨keep, rfl⟩⟩
    | some s =>
      have hsm : s ∈ toS := List.mem_of_find?_eq_some ht
      simp only [Option.map_some']
      by_cases he : s.exported = true
      · simp only [he, if_true]
        obtain ⟨fv, hfv⟩ := hown ff (List.mem_append_left _ hffm)
        obtain ⟨d, hd⟩ := hown s (List.mem_append_right _ hsm)
        have hlt : s.addr < mem.length := by
          by_contra hge
          rw [List.getElem?_eq_none (not_lt.mp hge)] at hd
          cases hd
        simp only [hfv, hd, Memory.view, Memory.valueAt]
        cases hm : mapField a fv d with
        | none => exact ⟨by simp, fun mem' h => by simp at h⟩
        | some r =>
          refine ⟨by simp [applyUpdate, loadRecord_set_field mem n r toS s hnd ht hlt],
            fun mem' h => ?_⟩
          simp only [Option.map_some', Option.some.injEq] at h
          subst h
          refine ⟨⟨fun x hx => ?_, hnd, hdis⟩, ?_⟩
          · by_cases hxs : s.addr = x.addr
            · exact ⟨r, by rw [← hxs, List.getElem?_set_self hlt]⟩
            · obtain ⟨v, hv⟩ := hown x hx
              exact ⟨v, by rw [List.getElem?_set_ne hxs]; exact hv⟩
          · exact loadRecord_set_notin mem s.addr (.own r) fromL (fun f hf' => hdis f hf' s hsm)
      · simp only [he]
        exact ⟨by simp [applyUpdate], fun mem' h => by
          simp only [Bool.false_eq_true, if_false, Option.some.injEq] at h
          subst h; exact ⟨keep, rfl⟩⟩

/-- The loop of `mapStructFields` reads the names of the fields it visits
only. -/
theorem mapStructLoop_names (a : Arch) (fromVal : Record) :
    ∀ (l1 l2 : List Field) (t : Record), l1.map Field.name = l2.map Field.name →
      mapStructLoop a fromVal l1 t = mapStructLoop a fromVal l2 t
  | [], [], _, _ => rfl
  | [], _ :: _, _, h => by simp at h
  | _ :: _, [], _, h => by simp at h
  | f :: l1, g :: l2, t, h => by
    simp only [List.map_cons, List.cons.injEq] at h
    rw [mapStructLoop_cons, mapStructLoop_cons, h.1]
    cases mapStructStep a fromVal g.name t with
    | none => rfl
    | some t1 => exact mapStructLoop_names a fromVal l1 l2 t1 h.2

/-- With source and destination sharing nothing, and no embedded struct in the
destination, the loop on the memory is the loop on the loaded structs. -/
theorem memLoop_flat (a : Arch) (fromL toS : List Slot) :
    ∀ (todo : List Slot) (mem : Memory), Separate mem fromL toS →
      (memLoop a fromL (toS.map Entry.plain) todo mem).map (fun m => loadRecord m toS)
          = mapStructLoop a (loadRecord mem fromL) (loadRecord mem todo) (loadRecord mem toS) ∧
      ∀ mem', memLoop a fromL (toS.map Entry.plain) todo mem = some mem' →
        Separate mem' fromL toS ∧ loadRecord mem' fromL = loadRecord mem fromL
  | [], mem, hsep => ⟨rfl, fun mem' h => by
      simp only [memLoop, Option.some.injEq] at h; subst h; exact ⟨hsep, rfl⟩⟩
  | f :: todo, mem, hsep => by
    obtain ⟨hstep, hkeep⟩ := memStep_flat a fromL toS f.name mem hsep
    have hcons : loadRecord mem (f :: todo)
        = Field.mk f.name f.exported (mem.valueAt f.addr) :: loadRecord mem todo := rfl
    rw [hcons, mapStructLoop_cons]
    simp only [memLoop]
    cases h1 : memStep a fromL (toS.map Entry.plain) f.name mem with
    | none =>
      rw [h1] at hstep
      simp only [Option.map_none'] at hstep
      rw [← hstep]
      exact ⟨rfl, fun mem' h => by simp at h⟩
    | some m1 =>
      rw [h1] at hstep
      simp only [Option.map_some'] at hstep
      obtain ⟨hsep1, hsrc1⟩ := hkeep m1 h1
      obtain ⟨ih1, ih2⟩ := memLoop_flat a fromL toS todo m1 hsep1
      rw [← hstep]
      simp only [Option.some_bind]
      refine ⟨?_, fun mem' h => ?_⟩
      · rw [ih1, hsrc1]
        exact mapStructLoop_names a _ _ _ _ (by simp [loadRecord])
      · obtain ⟨h3, h4⟩ := ih2 mem' h
        exact ⟨h3, h4.trans hsrc1⟩

/-- The call on the memory is the call on the loaded structs, when source and
destination share nothing and the destination has no embedded struct. -/
theorem mapStructFieldsMem_flat (a : Arch) (mem : Memory) (fromL toS : List Slot)
    (hsep : Separate mem fromL toS) :
    (mapStructFieldsMem a mem fromL (toS.map Entry.plain)).map (fun m => loadRecord m toS)
      = mapStructFields a (loadRecord mem fromL) (loadRecord mem toS) :=
  (memLoop_flat a fromL toS fromL mem hsep).1

/-- An iteration depends on the destination struct through what the name
finds in it. -/
theorem memStep_congr (a : Arch) (fromL : List Slot) {toL1 toL2 : List Entry} {n : String}
    (h : resolve toL1 n = resolve toL2 n) (mem : Memory) :
    memStep a fromL toL1 n mem = memStep a fromL toL2 n mem := by
  unfold memStep
  rw [h]

/-- The loop depends on the destination struct through what the names of the
source fields it visits find in it. -/
theorem memLoop_congr (a : Arch) (fromL : List Slot) {toL1 toL2 : List Entry} :
    ∀ (todo : List Slot) (mem : Memory),
      (∀ f ∈ todo, resolve toL1 f.name = resolve toL2 f.name) →
      memLoop a fromL toL1 todo mem = memLoop a fromL toL2 todo mem
  | [], _, _ => rfl
  | f :: todo, mem, h => by
    simp only [memLoop]
    rw [memStep_congr a fromL (h f (List.mem_cons_self _ _))]
    cases memStep a fromL toL2 f.name mem with
    | none => rfl
    | some m1 =>
      exact memLoop_congr a fromL todo m1 (fun g hg => h g (List.mem_cons_of_mem _ hg))

/-- Two memories of the same size that agree outside the fields `toS`, and in
which these fields hold values of their own that load alike, are equal. -/
theorem Memory.eq_of_load {m1 m2 : Memory} {toS : List Slot}
    (ho1 : ∀ s ∈ toS, ∃ v, m1[s.addr]? = some (Cell.own v))
    (ho2 : ∀ s ∈ toS, ∃ v, m2[s.addr]? = some (Cell.own v))
    (hload : loadRecord m1 toS = loadRecord m2 toS)
    (hrest : ∀ i : Nat, i ∉ toS.map Slot.addr → m1[i]? = m2[i]?) : m1 = m2 := by
  apply List.ext_getElem?
  intro i
  by_cases hi : i ∈ toS.map Slot.addr
  · obtain ⟨s, hs, rfl⟩ := List.mem_map.mp hi
    obtain ⟨v1, h1⟩ := ho1 s hs
    obtain ⟨v2, h2⟩ := ho2 s hs
    have := (List.map_inj_left.mp hload) s hs
    simp only [Field.mk.injEq, true_and, Memory.valueAt, h1, h2] at this
    rw [h1, h2, this]
  · exact hrest i hi

/-- With source and destination sharing nothing, the variables the call may
write are fields of the destination. -/
theorem written_subset {mem : Memory} {fromL toS : List Slot} {toL : List Entry}
    (todo : List Slot)
    (hres : ∀ f ∈ todo, resolve toL f.name = resolve (toS.map Entry.plain) f.name)
    (hsep : Separate mem fromL toS) :
    ∀ i ∈ written mem todo toL, i ∈ toS.map Slot.addr := by
  intro i hi
  simp only [written, List.mem_filterMap] at hi
  obtain ⟨f, hf, hfi⟩ := hi
  rw [hres f hf, resolve_plain] at hfi
  cases hfind : toS.find? (fun s => s.name == f.name) with
  | none => simp [hfind] at hfi
  | some s =>
    simp only [hfind] at hfi
    split_ifs at hfi
    injection hfi with hfi
    have hs : s ∈ toS := List.mem_of_find?_eq_some hfind
    obtain ⟨v, hv⟩ := hsep.1 s (List.mem_append_right _ hs)
    have : mem.target s = s.addr := by simp [Memory.target, hv]
    rw [this] at hfi
    rw [← hfi]
    exact List.mem_map_of_mem _ hs

/-- The call on the memory, for a destination in which the names of the source
fields find the variables `toS` that share nothing with the source: it is the
call on the loaded structs, and what it returns is determined by the
destination struct loaded from it. -/
theorem mapStructFieldsMem_load (a : Arch) (mem : Memory) (fromL toS : List Slot)
    (toL : List Entry)
    (hres : ∀ f ∈ fromL, resolve toL f.name = resolve (toS.map Entry.plain) f.name)
    (hsep : Separate mem fromL toS) :
    (mapStructFieldsMem a mem fromL toL).map (fun m => loadRecord m toS)
        = mapStructFields a (loadRecord mem fromL) (loadRecord mem toS) ∧
    ∀ m1, mapStructFieldsMem a mem fromL toL = some m1 →
      Separate m1 fromL toS ∧ loadRecord m1 fromL = loadRecord mem fromL ∧
      m1.length = mem.length ∧ ∀ i : Nat, i ∉ toS.map Slot.addr → m1[i]? = mem[i]? := by
  have hc : mapStructFieldsMem a mem fromL toL
      = mapStructFieldsMem a mem fromL (toS.map Entry.plain) :=
    memLoop_congr a fromL fromL mem hres
  refine ⟨by rw [hc]; exact mapStructFieldsMem_flat a mem fromL toS hsep, fun m1 h1 => ?_⟩
  obtain ⟨hl, -, hfr⟩ := memLoop_frame a fromL toL fromL mem m1 h1
  rw [hc] at h1
  obtain ⟨hs1, hsrc⟩ := (memLoop_flat a fromL toS fromL mem hsep).2 m1 h1
  exact ⟨hs1, hsrc, hl, fun i hi => hfr i (fun hw => hi (written_subset fromL hres hsep i hw))⟩

/-! ## The claims on structs in memory -/

/-- C17 (counterexample): two sources that declare the same fields with the
same values, `A` pointing to the field `B` of the destination and `B` holding
`"5"`, one as `A`, `B` and the other as `B`, `A`, mapped into the destination
`struct{A int; B int}{1, 2}`: the first gives `{2, 5}`, the second `{5, 5}`. -/
theorem mapStructFieldsMem_order_matters :
    covered memShared fromAB toAB = true ∧ covered memShared fromBA toAB = true ∧
    memShared[0]? = memShared[5]? ∧ memShared[1]? = memShared[4]? ∧
    mapStructFieldsMem refArch memShared fromAB toAB = some memSharedOnce ∧
    mapStructFieldsMem refArch memShared fromBA toAB = some memSharedTwice ∧
    memSharedOnce ≠ memSharedTwice := by
  decide

/-- C17 (amended): two source structs that declare the same fields, of
distinct names and with the same values, in different orders are mapped alike
into a destination in which the names of the source fields find variables
`toS` that share nothing with either source: the memory after the call is the
same, and the call panics for both or for none. -/
theorem mapStructFieldsMem_order_irrelevant (a : Arch) (mem : Memory)
    (from1 from2 toS : List Slot) (toL : List Entry)
    (hperm : (loadRecord mem from1).Perm (loadRecord mem from2))
    (hnames : (from1.map Slot.name).Nodup)
    (hres1 : ∀ f ∈ from1, resolve toL f.name = resolve (toS.map Entry.plain) f.name)
    (hres2 : ∀ f ∈ from2, resolve toL f.name = resolve (toS.map Entry.plain) f.name)
    (hsep1 : Separate mem from1 toS) (hsep2 : Separate mem from2 toS) :
    mapStructFieldsMem a mem from1 toL = mapStructFieldsMem a mem from2 toL := by
  obtain ⟨b1, k1⟩ := mapStructFieldsMem_load a mem from1 toS toL hres1 hsep1
  obtain ⟨b2, k2⟩ := mapStructFieldsMem_load a mem from2 toS toL hres2 hsep2
  have hflat : mapStructFields a (loadRecord mem from1) (loadRecord mem toS)
      = mapStructFields a (loadRecord mem from2) (loadRecord mem toS) := by
    apply mapStructFields_perm _ _ _ _ hperm
    simpa [loadRecord, Function.comp] using hnames
  rw [hflat, ← b2] at b1
  cases h1 : mapStructFieldsMem a mem from1 toL with
  | none =>
    cases h2 : mapStructFieldsMem a mem from2 toL with
    | none => rfl
    | some m2 => simp [h1, h2] at b1
  | some m1 =>
    cases h2 : mapStructFieldsMem a mem from2 toL with
    | none => simp [h1, h2] at b1
    | some m2 =>
      simp only [h1, h2, Option.map_some', Option.some.injEq] at b1
      obtain ⟨s1, -, -, r1⟩ := k1 m1 h1
      obtain ⟨s2, -, -, r2⟩ := k2 m2 h2
      congr 1
      exact Memory.eq_of_load
        (fun s hs => s1.1 s (List.mem_append_right _ hs))
        (fun s hs => s2.1 s (List.mem_append_right _ hs)) b1
        (fun i hi => (r1 i hi).trans (r2 i hi).symm)

/-- The amended C17, at `From{ID: "1234", Balance: 123.345}`, a second source
with the same fields declared as `Balance`, `ID`, and the destination
`struct{Base; Balance string}` that embeds `struct{ID int}`. -/
theorem mapStructFieldsMem_order_irrelevant_witness :
    mapStructFieldsMem refArch memFromTo fromSlots toEmbedded
      = mapStructFieldsMem refArch memFromTo fromSlotsSwapped toEmbedded :=
  mapStructFieldsMem_order_irrelevant refArch memFromTo fromSlots fromSlotsSwapped toSlots
    toEmbedded (List.Perm.swap _ _ []) (by decide) (by decide) (by decide)
    (separate_sound (by decide)) (separate_sound (by decide))

/-- C20 (counterexample): with the source `struct{A *int; B string}` whose `A`
points to the field `B` of the destination `struct{A int; B int}{1, 2}` and
whose `B` is `"5"`, the first call leaves the destination `{2, 5}` and the
second call, on the memory the first one left, `{5, 5}`. -/
theorem mapStructFieldsMem_not_idempotent :
    covered memShared fromAB toAB = true ∧
    mapStructFieldsMem refArch memShared fromAB toAB = some memSharedOnce ∧
    mapStructFieldsMem refArch memSharedOnce fromAB toAB = some memSharedTwice ∧
    memSharedTwice ≠ memSharedOnce := by
  decide

/-- C20 (amended): when the names of the source fields find in the destination
variables `toS` that share nothing with the source, the values are shaped, and
no nil `*interface{}` field of the destination is assigned by the call,
`mapStructFields` returns normally and a second call, on the memory the first
one left, returns that memory unchanged. -/
theorem mapStructFieldsMem_idempotent (a : Arch) (mem : Memory) (fromL toS : List Slot)
    (toL : List Entry)
    (hres : ∀ f ∈ fromL, resolve toL f.name = resolve (toS.map Entry.plain) f.name)
    (hsep : Separate mem fromL toS)
    (hs : ∀ s ∈ fromL ++ toS, (mem.valueAt s.addr).Shaped = true)
    (hni : nilIfaceKept a (loadRecord mem fromL) (loadRecord mem toS) = true) :
    ∃ m1, mapStructFieldsMem a mem fromL toL = some m1 ∧
      mapStructFieldsMem a m1 fromL toL = some m1 := by
  have hsF : ∀ f ∈ loadRecord mem fromL, f.value.Shaped = true := by
    intro f hf
    simp only [loadRecord, List.mem_map] at hf
    obtain ⟨s, hs', rfl⟩ := hf
    exact hs s (List.mem_append_left _ hs')
  have hsT : ∀ f ∈ loadRecord mem toS, f.value.Shaped = true := by
    intro f hf
    simp only [loadRecord, List.mem_map] at hf
    obtain ⟨s, hs', rfl⟩ := hf
    exact hs s (List.mem_append_right _ hs')
  obtain ⟨out, h1, h2⟩ := mapStructFields_twice a _ _ hsF hsT (nilIfaceKept_sound hni)
  obtain ⟨b1, k1⟩ := mapStructFieldsMem_load a mem fromL toS toL hres hsep
  rw [h1] at b1
  cases hm1 : mapStructFieldsMem a mem fromL toL with
  | none => simp [hm1] at b1
  | some m1 =>
    rw [hm1] at b1
    simp only [Option.map_some', Option.some.injEq] at b1
    obtain ⟨hsep1, hsrc1, -, -⟩ := k1 m1 hm1
    obtain ⟨b2, k2⟩ := mapStructFieldsMem_load a m1 fromL toS toL hres hsep1
    rw [hsrc1, b1, h2] at b2
    cases hm2 : mapStructFieldsMem a m1 fromL toL with
    | none => simp [hm2] at b2
    | some m2 =>
      rw [hm2] at b2
      simp only [Option.map_some', Option.some.injEq] at b2
      obtain ⟨hsep2, -, -, r2⟩ := k2 m2 hm2
      refine ⟨m1, rfl, ?_⟩
      rw [hm2]
      congr 1
      exact Memory.eq_of_load
        (fun s hs => hsep2.1 s (List.mem_append_right _ hs))
        (fun s hs => hsep1.1 s (List.mem_append_right _ hs)) (b2.trans b1.symm) r2

/-- The amended C20, at `From{ID: "1234", Balance: 123.345}` and the
destination `struct{Base; Balance string}` that embeds `struct{ID int}`. -/
theorem mapStructFieldsMem_idempotent_witness :
    ∃ m1, mapStructFieldsMem refArch memFromTo fromSlots toEmbedded = some m1 ∧
      mapStructFieldsMem refArch m1 fromSlots toEmbedded = some m1 :=
  mapStructFieldsMem_idempotent refArch memFromTo fromSlots toSlots toEmbedded
    (by decide) (separate_sound (by decide)) (by decide) (by decide)

end MapStruct
